import Mathlib

/-!
The obfuscators of must-gather-clean

A shallow embedding of `pkg/match/ipv4_matcher.go` and of package
`pkg/obfuscator`: the fast IPv4 obfuscator (`fast_ipv4.go`), the pattern-based
IPv4 and IPv6 obfuscators (`ipv4.go`, `ipv6.go`), the constructor of
`mac_address.go`, and the `SimpleTracker` and the `StripedTracker` of
`tracker.go`.

Go strings are byte sequences: a string is a `List Nat` whose entries are the
byte values.  Loops over an index are functions with a fuel argument that is
structurally decreasing; the fuel given by the entry points is shown to be
enough (more fuel never changes a result).  A Go map is an association list
that is read with `mapGet` and written with `mapSet`; the fatal exit of
`klog.Exitf` is the value `none`.  Two goroutines in one method of a tracker
are an interleaving of their steps, one step for every access to what they
share.  The fast path has a second embedding in which every index and slice
expression is checked as the Go runtime checks it.
-/

namespace MustGatherClean

/-- A Go string: its bytes, in order. -/
abbrev Str := List Nat

/-- The bytes of an ASCII literal. -/
def ascii (s : String) : Str := s.toList.map Char.toNat

/-! ## pkg/match/ipv4_matcher.go -/

/-- The constant `maxOctetSize = 0xFF`. -/
def maxOctetSize : Nat := 0xFF

/-- The loop of `parseOctet`: `s` is the text from index `i` on, `n` the value
accumulated so far. Returns number, characters consumed, success. -/
def parseOctetLoop : Str → Nat → Nat → Nat × Nat × Bool
  | [], n, i => if i = 0 then (0, 0, false) else (n, i, true)
  | c :: rest, n, i =>
    if 48 ≤ c ∧ c ≤ 57 then
      if n * 10 + (c - 48) ≥ maxOctetSize then (maxOctetSize, i, false)
      else parseOctetLoop rest (n * 10 + (c - 48)) (i + 1)
    else if i = 0 then (0, 0, false) else (n, i, true)

/-- The function `parseOctet`: returns number, characters consumed, success. -/
def parseOctet (s : Str) : Nat × Nat × Bool := parseOctetLoop s 0 0

/-- The loop of `tryParseIPv4`, with `k` iterations left; `i` is the octet
index, `s` the text not yet consumed, `lastSep` the separator seen (0 for none)
and `p` the octets parsed so far. -/
def tryParseIPv4Loop (oLen : Nat) : Nat → Nat → Str → Nat → List Nat → Option (List Nat) × Nat
  | 0, _, s, _, p => (some p, oLen - s.length)
  | k + 1, i, s, lastSep, p =>
    if s.length = 0 then (none, oLen - s.length)
    else if i > 0 ∧ ((s.headD 0 ≠ 46 ∧ s.headD 0 ≠ 45) ∨ (lastSep ≠ 0 ∧ s.headD 0 ≠ lastSep)) then
      (none, oLen - s.length)
    else
      let lastSep1 := if i > 0 then s.headD 0 else lastSep
      let s1 := if i > 0 then s.drop 1 else s
      match parseOctet s1 with
      | (n, c, ok) =>
        if ok = false ∨ n > 0xFF then (none, oLen - s1.length)
        else tryParseIPv4Loop oLen k (i + 1) (s1.drop c) lastSep1 (p ++ [n % 256])

/-- The function `tryParseIPv4`: the four octets when they parse (`nil`
otherwise) and the number of bytes consumed. -/
def tryParseIPv4 (s : Str) : Option (List Nat) × Nat :=
  tryParseIPv4Loop s.length 4 0 s 0 []

/-- Decimal rendering of a byte, as `net.IP.String` writes an octet. -/
def ubtoa (v : Nat) : Str :=
  if v < 10 then [v + 48]
  else if v < 100 then [v / 10 + 48, v % 10 + 48]
  else [v / 100 + 48, v / 10 % 10 + 48, v % 10 + 48]

/-- The method `net.IP.String` on the result of `net.IPv4(p[0], p[1], p[2], p[3])`:
dotted decimal. -/
def ipString (p : List Nat) : Str :=
  ubtoa (p.getD 0 0) ++ [46] ++ ubtoa (p.getD 1 0) ++ [46] ++ ubtoa (p.getD 2 0) ++ [46]
    ++ ubtoa (p.getD 3 0)

/-- The loop of `FindNextIPv4` from index `i`. -/
def findLoop (s : Str) : Nat → Nat → Str × Nat × Nat
  | 0, i => ([], 0, i)
  | fuel + 1, i =>
    if i < s.length then
      if s.getD i 0 ≥ 49 ∧ s.getD i 0 ≤ 57 then
        match tryParseIPv4 (s.drop i) with
        | (some foundIp, nextIndex) => (ipString foundIp, i, i + nextIndex)
        | (none, nextIndex) => findLoop s fuel (i + nextIndex + 1)
      else findLoop s fuel (i + 1)
    else ([], 0, i)

/-- The function `FindNextIPv4`: the normalized address found (empty for none),
the starting index (inclusive) and the end index (exclusive). -/
def FindNextIPv4 (s : Str) : Str × Nat × Nat := findLoop s (s.length + 1) 0

/-! ## pkg/obfuscator/tracker.go: SimpleTracker -/

/-- A Go `map[string]string`, as an association list without repeated keys. -/
abbrev Mapping := List (Str × Str)

/-- The map read `val, ok := m[k]`. -/
def mapGet : Mapping → Str → Option Str
  | [], _ => none
  | (k1, v1) :: rest, k => if k1 = k then some v1 else mapGet rest k

/-- The map write `m[k] = v`. -/
def mapSet : Mapping → Str → Str → Mapping
  | [], k, v => [(k, v)]
  | (k1, v1) :: rest, k, v => if k1 = k then (k, v) :: rest else (k1, v1) :: mapSet rest k v

/-- The method `SimpleTracker.AddReplacement`; `none` is the fatal exit of
`klog.Exitf`. -/
def AddReplacement (mapping : Mapping) (original replacement : Str) : Option Mapping :=
  match mapGet mapping original with
  | some val => if replacement ≠ val then none else some mapping
  | none => some (mapSet mapping original replacement)

/-- The method `SimpleTracker.GenerateIfAbsent`. A generator is a function with
its own state `g`; `none` is the nil generator. Returns the replacement, the
mapping and the state of the generator afterwards. -/
def GenerateIfAbsent {σ : Type} (mapping : Mapping) (original key : Str)
    (generator : Option (σ → Str → Str × σ)) (g : σ) : Str × Mapping × σ :=
  match mapGet mapping original with
  | some val => (val, mapping, g)
  | none =>
    match generator with
    | none => ([], mapping, g)
    | some gen =>
      match gen g key with
      | (r, g1) => (r, mapSet mapping original r, g1)

/-- The method `SimpleTracker.Report`: a copy of the mapping. -/
def Report (mapping : Mapping) : Mapping := mapping

/-- The function `NewSimpleTracker`. -/
def NewSimpleTracker : Mapping := []

/-! ## The replacement generator -/

/-- Decimal digits of `n`, most significant first, prepended to `acc`. -/
def itoaLoop : Nat → Nat → Str → Str
  | 0, _, acc => acc
  | fuel + 1, n, acc =>
    if n < 10 then (n + 48) :: acc else itoaLoop fuel (n / 10) ((n % 10 + 48) :: acc)

/-- Decimal rendering of a natural number. -/
def itoa (n : Nat) : Str := itoaLoop (n + 1) n []

/-- A format string with one `%0<width>d` verb between two literal parts. -/
structure Template where
  pre : Str
  width : Nat
  post : Str
deriving DecidableEq

/-- The call `fmt.Sprintf(template, n)` for `n ≥ 0`: the decimal digits of `n`
padded with zeros on the left to the width. -/
def sprintf (t : Template) (n : Nat) : Str :=
  t.pre ++ List.replicate (t.width - (itoa n).length) 48 ++ itoa n ++ t.post

/-- Modelled from the spec: the type `generator` of generator.go, which is not
among the sources. It owns a template, the static value, a counter and the
numeric ceiling; `count` is the next counter value. -/
structure generator where
  template : Template
  static : Str
  count : Nat
  max : Nat
deriving DecidableEq

/-- Modelled from the spec: `newGenerator` of generator.go; the counter starts
at 1. -/
def newGenerator (template : Template) (static : Str) (max : Nat) : generator :=
  { template := template, static := static, count := 1, max := max }

/-- Modelled from the spec: `generateStaticReplacement` of generator.go returns
the static value whatever the key. -/
def generateStaticReplacement (g : generator) (_key : Str) : Str × generator :=
  (g.static, g)

/-- Modelled from the spec: `generateConsistentReplacement` of generator.go
fills the template with the next counter value; the counter increments once per
call whatever the key. -/
def generateConsistentReplacement (g : generator) (_key : Str) : Str × generator :=
  (sprintf g.template g.count, { g with count := g.count + 1 })

/-! ## pkg/obfuscator/ipv4.go and pkg/obfuscator/fast_ipv4.go -/

/-- The constant `obfuscatedStaticIPv4`. -/
def obfuscatedStaticIPv4 : Str := ascii "xxx.xxx.xxx.xxx"

/-- The constant `consistentIPv4Template`, "x-ipv4-%010d-x". -/
def consistentIPv4Template : Template :=
  { pre := ascii "x-ipv4-", width := 10, post := ascii "-x" }

/-- Modelled from the spec: the constant `schema.ObfuscateReplacementTypeStatic`
of package schema, which is not among the sources; the static mode. That the
two modes differ is all that is used of their values. -/
def ObfuscateReplacementTypeStatic : Str := ascii "Static"

/-- Modelled from the spec: the constant
`schema.ObfuscateReplacementTypeConsistent` of package schema, which is not
among the sources; the consistent mode. -/
def ObfuscateReplacementTypeConsistent : Str := ascii "Consistent"

/-- The struct `fastIpv4Obfuscator`: the tracker it embeds (a `SimpleTracker`),
its generator and its replacement type. -/
structure fastIpv4Obfuscator where
  tracker : Mapping
  gen : generator
  replacementType : Str
deriving DecidableEq

/-- The Go conversion `string(b)` of a byte: the UTF-8 encoding of the code
point `b`. -/
def byteToString (b : Nat) : Str :=
  if b < 128 then [b] else [192 + b / 64, 128 + b % 64]

/-- The slice expression `s[a:b]`. -/
def slice (s : Str) (a b : Nat) : Str := (s.take b).drop a

/-- The `switch o.replacementType` of `replace`: the replacement for the
normalized address `ip`, from `GenerateIfAbsent`. The call in fast_ipv4.go
passes the address and the generator; the method of the tracker takes the
original and the key for the generator, and the address is both here (the
generators ignore the key). A type that is neither static nor consistent
leaves the replacement empty. -/
def generateFor (o : fastIpv4Obfuscator) (ip : Str) : Str × fastIpv4Obfuscator :=
  if o.replacementType = ObfuscateReplacementTypeStatic then
    match GenerateIfAbsent o.tracker ip ip (some generateStaticReplacement) o.gen with
    | (r, m, g) => (r, { o with tracker := m, gen := g })
  else if o.replacementType = ObfuscateReplacementTypeConsistent then
    match GenerateIfAbsent o.tracker ip ip (some generateConsistentReplacement) o.gen with
    | (r, m, g) => (r, { o with tracker := m, gen := g })
  else ([], o)

/-- The loop of `fastIpv4Obfuscator.replace` from index `i`; `sb` is the
content of the string builder. `none` is the fatal exit of the tracker. -/
def replaceLoop (s : Str) : Nat → Nat → Nat → Str → fastIpv4Obfuscator →
    Option (Str × fastIpv4Obfuscator)
  | 0, _, _, sb, o => some (sb, o)
  | fuel + 1, i, lastWriteIndex, sb, o =>
    if i < s.length then
      match FindNextIPv4 (s.drop i) with
      | (ip, start, endIdx) =>
        if ip ≠ [] then
          match generateFor o ip with
          | (replacement, o1) =>
            match AddReplacement o1.tracker ip replacement with
            | none => none
            | some m2 =>
              match AddReplacement m2 (slice (s.drop i) start endIdx) replacement with
              | none => none
              | some m3 =>
                replaceLoop s fuel (i + endIdx) (i + endIdx)
                  (sb ++ slice s lastWriteIndex (i + start) ++ replacement)
                  { o1 with tracker := m3 }
        else replaceLoop s fuel (i + 1) i (sb ++ byteToString (s.getD i 0)) o
    else some (sb, o)

/-- The method `fastIpv4Obfuscator.replace`: the output and the obfuscator
afterwards, or `none` for the fatal exit. -/
def replace (o : fastIpv4Obfuscator) (s : Str) : Option (Str × fastIpv4Obfuscator) :=
  match replaceLoop s s.length 0 0 [] o with
  | none => none
  | some (sb, o1) => if sb.length = 0 then some (s, o1) else some (sb, o1)

/-- The method `fastIpv4Obfuscator.Contents`. -/
def Contents (o : fastIpv4Obfuscator) (s : Str) : Option (Str × fastIpv4Obfuscator) :=
  replace o s

/-- The method `fastIpv4Obfuscator.Path`. -/
def Path (o : fastIpv4Obfuscator) (s : Str) : Option (Str × fastIpv4Obfuscator) :=
  replace o s

/-- The function `NewFastIPv4Obfuscator`. -/
def NewFastIPv4Obfuscator (replacementType : Str) : Except Str fastIpv4Obfuscator :=
  if replacementType ≠ ObfuscateReplacementTypeStatic ∧
      replacementType ≠ ObfuscateReplacementTypeConsistent then
    .error (ascii "unsupported replacement type: " ++ replacementType)
  else
    .ok { tracker := NewSimpleTracker
          gen := newGenerator consistentIPv4Template obfuscatedStaticIPv4 9999999999
          replacementType := replacementType }

/-- A fresh fast IPv4 obfuscator in consistent mode. -/
def freshConsistent : fastIpv4Obfuscator :=
  { tracker := NewSimpleTracker
    gen := newGenerator consistentIPv4Template obfuscatedStaticIPv4 9999999999
    replacementType := ObfuscateReplacementTypeConsistent }

/-- A fresh fast IPv4 obfuscator in static mode. -/
def freshStatic : fastIpv4Obfuscator :=
  { tracker := NewSimpleTracker
    gen := newGenerator consistentIPv4Template obfuscatedStaticIPv4 9999999999
    replacementType := ObfuscateReplacementTypeStatic }

/-! ## pkg/obfuscator/tracker.go: Initialize and the StripedTracker -/

/-- The loop `for k, v := range replacements { mapping[k] = v }`. -/
def copyInto (mapping replacements : Mapping) : Mapping :=
  replacements.foldl (fun m e => mapSet m e.1 e.2) mapping

/-- The method `SimpleTracker.Initialize`; `none` is the fatal exit of
`klog.Exitf`. -/
def Initialize (mapping replacements : Mapping) : Option Mapping :=
  if mapping.length > 0 then none else some (copyInto mapping replacements)

/-- The hash of `fnv.New32()` after `Write(key)`, as `Sum32` returns it: FNV-1,
for each byte a multiplication by the prime 16777619 modulo 2^32 and then the
exclusive or with the byte. -/
def fnv32 (key : Str) : Nat :=
  key.foldl (fun h b => ((h * 16777619) % 4294967296) ^^^ b) 2166136261

/-- The struct `StripedTracker`. The mutexes of `stripes` hold no data: in a
sequential run every `Lock` succeeds and is released on return, so only their
number, the length of `mapping`, is kept. -/
structure StripedTracker where
  initialized : Bool
  mapping : List Mapping
deriving DecidableEq

namespace StripedTracker

/-- The index that `getLockAndMap` computes: `int(h.Sum32()) % len(s.stripes)`. -/
def stripeIdx (s : StripedTracker) (key : Str) : Nat := fnv32 key % s.mapping.length

/-- The map that `getLockAndMap` returns for the key. -/
def getMap (s : StripedTracker) (key : Str) : Mapping := s.mapping.getD (s.stripeIdx key) []

/-- The write `mapping[k] = v` into the map that `getLockAndMap` returned for
`key`. -/
def setIn (s : StripedTracker) (key k v : Str) : StripedTracker :=
  { s with mapping := s.mapping.set (s.stripeIdx key) (mapSet (s.getMap key) k v) }

/-- The method `StripedTracker.Report`: the entries of all stripes copied into
one map. -/
def Report (s : StripedTracker) : Mapping :=
  s.mapping.foldl (fun defensiveCopy maps => copyInto defensiveCopy maps) []

/-- The method `StripedTracker.AddReplacement`; `none` is the fatal exit. -/
def AddReplacement (s : StripedTracker) (original replacement : Str) : Option StripedTracker :=
  match mapGet (s.getMap original) original with
  | some val => if replacement ≠ val then none else some s
  | none => some (s.setIn original original replacement)

/-- The method `StripedTracker.GenerateIfAbsent`. -/
def GenerateIfAbsent {σ : Type} (s : StripedTracker) (original key : Str)
    (generator : Option (σ → Str → Str × σ)) (g : σ) : Str × StripedTracker × σ :=
  match mapGet (s.getMap original) original with
  | some val => (val, s, g)
  | none =>
    match generator with
    | none => ([], s, g)
    | some gen =>
      match gen g key with
      | (r, g1) => (r, s.setIn original original r, g1)

/-- The method `StripedTracker.Initialize`; `none` is the fatal exit. -/
def Initialize (s : StripedTracker) (replacements : Mapping) : Option StripedTracker :=
  if s.initialized then none
  else some (replacements.foldl (fun t e => t.setIn e.1 e.1 e.2) { s with initialized := true })

end StripedTracker

/-- The function `NewStripedTracker` with `numStripes` stripes; the source takes
`4 * runtime.NumCPU()` for the number. -/
def NewStripedTracker (numStripes : Nat) : StripedTracker :=
  { initialized := false, mapping := List.replicate numStripes [] }

/-! ## The library calls of the pattern-based obfuscators -/

/-- The scan of `strings.ReplaceAll(s, old, new)` for a non-empty `old`: `skip`
bytes of an occurrence of `old` are still to be passed over. -/
def replaceAllAux (old new : Str) : Nat → Str → Str
  | _, [] => []
  | skip + 1, _ :: rest => replaceAllAux old new skip rest
  | 0, c :: rest =>
    if old.isPrefixOf (c :: rest) then new ++ replaceAllAux old new (old.length - 1) rest
    else c :: replaceAllAux old new 0 rest

/-- The call `strings.ReplaceAll(s, old, new)`: the occurrences of `old` from
left to right, none overlapping the one before, replaced by `new`. For an empty
`old` Go puts `new` before every UTF-8 sequence and at the end; the model does
so before every byte, which is the same on ASCII text (the obfuscators never
pass an empty `old`). -/
def ReplaceAll (s old new : Str) : Str :=
  if old = [] then new ++ s.flatMap (fun c => c :: new) else replaceAllAux old new 0 s

/-- The value `big` of package net. -/
def big : Nat := 0xFFFFFF

/-- The loop of `dtoi` of package net: decimal to integer. -/
def dtoiLoop : Str → Nat → Nat → Nat × Nat × Bool
  | [], n, i => if i = 0 then (0, 0, false) else (n, i, true)
  | c :: rest, n, i =>
    if 48 ≤ c ∧ c ≤ 57 then
      if n * 10 + (c - 48) ≥ big then (big, i, false)
      else dtoiLoop rest (n * 10 + (c - 48)) (i + 1)
    else if i = 0 then (0, 0, false) else (n, i, true)

/-- The function `dtoi` of package net: number, characters consumed, success. -/
def dtoi (s : Str) : Nat × Nat × Bool := dtoiLoop s 0 0

/-- The value of a hexadecimal digit, `none` for another byte. -/
def hexVal (c : Nat) : Option Nat :=
  if 48 ≤ c ∧ c ≤ 57 then some (c - 48)
  else if 97 ≤ c ∧ c ≤ 102 then some (c - 97 + 10)
  else if 65 ≤ c ∧ c ≤ 70 then some (c - 65 + 10)
  else none

/-- The loop of `xtoi` of package net: hexadecimal to integer. -/
def xtoiLoop : Str → Nat → Nat → Nat × Nat × Bool
  | [], n, i => if i = 0 then (0, i, false) else (n, i, true)
  | c :: rest, n, i =>
    match hexVal c with
    | some v =>
      if n * 16 + v ≥ big then (0, i, false) else xtoiLoop rest (n * 16 + v) (i + 1)
    | none => if i = 0 then (0, i, false) else (n, i, true)

/-- The function `xtoi` of package net: number, characters consumed, success. -/
def xtoi (s : Str) : Nat × Nat × Bool := xtoiLoop s 0 0

/-- The loop of `parseIPv4` of package net, with `k` fields left; fields with
leading zeros are rejected. -/
def parseIPv4Loop : Nat → Nat → Str → List Nat → Option (List Nat)
  | 0, _, s, p => if s.length ≠ 0 then none else some p
  | k + 1, i, s, p =>
    if s.length = 0 then none
    else if i > 0 ∧ s.headD 0 ≠ 46 then none
    else
      let s1 := if i > 0 then s.drop 1 else s
      match dtoi s1 with
      | (n, c, ok) =>
        if ok = false ∨ n > 0xFF then none
        else if c > 1 ∧ s1.headD 0 = 48 then none
        else parseIPv4Loop k (i + 1) (s1.drop c) (p ++ [n])

/-- The function `parseIPv4` of package net: the four bytes, `none` for nil. -/
def parseIPv4 (s : Str) : Option (List Nat) := parseIPv4Loop 4 0 s []

/-- The loop of `parseIPv6` of package net over the 16-bit fields, with `k`
fields left: `i` is the byte index of the next field, `ellipsis` the byte index
of "::" (`none` for -1), `p` the fields parsed. Returns the fields, the place of
the ellipsis, the byte index reached and the text left. -/
def parseIPv6Loop : Nat → Nat → Option Nat → Str → List Nat →
    Option (List Nat × Option Nat × Nat × Str)
  | 0, i, ellipsis, s, p => some (p, ellipsis, i, s)
  | k + 1, i, ellipsis, s, p =>
    match xtoi s with
    | (n, c, ok) =>
      if ok = false ∨ n > 0xFFFF then none
      else if c < s.length ∧ s.getD c 0 = 46 then
        -- a trailing IPv4 address
        if ellipsis = none ∧ i ≠ 12 then none
        else if i + 4 > 16 then none
        else
          match parseIPv4 s with
          | none => none
          | some ip4 => some (p ++ ip4, ellipsis, i + 4, [])
      else
        let s1 := s.drop c
        if s1.length = 0 then some (p ++ [n], ellipsis, i + 2, s1)
        else if s1.headD 0 ≠ 58 ∨ s1.length = 1 then none
        else
          let s2 := s1.drop 1
          if s2.headD 0 = 58 then
            if ellipsis ≠ none then none
            else
              let s3 := s2.drop 1
              if s3.length = 0 then some (p ++ [n], some (i + 2), i + 2, s3)
              else parseIPv6Loop k (i + 2) (some (i + 2)) s3 (p ++ [n])
          else parseIPv6Loop k (i + 2) ellipsis s2 (p ++ [n])

/-- The function `parseIPv6` of package net; `none` is nil. The result holds
the fields parsed, not yet expanded at the ellipsis: the callers only test it
for nil. -/
def parseIPv6 (s : Str) : Option (List Nat) :=
  let lead := s.length ≥ 2 ∧ s.headD 0 = 58 ∧ s.getD 1 0 = 58
  let s0 := if lead then s.drop 2 else s
  if lead ∧ s0.length = 0 then some []
  else
    match parseIPv6Loop 8 0 (if lead then some 0 else none) s0 [] with
    | none => none
    | some (p, ellipsis, i, rest) =>
      if rest.length ≠ 0 then none
      else if i < 16 then (if ellipsis = none then none else some p)
      else if ellipsis ≠ none then none
      else some p

/-- The function `net.ParseIP`: the first '.' or ':' of the text decides
between `parseIPv4` and `parseIPv6`; `none` is nil. -/
def ParseIP (s : Str) : Option (List Nat) :=
  match s.find? (fun c => c = 46 ∨ c = 58) with
  | some 46 => parseIPv4 s
  | some _ => parseIPv6 s
  | none => none

/-- A byte of the class `\w` of package regexp: a letter, a digit or '_'. -/
def isWordByte (c : Nat) : Bool :=
  (48 ≤ c ∧ c ≤ 57) ∨ (65 ≤ c ∧ c ≤ 90) ∨ (97 ≤ c ∧ c ≤ 122) ∨ c = 95

/-- A byte of the class `[0-9]`. -/
def isDigitByte (c : Nat) : Bool := 48 ≤ c ∧ c ≤ 57

/-- A byte of the class `[a-f0-9]`. -/
def isHexLower (c : Nat) : Bool := (48 ≤ c ∧ c ≤ 57) ∨ (97 ≤ c ∧ c ≤ 102)

/-- The part `[0-9]{1,3}[sep]` of `ipv4Pattern` at the head of `t`: the number
of bytes it takes. The digits before the separator are the whole run of digits
there, so it matches in one way or not at all. -/
def ipv4Group (sep : Nat) (t : Str) : Option Nat :=
  let ds := t.takeWhile isDigitByte
  if 1 ≤ ds.length ∧ ds.length ≤ 3 ∧ (t.drop ds.length).head? = some sep
  then some (ds.length + 1) else none

/-- The part `([0-9]{1,3}[sep]){3}([0-9]{1,3})` of `ipv4Pattern` at the head of
`t`: the number of bytes it takes, the last part greedy. -/
def ipv4GroupsThenTail (sep : Nat) (t : Str) : Option Nat :=
  match ipv4Group sep t with
  | none => none
  | some n1 =>
    match ipv4Group sep (t.drop n1) with
    | none => none
    | some n2 =>
      match ipv4Group sep (t.drop (n1 + n2)) with
      | none => none
      | some n3 =>
        let ds := (t.drop (n1 + n2 + n3)).takeWhile isDigitByte
        if 1 ≤ ds.length then some (n1 + n2 + n3 + min ds.length 3) else none

/-- The match of `ipv4Pattern`,
`\b(([0-9]{1,3}[.]){3}|([0-9]{1,3}[-]){3})([0-9]{1,3})`, that starts where the
text `t` starts, `prev` being the byte before: the length of the match. The
word boundary asks for no word byte before the first digit; the alternative
with dots is tried first. -/
def ipv4PatternAt (prev : Option Nat) (t : Str) : Option Nat :=
  if (match prev with | some c => isWordByte c | none => false) then none
  else
    match ipv4GroupsThenTail 46 t with
    | some n => some n
    | none => ipv4GroupsThenTail 45 t

/-- The loop of `FindAllString` for `ipv4Pattern` from index `i`: the leftmost
match from there, then on from its end. -/
def ipv4FindAllLoop (s : Str) : Nat → Nat → List Str
  | 0, _ => []
  | fuel + 1, i =>
    if i < s.length then
      match ipv4PatternAt (if i = 0 then none else s.get? (i - 1)) (s.drop i) with
      | some n => (s.drop i).take n :: ipv4FindAllLoop s fuel (i + n)
      | none => ipv4FindAllLoop s fuel (i + 1)
    else []

/-- The call `ipv4Pattern.FindAllString(s, -1)`. -/
def ipv4PatternFindAllString (s : Str) : List Str := ipv4FindAllLoop s s.length 0

/-- The part `[a-f0-9]{0,4}[:]` of `ipv6Pattern` at the head of `t`: the number
of bytes it takes. -/
def ipv6Group (t : Str) : Option Nat :=
  let hs := t.takeWhile isHexLower
  if hs.length ≤ 4 ∧ (t.drop hs.length).head? = some 58 then some (hs.length + 1) else none

/-- The part `[a-f0-9]{1,4}` at the end of `ipv6Pattern`, greedy. -/
def ipv6Tail (t : Str) : Option Nat :=
  let hs := t.takeWhile isHexLower
  if 1 ≤ hs.length then some (min hs.length 4) else none

/-- The repetition `(...){1,8}` of `ipv6Pattern` followed by its last part,
after `k` groups and with `rem` more allowed: greedy, one more group is tried
before the last part. Returns the number of bytes taken from `t` on. -/
def ipv6Groups : Nat → Nat → Str → Option Nat
  | 0, k, t => if k ≥ 1 then ipv6Tail t else none
  | rem + 1, k, t =>
    match ipv6Group t with
    | some n =>
      match ipv6Groups rem (k + 1) (t.drop n) with
      | some l => some (n + l)
      | none => if k ≥ 1 then ipv6Tail t else none
    | none => if k ≥ 1 then ipv6Tail t else none

/-- The match of `ipv6Pattern`, `([a-f0-9]{0,4}[:]){1,8}[a-f0-9]{1,4}`, that
starts where the text `t` starts: its length. -/
def ipv6PatternAt (t : Str) : Option Nat := ipv6Groups 8 0 t

/-- The loop of `FindAllString` for `ipv6Pattern` from index `i`. -/
def ipv6FindAllLoop (s : Str) : Nat → Nat → List Str
  | 0, _ => []
  | fuel + 1, i =>
    if i < s.length then
      match ipv6PatternAt (s.drop i) with
      | some n => (s.drop i).take n :: ipv6FindAllLoop s fuel (i + n)
      | none => ipv6FindAllLoop s fuel (i + 1)
    else []

/-- The call `ipv6Pattern.FindAllString(s, -1)`. -/
def ipv6PatternFindAllString (s : Str) : List Str := ipv6FindAllLoop s s.length 0

/-! ## pkg/obfuscator/ipv4.go, ipv6.go and mac_address.go -/

/-- The keys of the map `excludedIPv4s`. -/
def excludedIPv4s : List Str := [ascii "127.0.0.1", ascii "0.0.0.0"]

/-- The keys of the map `excludedIPv6s`. -/
def excludedIPv6s : List Str := [ascii "::1"]

/-- The constant `obfuscatedStaticIPv6`. -/
def obfuscatedStaticIPv6 : Str := ascii "xxxx:xxxx:xxxx:xxxx:xxxx:xxxx:xxxx:xxxx"

/-- The constant `consistentIPv6Template`, "xx-ipv6-%018d-xx". -/
def consistentIPv6Template : Template :=
  { pre := ascii "xx-ipv6-", width := 18, post := ascii "-xx" }

/-- The constant `staticMacReplacement`. -/
def staticMacReplacement : Str := ascii "xx:xx:xx:xx:xx:xx"

/-- The constant `consistentMACTemplate`, "xxx-mac-%06d-xxx". -/
def consistentMACTemplate : Template :=
  { pre := ascii "xxx-mac-", width := 6, post := ascii "-xxx" }

/-- The struct `ipv4Obfuscator`. -/
structure ipv4Obfuscator where
  tracker : Mapping
  gen : generator
  replacementType : Str
deriving DecidableEq

/-- The struct `ipv6Obfuscator`. -/
structure ipv6Obfuscator where
  tracker : Mapping
  gen : generator
  replacementType : Str
deriving DecidableEq

/-- The struct `macAddressObfuscator`; `regex` is the text of the pattern that
`regexp.MustCompile` compiles. -/
structure macAddressObfuscator where
  tracker : Mapping
  replacementType : Str
  regex : Str
  gen : generator
deriving DecidableEq

/-- The `switch replacementType` of the pattern-based `replace`: the replacement
for `cleaned`, from `GenerateIfAbsent`, with the tracker and the generator
afterwards. As in fast_ipv4.go the call passes the address and the generator;
the address is original and key. -/
def generateByType (replacementType : Str) (tracker : Mapping) (gen : generator) (cleaned : Str) :
    Str × Mapping × generator :=
  if replacementType = ObfuscateReplacementTypeStatic then
    GenerateIfAbsent tracker cleaned cleaned (some generateStaticReplacement) gen
  else if replacementType = ObfuscateReplacementTypeConsistent then
    GenerateIfAbsent tracker cleaned cleaned (some generateConsistentReplacement) gen
  else ([], tracker, gen)

/-- The loop `for _, m := range ipMatches` of `ipv4Obfuscator.replace` and of
`ipv6Obfuscator.replace`, which differ in the pattern and in the exclusion set
only: the output, the tracker and the generator afterwards, or `none` for the
fatal exit. -/
def replaceMatches (excluded : List Str) (replacementType : Str) :
    List Str → Str → Mapping → generator → Option (Str × Mapping × generator)
  | [], output, tracker, gen => some (output, tracker, gen)
  | m :: rest, output, tracker, gen =>
    if m ∈ excluded then replaceMatches excluded replacementType rest output tracker gen
    else
      if (ParseIP (ReplaceAll m [45] [46])).isSome then
        match generateByType replacementType tracker gen (ReplaceAll m [45] [46]) with
        | (replacement, tracker1, gen1) =>
          match AddReplacement tracker1 m replacement with
          | none => none
          | some tracker2 =>
            replaceMatches excluded replacementType rest (ReplaceAll output m replacement)
              tracker2 gen1
      else replaceMatches excluded replacementType rest output tracker gen

/-- The method `ipv4Obfuscator.replace`. -/
def ipv4Obfuscator.replace (o : ipv4Obfuscator) (s : Str) : Option (Str × ipv4Obfuscator) :=
  match replaceMatches excludedIPv4s o.replacementType (ipv4PatternFindAllString s) s
      o.tracker o.gen with
  | none => none
  | some (output, tracker, gen) => some (output, { o with tracker := tracker, gen := gen })

/-- The method `ipv4Obfuscator.Contents`. -/
def ipv4Obfuscator.Contents (o : ipv4Obfuscator) (s : Str) : Option (Str × ipv4Obfuscator) :=
  o.replace s

/-- The method `ipv4Obfuscator.Path`. -/
def ipv4Obfuscator.Path (o : ipv4Obfuscator) (s : Str) : Option (Str × ipv4Obfuscator) :=
  o.replace s

/-- The method `ipv6Obfuscator.replace`. -/
def ipv6Obfuscator.replace (o : ipv6Obfuscator) (s : Str) : Option (Str × ipv6Obfuscator) :=
  match replaceMatches excludedIPv6s o.replacementType (ipv6PatternFindAllString s) s
      o.tracker o.gen with
  | none => none
  | some (output, tracker, gen) => some (output, { o with tracker := tracker, gen := gen })

/-- The method `ipv6Obfuscator.Contents`. -/
def ipv6Obfuscator.Contents (o : ipv6Obfuscator) (s : Str) : Option (Str × ipv6Obfuscator) :=
  o.replace s

/-- The method `ipv6Obfuscator.Path`. -/
def ipv6Obfuscator.Path (o : ipv6Obfuscator) (s : Str) : Option (Str × ipv6Obfuscator) :=
  o.replace s

/-- The function `NewIPv4Obfuscator`. -/
def NewIPv4Obfuscator (replacementType : Str) : Except Str ipv4Obfuscator :=
  if replacementType ≠ ObfuscateReplacementTypeStatic ∧
      replacementType ≠ ObfuscateReplacementTypeConsistent then
    .error (ascii "unsupported replacement type: " ++ replacementType)
  else
    .ok { tracker := NewSimpleTracker
          gen := newGenerator consistentIPv4Template obfuscatedStaticIPv4 9999999999
          replacementType := replacementType }

/-- The function `NewIPv6Obfuscator`. -/
def NewIPv6Obfuscator (replacementType : Str) : Except Str ipv6Obfuscator :=
  if replacementType ≠ ObfuscateReplacementTypeStatic ∧
      replacementType ≠ ObfuscateReplacementTypeConsistent then
    .error (ascii "unsupported replacement type: " ++ replacementType)
  else
    .ok { tracker := NewSimpleTracker
          gen := newGenerator consistentIPv6Template obfuscatedStaticIPv6 999999999999999999
          replacementType := replacementType }

/-- The function `NewMacAddressObfuscator`. -/
def NewMacAddressObfuscator (replacementType : Str) : Except Str macAddressObfuscator :=
  if replacementType ≠ ObfuscateReplacementTypeStatic ∧
      replacementType ≠ ObfuscateReplacementTypeConsistent then
    .error (ascii "unsupported replacement type: " ++ replacementType)
  else
    .ok { tracker := NewSimpleTracker
          replacementType := replacementType
          regex := ascii "([0-9a-fA-F]\x7b2\x7d[:-])\x7b5\x7d[0-9a-fA-F]\x7b2\x7d"
          gen := newGenerator consistentMACTemplate staticMacReplacement 999999 }

/-! ## pkg/obfuscator/tracker.go: goroutines in GenerateIfAbsent -/

/-- The state of a `sync.RWMutex`: the number of goroutines that hold it for
reading, and whether one holds it for writing. -/
structure RWMutex where
  readers : Nat
  writer : Bool
deriving DecidableEq

namespace RWMutex

/-- The method `RLock`: any number of readers hold the lock together, and none
while a writer holds it; `none` when the caller has to wait. -/
def RLock (l : RWMutex) : Option RWMutex :=
  if l.writer then none else some { l with readers := l.readers + 1 }

/-- The method `RUnlock`. -/
def RUnlock (l : RWMutex) : RWMutex := { l with readers := l.readers - 1 }

/-- The method `Lock`: the writer holds the lock alone; `none` when the caller
has to wait. -/
def Lock (l : RWMutex) : Option RWMutex :=
  if l.writer ∨ l.readers > 0 then none else some { l with writer := true }

/-- The method `Unlock`. -/
def Unlock (l : RWMutex) : RWMutex := { l with writer := false }

end RWMutex

/-- Where a goroutine is in a call of `GenerateIfAbsent`: at the call that takes
the lock, at the lookup `val, ok := mapping[original]`, at the call
`r := generator(key)`, at the write `mapping[original] = r`, at the deferred
call that releases the lock, or back at the caller with the value returned. -/
inductive Call where
  | atLock
  | atLookup
  | atGenerate
  | atStore (r : Str)
  | atUnlock (ret : Str)
  | returned (ret : Str)
deriving DecidableEq

/-- What the goroutines in calls on one `SimpleTracker` share: the lock and the
map of the tracker, and the state of the generator; `calls` counts the calls of
the generator. -/
structure SimpleShared (σ : Type) where
  lock : RWMutex
  mapping : Mapping
  gen : σ
  calls : Nat
deriving DecidableEq

/-- One step of a goroutine in `SimpleTracker.GenerateIfAbsent`: the lock is
taken with `s.lock.RLock()` and released with `s.lock.RUnlock()`. `none` when
the goroutine has to wait or has returned. -/
def SimpleShared.step {σ : Type} (original key : Str) (generator : Option (σ → Str → Str × σ))
    (sh : SimpleShared σ) : Call → Option (SimpleShared σ × Call)
  | .atLock =>
    match sh.lock.RLock with
    | none => none
    | some l => some ({ sh with lock := l }, .atLookup)
  | .atLookup =>
    match mapGet sh.mapping original with
    | some val => some (sh, .atUnlock val)
    | none =>
      match generator with
      | none => some (sh, .atUnlock [])
      | some _ => some (sh, .atGenerate)
  | .atGenerate =>
    match generator with
    | none => none
    | some gen =>
      match gen sh.gen key with
      | (r, g1) => some ({ sh with gen := g1, calls := sh.calls + 1 }, .atStore r)
  | .atStore r => some ({ sh with mapping := mapSet sh.mapping original r }, .atUnlock r)
  | .atUnlock ret => some ({ sh with lock := sh.lock.RUnlock }, .returned ret)
  | .returned _ => none

/-- What the goroutines in calls on one `StripedTracker` share: for every
stripe whether its `sync.Mutex` is held, the tracker, and the state of the
generator; `calls` counts the calls of the generator. -/
structure StripedShared (σ : Type) where
  stripes : List Bool
  tracker : StripedTracker
  gen : σ
  calls : Nat
deriving DecidableEq

/-- One step of a goroutine in `StripedTracker.GenerateIfAbsent`: the mutex of
the stripe of `original` is taken with `lock.Lock()`, which waits while another
goroutine holds it, and released with `lock.Unlock()`. -/
def StripedShared.step {σ : Type} (original key : Str) (generator : Option (σ → Str → Str × σ))
    (sh : StripedShared σ) : Call → Option (StripedShared σ × Call)
  | .atLock =>
    if sh.stripes.getD (sh.tracker.stripeIdx original) false then none
    else some ({ sh with stripes := sh.stripes.set (sh.tracker.stripeIdx original) true },
      .atLookup)
  | .atLookup =>
    match mapGet (sh.tracker.getMap original) original with
    | some val => some (sh, .atUnlock val)
    | none =>
      match generator with
      | none => some (sh, .atUnlock [])
      | some _ => some (sh, .atGenerate)
  | .atGenerate =>
    match generator with
    | none => none
    | some gen =>
      match gen sh.gen key with
      | (r, g1) => some ({ sh with gen := g1, calls := sh.calls + 1 }, .atStore r)
  | .atStore r =>
    some ({ sh with tracker := sh.tracker.setIn original original r }, .atUnlock r)
  | .atUnlock ret =>
    some ({ sh with stripes := sh.stripes.set (sh.tracker.stripeIdx original) false },
      .returned ret)
  | .returned _ => none

/-- Two goroutines under a schedule: `false` lets the first one take its next
step, `true` the second one; a goroutine that has to wait or has returned
leaves the state as it is. -/
def runTwo {S : Type} (step : S → Call → Option (S × Call)) :
    S × Call × Call → List Bool → S × Call × Call
  | st, [] => st
  | (sh, a, b), false :: rest =>
    match step sh a with
    | none => runTwo step (sh, a, b) rest
    | some (sh1, a1) => runTwo step (sh1, a1, b) rest
  | (sh, a, b), true :: rest =>
    match step sh b with
    | none => runTwo step (sh, a, b) rest
    | some (sh1, b1) => runTwo step (sh1, a, b1) rest

/-! ## The fast path with every index and slice expression checked -/

/-- The outcome of a run in which the index and slice expressions are checked
as the Go runtime checks them: a value, the panic "index out of range" or
"slice bounds out of range", or a loop that was given too little fuel. -/
inductive Checked (α : Type) where
  | ok (a : α)
  | outOfRange
  | outOfFuel
deriving DecidableEq

/-- The rest of a run after a step that can panic. -/
def Checked.andThen {α β : Type} : Checked α → (α → Checked β) → Checked β
  | .ok a, f => f a
  | .outOfRange, _ => .outOfRange
  | .outOfFuel, _ => .outOfFuel

/-- The index expression `s[i]`: in range when `i < len(s)`. -/
def indexAt (s : Str) (i : Nat) : Checked Nat :=
  if i < s.length then .ok (s.getD i 0) else .outOfRange

/-- The slice expression `s[a:]`: in range when `a <= len(s)`. -/
def sliceFromAt (s : Str) (a : Nat) : Checked Str :=
  if a ≤ s.length then .ok (s.drop a) else .outOfRange

/-- The slice expression `s[a:b]`: in range when `a <= b <= len(s)`. -/
def sliceAt (s : Str) (a b : Nat) : Checked Str :=
  if a ≤ b ∧ b ≤ s.length then .ok (slice s a b) else .outOfRange

/-- The loop of `parseOctet` over the index `i` into `s`, the byte `s[i]` read
after the test `i < len(s)` of the loop condition. -/
def parseOctetCheckedLoop (s : Str) : Nat → Nat → Nat → Checked (Nat × Nat × Bool)
  | 0, _, _ => .outOfFuel
  | fuel + 1, n, i =>
    if i < s.length then
      (indexAt s i).andThen fun c =>
        if 48 ≤ c ∧ c ≤ 57 then
          if n * 10 + (c - 48) ≥ maxOctetSize then .ok (maxOctetSize, i, false)
          else parseOctetCheckedLoop s fuel (n * 10 + (c - 48)) (i + 1)
        else if i = 0 then .ok (0, 0, false) else .ok (n, i, true)
    else if i = 0 then .ok (0, 0, false) else .ok (n, i, true)

/-- The function `parseOctet`, checked. -/
def parseOctetChecked (s : Str) : Checked (Nat × Nat × Bool) :=
  parseOctetCheckedLoop s (s.length + 1) 0 0

/-- The loop of `tryParseIPv4`, checked: the byte `s[0]` is read after the test
`len(s) == 0`, the slices are `s[1:]` and `s[c:]`. The array `p` has the four
entries that the loop counter runs over. -/
def tryParseIPv4CheckedLoop (oLen : Nat) :
    Nat → Nat → Str → Nat → List Nat → Checked (Option (List Nat) × Nat)
  | 0, _, s, _, p => .ok (some p, oLen - s.length)
  | k + 1, i, s, lastSep, p =>
    if s.length = 0 then .ok (none, oLen - s.length)
    else if i > 0 then
      (indexAt s 0).andThen fun sep =>
        if (sep ≠ 46 ∧ sep ≠ 45) ∨ (lastSep ≠ 0 ∧ sep ≠ lastSep) then
          .ok (none, oLen - s.length)
        else
          (sliceFromAt s 1).andThen fun s1 =>
            (parseOctetChecked s1).andThen fun r =>
              if r.2.2 = false ∨ r.1 > 0xFF then .ok (none, oLen - s1.length)
              else
                (sliceFromAt s1 r.2.1).andThen fun s2 =>
                  tryParseIPv4CheckedLoop oLen k (i + 1) s2 sep (p ++ [r.1 % 256])
    else
      (parseOctetChecked s).andThen fun r =>
        if r.2.2 = false ∨ r.1 > 0xFF then .ok (none, oLen - s.length)
        else
          (sliceFromAt s r.2.1).andThen fun s2 =>
            tryParseIPv4CheckedLoop oLen k (i + 1) s2 lastSep (p ++ [r.1 % 256])

/-- The function `tryParseIPv4`, checked. -/
def tryParseIPv4Checked (s : Str) : Checked (Option (List Nat) × Nat) :=
  tryParseIPv4CheckedLoop s.length 4 0 s 0 []

/-- The loop of `FindNextIPv4`, checked: the byte `s[i]` is read after the test
`i < len(s)`, the slice is `s[i:]`. -/
def findCheckedLoop (s : Str) : Nat → Nat → Checked (Str × Nat × Nat)
  | 0, _ => .outOfFuel
  | fuel + 1, i =>
    if i < s.length then
      (indexAt s i).andThen fun c =>
        if c ≥ 49 ∧ c ≤ 57 then
          (sliceFromAt s i).andThen fun t =>
            (tryParseIPv4Checked t).andThen fun r =>
              match r with
              | (some foundIp, nextIndex) => .ok (ipString foundIp, i, i + nextIndex)
              | (none, nextIndex) => findCheckedLoop s fuel (i + nextIndex + 1)
        else findCheckedLoop s fuel (i + 1)
    else .ok ([], 0, i)

/-- The function `FindNextIPv4`, checked. -/
def FindNextIPv4Checked (s : Str) : Checked (Str × Nat × Nat) :=
  findCheckedLoop s (s.length + 1) 0

/-- The loop of `fastIpv4Obfuscator.replace`, checked: the slices are `s[i:]`,
`s[i:][start:end]` and `s[lastWriteIndex : i+start]`, evaluated in the order of
the statements, and the byte is `s[i]`. The value `none` is the fatal exit of
the tracker. -/
def replaceCheckedLoop (s : Str) : Nat → Nat → Nat → Str → fastIpv4Obfuscator →
    Checked (Option (Str × fastIpv4Obfuscator))
  | 0, _, _, _, _ => .outOfFuel
  | fuel + 1, i, lastWriteIndex, sb, o =>
    if i < s.length then
      (sliceFromAt s i).andThen fun t =>
        (FindNextIPv4Checked t).andThen fun r =>
          if r.1 ≠ [] then
            match AddReplacement (generateFor o r.1).2.tracker r.1 (generateFor o r.1).1 with
            | none => .ok none
            | some m2 =>
              (sliceAt t r.2.1 r.2.2).andThen fun lit =>
                match AddReplacement m2 lit (generateFor o r.1).1 with
                | none => .ok none
                | some m3 =>
                  (sliceAt s lastWriteIndex (i + r.2.1)).andThen fun before =>
                    replaceCheckedLoop s fuel (i + r.2.2) (i + r.2.2)
                      (sb ++ before ++ (generateFor o r.1).1)
                      { (generateFor o r.1).2 with tracker := m3 }
          else
            (indexAt s i).andThen fun c =>
              replaceCheckedLoop s fuel (i + 1) i (sb ++ byteToString c) o
    else .ok (some (sb, o))

/-- The method `fastIpv4Obfuscator.replace`, checked. -/
def replaceChecked (o : fastIpv4Obfuscator) (s : Str) :
    Checked (Option (Str × fastIpv4Obfuscator)) :=
  (replaceCheckedLoop s (s.length + 1) 0 0 [] o).andThen fun r =>
    match r with
    | none => .ok none
    | some (sb, o1) => if sb.length = 0 then .ok (some (s, o1)) else .ok (some (sb, o1))

/-- The method `fastIpv4Obfuscator.Contents`, checked. -/
def ContentsChecked (o : fastIpv4Obfuscator) (s : Str) :
    Checked (Option (Str × fastIpv4Obfuscator)) :=
  replaceChecked o s

/-- The method `fastIpv4Obfuscator.Path`, checked. -/
def PathChecked (o : fastIpv4Obfuscator) (s : Str) :
    Checked (Option (Str × fastIpv4Obfuscator)) :=
  replaceChecked o s

/-! ## Vocabulary of the statements -/

/-- An ASCII digit. -/
def isDigit (c : Nat) : Prop := 48 ≤ c ∧ c ≤ 57

instance (c : Nat) : Decidable (isDigit c) := by unfold isDigit; infer_instance

/-- A byte in '1'..'9', where a candidate may begin. -/
def isStartDigit (c : Nat) : Prop := 49 ≤ c ∧ c ≤ 57

instance (c : Nat) : Decidable (isStartDigit c) := by unfold isStartDigit; infer_instance

/-- The decimal value of a run of digits read after the value `n`. -/
def decValFrom (n : Nat) (ds : Str) : Nat := ds.foldl (fun m c => m * 10 + (c - 48)) n

/-- The decimal value of a run of digits. -/
def decVal (ds : Str) : Nat := decValFrom 0 ds

/-- A non-empty run of ASCII digits. -/
def DigitRun (ds : Str) : Prop := ds ≠ [] ∧ ∀ c ∈ ds, isDigit c

instance (ds : Str) : Decidable (DigitRun ds) := by unfold DigitRun; infer_instance

/-- The text is empty or starts with a byte that is not a digit. -/
def NoDigitAhead (rest : Str) : Prop := ∀ c, rest.head? = some c → ¬ isDigit c

instance (rest : Str) : Decidable (NoDigitAhead rest) := by
  unfold NoDigitAhead
  cases rest with
  | nil => exact isTrue (by simp)
  | cons a t =>
    by_cases h : isDigit a
    · exact isFalse (by simp [h])
    · exact isTrue (by simp [h])

/-- An address literal: four octets in decimal without leading zeros, joined
by the separator `sep`. -/
def literal (sep a b c d : Nat) : Str :=
  ubtoa a ++ [sep] ++ ubtoa b ++ [sep] ++ ubtoa c ++ [sep] ++ ubtoa d

/-- Index `j` of `s` is a valid start: a byte in '1'..'9' from which
`tryParseIPv4` succeeds. -/
def ValidStart (s : Str) (j : Nat) : Prop :=
  j < s.length ∧ isStartDigit (s.getD j 0) ∧ (tryParseIPv4 (s.drop j)).1 ≠ none

instance (s : Str) (j : Nat) : Decidable (ValidStart s j) := by unfold ValidStart; infer_instance

/-- A separator byte, '.' or '-'. -/
def isSep (c : Nat) : Prop := c = 46 ∨ c = 45

instance (c : Nat) : Decidable (isSep c) := by unfold isSep; infer_instance

/-- A text with the shape of an address: four digit runs of value below 255,
three equal separators, the rest starting with no digit. -/
structure AddressShape (t d1 d2 d3 d4 : Str) (sep : Nat) (rest : Str) : Prop where
  eq : t = d1 ++ sep :: (d2 ++ sep :: (d3 ++ sep :: (d4 ++ rest)))
  sep : isSep sep
  run1 : DigitRun d1
  run2 : DigitRun d2
  run3 : DigitRun d3
  run4 : DigitRun d4
  val1 : decVal d1 < 255
  val2 : decVal d2 < 255
  val3 : decVal d3 < 255
  val4 : decVal d4 < 255
  rest : NoDigitAhead rest

/-- The loop of `FindNextIPv4` from index `i`, with the fuel it needs. -/
def findFrom (s : Str) (i : Nat) : Str × Nat × Nat := findLoop s (s.length + 1 - i) i

/-- The tracker calls that `replace` makes on a match: `GenerateIfAbsent` for
the normalized address, then `AddReplacement` for it and for the literal
matched. Returns the replacement and the obfuscator afterwards. -/
def recordMatch (o : fastIpv4Obfuscator) (ip lit : Str) : Option (Str × fastIpv4Obfuscator) :=
  match generateFor o ip with
  | (replacement, o1) =>
    match AddReplacement o1.tracker ip replacement with
    | none => none
    | some m2 =>
      match AddReplacement m2 lit replacement with
      | none => none
      | some m3 => some (replacement, { o1 with tracker := m3 })

/-- The loop of `replace` from index `i`, with the fuel it needs. -/
def replaceFrom (s : Str) (i lastWriteIndex : Nat) (sb : Str) (o : fastIpv4Obfuscator) :
    Option (Str × fastIpv4Obfuscator) :=
  replaceLoop s (s.length - i) i lastWriteIndex sb o

/-- The replacement type is one of the two that the constructor accepts. -/
def ValidType (o : fastIpv4Obfuscator) : Prop :=
  o.replacementType = ObfuscateReplacementTypeStatic ∨
    o.replacementType = ObfuscateReplacementTypeConsistent

instance (o : fastIpv4Obfuscator) : Decidable (ValidType o) := by
  unfold ValidType; infer_instance

/-- The replacement that the generator of `o` gives on its next call. -/
def nextReplacement (o : fastIpv4Obfuscator) : Str :=
  if o.replacementType = ObfuscateReplacementTypeStatic then o.gen.static
  else sprintf o.gen.template o.gen.count

/-- The generator of `o` after its next call. -/
def nextGen (o : fastIpv4Obfuscator) : generator :=
  if o.replacementType = ObfuscateReplacementTypeStatic then o.gen
  else { o.gen with count := o.gen.count + 1 }

/-- An ASCII text without a digit. -/
def PlainText (t : Str) : Prop := ∀ x ∈ t, x < 128 ∧ ¬ isDigit x

instance (t : Str) : Decidable (PlainText t) := by unfold PlainText; infer_instance

/-- The number of places of a text where a separator is directly followed by a
digit. -/
def sepDigitPairs : Str → Nat
  | a :: b :: t => (if isSep a ∧ isDigit b then 1 else 0) + sepDigitPairs (b :: t)
  | _ => 0

/-- The normalized addresses that the loop of `replace` matches in `s` from
index `i` on, in the order of the matches. -/
def matchesLoop (s : Str) : Nat → Nat → List Str
  | 0, _ => []
  | fuel + 1, i =>
    if i < s.length then
      match FindNextIPv4 (s.drop i) with
      | (ip, _, endIdx) =>
        if ip ≠ [] then ip :: matchesLoop s fuel (i + endIdx) else matchesLoop s fuel (i + 1)
    else []

/-- The normalized addresses that `replace` matches in `s`, in order. -/
def matchesOf (s : Str) : List Str := matchesLoop s s.length 0

/-- The addresses seen so far, in the order they were first seen, after one
more address. -/
def addSeen (seen : List Str) (x : Str) : List Str := if x ∈ seen then seen else seen ++ [x]

/-- The distinct entries of a list, in the order of their first occurrence. -/
def distinctInOrder (l : List Str) : List Str := l.foldl addSeen []

/-- The method `Contents` called on each input in order: the outputs and the
obfuscator afterwards, or `none` for the fatal exit. -/
def ContentsAll (o : fastIpv4Obfuscator) : List Str → Option (List Str × fastIpv4Obfuscator)
  | [] => some ([], o)
  | s :: rest =>
    match Contents o s with
    | none => none
    | some (out, o1) =>
      match ContentsAll o1 rest with
      | none => none
      | some (outs, o2) => some (out :: outs, o2)

/-- The state of a consistent-mode obfuscator that has seen the normalized
addresses `seen`: the counter is one past their number, the `n`-th of them has
the placeholder numbered `n`, and every key of the tracker is a literal that
has the replacement of its normalized form, which is among `seen`. -/
structure Numbered (o : fastIpv4Obfuscator) (seen : List Str) : Prop where
  type : o.replacementType = ObfuscateReplacementTypeConsistent
  template : o.gen.template = consistentIPv4Template
  count : o.gen.count = seen.length + 1
  nodup : seen.Nodup
  numbered : ∀ n, n < seen.length →
    mapGet o.tracker (seen.getD n []) = some (sprintf consistentIPv4Template (n + 1))
  keys : ∀ k v, mapGet o.tracker k = some v → ∃ a b c d, a ≤ 254 ∧ b ≤ 254 ∧ c ≤ 254 ∧ d ≤ 254 ∧
    tryParseIPv4 k = (some [a, b, c, d], k.length) ∧ literal 46 a b c d ∈ seen ∧
    mapGet o.tracker (literal 46 a b c d) = some v

/-! ## Vocabulary of the statements on the trackers -/

/-- The keys of a map, in the order of the association list. -/
def mapKeys (m : Mapping) : List Str := m.map Prod.fst

/-- The replacement that a `StripedTracker` has recorded for a key: what
the stripe of the key holds for it. -/
def StripedTracker.lookup (s : StripedTracker) (k : Str) : Option Str := mapGet (s.getMap k) k

/-- A state of a `StripedTracker` as its methods build it: at least one stripe,
every stripe a map (no key twice), and every key in the stripe that its hash
selects. -/
structure StripedTracker.WellFormed (s : StripedTracker) : Prop where
  stripes : 0 < s.mapping.length
  nodup : ∀ j, j < s.mapping.length → (mapKeys (s.mapping.getD j [])).Nodup
  home : ∀ j, j < s.mapping.length → ∀ e ∈ s.mapping.getD j [], s.stripeIdx e.1 = j

/-- A call on a tracker: `AddReplacement`, `GenerateIfAbsent` or `Report`. The
generator is a function with its own state; `none` is the nil generator. -/
inductive TrackerOp (σ : Type) where
  | add (original replacement : Str)
  | generate (original key : Str) (generator : Option (σ → Str → Str × σ))
  | report

/-- What a call on a tracker returns. -/
inductive OpResult where
  | done
  | text (r : Str)
  | report (m : Mapping)
deriving DecidableEq

/-- Two results are the same: equal texts, and reports that are equal as maps. -/
def OpResult.same : OpResult → OpResult → Prop
  | .done, .done => True
  | .text a, .text b => a = b
  | .report m1, .report m2 => ∀ k, mapGet m1 k = mapGet m2 k
  | _, _ => False

/-- One call on a `SimpleTracker`: the result, the mapping and the state of the
generator afterwards; `none` is the fatal exit. -/
def stepSimple {σ : Type} (m : Mapping) (g : σ) : TrackerOp σ → Option (OpResult × Mapping × σ)
  | .add original replacement =>
    match AddReplacement m original replacement with
    | none => none
    | some m1 => some (.done, m1, g)
  | .generate original key generator =>
    match GenerateIfAbsent m original key generator g with
    | (r, m1, g1) => some (.text r, m1, g1)
  | .report => some (.report (Report m), m, g)

/-- One call on a `StripedTracker`. -/
def stepStriped {σ : Type} (s : StripedTracker) (g : σ) :
    TrackerOp σ → Option (OpResult × StripedTracker × σ)
  | .add original replacement =>
    match s.AddReplacement original replacement with
    | none => none
    | some s1 => some (.done, s1, g)
  | .generate original key generator =>
    match s.GenerateIfAbsent original key generator g with
    | (r, s1, g1) => some (.text r, s1, g1)
  | .report => some (.report s.Report, s, g)

/-- A sequence of calls on a `SimpleTracker`: the results of the calls that
returned, and the final state, `none` when a call reached the fatal exit. -/
def runSimple {σ : Type} : Mapping → σ → List (TrackerOp σ) → List OpResult × Option (Mapping × σ)
  | m, g, [] => ([], some (m, g))
  | m, g, op :: ops =>
    match stepSimple m g op with
    | none => ([], none)
    | some (r, m1, g1) => ((r :: (runSimple m1 g1 ops).1), (runSimple m1 g1 ops).2)

/-- A sequence of calls on a `StripedTracker`. -/
def runStriped {σ : Type} :
    StripedTracker → σ → List (TrackerOp σ) → List OpResult × Option (StripedTracker × σ)
  | s, g, [] => ([], some (s, g))
  | s, g, op :: ops =>
    match stepStriped s g op with
    | none => ([], none)
    | some (r, s1, g1) => ((r :: (runStriped s1 g1 ops).1), (runStriped s1 g1 ops).2)

/-- The `SimpleTracker` and the `StripedTracker` hold the same entries. -/
def SameEntries (m : Mapping) (s : StripedTracker) : Prop :=
  s.WellFormed ∧ ∀ k, mapGet m k = s.lookup k


/-- The goroutine holds the lock: it is between the call that takes the lock
and the call that releases it. -/
def Call.inCritical : Call → Bool
  | .atLookup => true
  | .atGenerate => true
  | .atStore _ => true
  | .atUnlock _ => true
  | _ => false

/-- The positions of a goroutine before any replacement is generated. -/
def Call.beforeGenerate : Call → Prop
  | .atLock => True
  | .atLookup => True
  | .atGenerate => True
  | _ => False

/-- The positions of a goroutine once the replacement `r` is stored. -/
def Call.afterStore (r : Str) : Call → Prop
  | .atLock => True
  | .atLookup => True
  | .atUnlock ret => ret = r
  | .returned ret => ret = r
  | _ => False

/-- The states of two goroutines in `StripedTracker.GenerateIfAbsent` for the
same `original`, absent at first, that a schedule can reach: the mutex of the
stripe is held exactly while one goroutine is between `Lock` and `Unlock`,
never both; and either nothing is generated yet, or the one replacement `r` is
generated and about to be stored by the goroutine that holds the mutex, or it
is stored and every value returned is `r`. -/
structure StripedInvariant {σ : Type} (original : Str) (n : Nat) (g0 g1 : σ) (r : Str)
    (c0 : Nat) (sh : StripedShared σ) (a b : Call) : Prop where
  stripes : sh.stripes.length = n
  maps : sh.tracker.mapping.length = n
  held : sh.stripes.getD (sh.tracker.stripeIdx original) false = (a.inCritical || b.inCritical)
  alone : ¬ (a.inCritical = true ∧ b.inCritical = true)
  phase :
    (sh.tracker.lookup original = none ∧ sh.calls = c0 ∧ sh.gen = g0 ∧
        a.beforeGenerate ∧ b.beforeGenerate) ∨
    (sh.tracker.lookup original = none ∧ sh.calls = c0 + 1 ∧ sh.gen = g1 ∧
        ((a = .atStore r ∧ b = .atLock) ∨ (a = .atLock ∧ b = .atStore r))) ∨
    (sh.tracker.lookup original = some r ∧ sh.calls = c0 + 1 ∧ sh.gen = g1 ∧
        a.afterStore r ∧ b.afterStore r)
/-! ## Vocabulary of the statements on the pattern-based obfuscators -/

/-- The text `cleaned` of the pattern-based `replace`:
`strings.ReplaceAll(m, "-", ".")`. -/
def cleaned (m : Str) : Str := ReplaceAll m [45] [46]

/-- The matches that the pattern-based `replace` does not skip: not in the
exclusion set, and an IP address for `net.ParseIP` once cleaned. -/
def validMatches (excluded : List Str) (l : List Str) : List Str :=
  l.filter (fun m => m ∉ excluded ∧ (ParseIP (cleaned m)).isSome)

/-- A byte that a match of `ipv6Pattern` can hold: a digit, a letter in a..f,
or ':'. -/
def isIPv6Byte (c : Nat) : Prop := isHexLower c = true ∨ c = 58

instance (c : Nat) : Decidable (isIPv6Byte c) := by unfold isIPv6Byte; infer_instance

/-- What a match of `ipv6Pattern` is made of: bytes of the classes of the
pattern, a ':' among them, and a digit or a letter in a..f at the end. -/
structure IPv6MatchText (w : Str) : Prop where
  bytes : ∀ c ∈ w, isIPv6Byte c
  colon : 58 ∈ w
  last : ∃ h, w.getLast? = some h ∧ isHexLower h = true

/-- A state of the tracker of a pattern-based obfuscator: every key has the
replacement of its cleaned form. -/
def CleanedAgree (t : Mapping) : Prop :=
  ∀ k v, mapGet t k = some v → mapGet t (cleaned k) = some v

/-- The replacement type is static or consistent. -/
def IsMode (replacementType : Str) : Prop :=
  replacementType = ObfuscateReplacementTypeStatic ∨
    replacementType = ObfuscateReplacementTypeConsistent

instance (t : Str) : Decidable (IsMode t) := by unfold IsMode; infer_instance

/-- A candidate is skipped when it is excluded or its cleaned form is no IP
address. -/
def Skipped (excluded : List Str) (m : Str) : Prop :=
  m ∈ excluded ∨ ParseIP (cleaned m) = none

instance (excluded : List Str) (m : Str) : Decidable (Skipped excluded m) := by
  unfold Skipped; infer_instance

/-- The replacement that the generator `g` gives on its next call in the mode
`t`, and the generator afterwards. -/
def nextOf (t : Str) (g : generator) : Str × generator :=
  if t = ObfuscateReplacementTypeStatic then generateStaticReplacement g []
  else generateConsistentReplacement g []

/-- The placeholder of the IPv6 obfuscator for the first address it meets. -/
def firstIPv6Placeholder (t : Str) : Str :=
  if t = ObfuscateReplacementTypeStatic then ascii "xxxx:xxxx:xxxx:xxxx:xxxx:xxxx:xxxx:xxxx"
  else ascii "xx-ipv6-000000000000000001-xx"

/-- The mapping `b` keeps every entry of the mapping `a`. -/
def Extends (a b : Mapping) : Prop := ∀ k v, mapGet a k = some v → mapGet b k = some v

/-- The text of C16 read span by span: `s` from index `i` on, with the span of
every match of `ipv4Pattern` that is not excluded and is an IP address once
cleaned replaced by its entry in `report`, and every other byte as it is. -/
def ipv4SpansReplacedLoop (report : Mapping) (s : Str) : Nat → Nat → Str
  | 0, _ => []
  | fuel + 1, i =>
    if i < s.length then
      match ipv4PatternAt (if i = 0 then none else s.get? (i - 1)) (s.drop i) with
      | some n =>
        (if (s.drop i).take n ∉ excludedIPv4s ∧ (ParseIP (cleaned ((s.drop i).take n))).isSome
          then (mapGet report ((s.drop i).take n)).getD ((s.drop i).take n)
          else (s.drop i).take n) ++ ipv4SpansReplacedLoop report s fuel (i + n)
      | none => s.getD i 0 :: ipv4SpansReplacedLoop report s fuel (i + 1)
    else []

/-- The text of C16 read span by span, for the whole of `s`. -/
def ipv4SpansReplaced (report : Mapping) (s : Str) : Str :=
  ipv4SpansReplacedLoop report s s.length 0

/-- The successive global substitutions of `ipv4Obfuscator.replace`: for every
match in `l`, in order, every literal occurrence of the match in the text so
far is replaced by the entry of the match in `report`. -/
def substituteAll (report : Mapping) (l : List Str) (s : Str) : Str :=
  l.foldl (fun acc m => ReplaceAll acc m ((mapGet report m).getD [])) s

/-! ## Vocabulary of the statements on the safety of the fast path -/

/-- A call on an obfuscator: `Contents(s)` or `Path(s)`. -/
inductive ObfuscatorCall where
  | contents (s : Str)
  | path (s : Str)
deriving DecidableEq

/-- One call on a fast IPv4 obfuscator: the text returned and the obfuscator
afterwards, or `none` for the fatal exit. -/
def callOne (o : fastIpv4Obfuscator) : ObfuscatorCall → Option (Str × fastIpv4Obfuscator)
  | .contents s => Contents o s
  | .path s => Path o s

/-- A sequence of calls on a fast IPv4 obfuscator, in order: the texts returned
and the obfuscator afterwards, or `none` when a call reached the fatal exit. -/
def callAll (o : fastIpv4Obfuscator) :
    List ObfuscatorCall → Option (List Str × fastIpv4Obfuscator)
  | [] => some ([], o)
  | c :: rest =>
    match callOne o c with
    | none => none
    | some (out, o1) =>
      match callAll o1 rest with
      | none => none
      | some (outs, o2) => some (out :: outs, o2)

/-- Every key of the tracker is an address literal, a text that `tryParseIPv4`
parses whole into four octets, and has the replacement of its normalized
dotted form. -/
def LiteralKeys (t : Mapping) : Prop :=
  ∀ k v, mapGet t k = some v → ∃ a b c d, a ≤ 254 ∧ b ≤ 254 ∧ c ≤ 254 ∧ d ≤ 254 ∧
    tryParseIPv4 k = (some [a, b, c, d], k.length) ∧ mapGet t (literal 46 a b c d) = some v

/-! ## parseOctet -/

theorem decValFrom_nil (n : Nat) : decValFrom n [] = n := rfl

theorem decValFrom_cons (n c : Nat) (ds : Str) :
    decValFrom n (c :: ds) = decValFrom (n * 10 + (c - 48)) ds := rfl

theorem decValFrom_append (n : Nat) (xs ys : Str) :
    decValFrom n (xs ++ ys) = decValFrom (decValFrom n xs) ys := by
  simp [decValFrom, List.foldl_append]

theorem le_decValFrom (n : Nat) (ds : Str) : n ≤ decValFrom n ds := by
  induction ds generalizing n with
  | nil => simp [decValFrom_nil]
  | cons c ds ih =>
    rw [decValFrom_cons]
    have := ih (n * 10 + (c - 48))
    omega

/-- What a successful `parseOctetLoop` has read. -/
theorem parseOctetLoop_ok {s : Str} {n i v c : Nat} (hn : n < 255)
    (h : parseOctetLoop s n i = (v, c, true)) :
    ∃ ds rest, s = ds ++ rest ∧ (∀ d ∈ ds, isDigit d) ∧ NoDigitAhead rest ∧
      c = i + ds.length ∧ v = decValFrom n ds ∧ v < 255 ∧ 0 < c := by
  induction s generalizing n i with
  | nil =>
    simp only [parseOctetLoop] at h
    split at h
    · simp at h
    · simp only [Prod.mk.injEq, and_true] at h
      refine ⟨[], [], rfl, by simp, by simp [NoDigitAhead], by simp [h.2], by simp [decValFrom_nil, h.1], by omega, by omega⟩
  | cons a t ih =>
    simp only [parseOctetLoop, maxOctetSize] at h
    split at h
    · rename_i hd
      split at h
      · simp at h
      · rename_i hlt
        obtain ⟨ds, rest, hs, hds, hrest, hc, hv, hv2, hc2⟩ := ih (by omega) h
        refine ⟨a :: ds, rest, by simp [hs], ?_, hrest, by simp [hc]; omega, by simp [decValFrom_cons, hv], hv2, hc2⟩
        intro d hd2
        rcases List.mem_cons.1 hd2 with rfl | hd3
        · exact hd
        · exact hds d hd3
    · rename_i hd
      split at h
      · simp at h
      · simp only [Prod.mk.injEq, and_true] at h
        refine ⟨[], a :: t, rfl, by simp, ?_, by simp [h.2], by simp [decValFrom_nil, h.1], by omega, by omega⟩
        intro x hx
        simp at hx
        subst hx
        exact hd

/-- A run of digits of value below 255 that no digit follows is read whole. -/
theorem parseOctetLoop_digits (ds rest : Str) (n i : Nat) (hds : ∀ d ∈ ds, isDigit d)
    (hrest : NoDigitAhead rest) (hv : decValFrom n ds < 255) (hpos : 0 < i + ds.length) :
    parseOctetLoop (ds ++ rest) n i = (decValFrom n ds, i + ds.length, true) := by
  induction ds generalizing n i with
  | nil =>
    simp only [List.length_nil, Nat.add_zero] at hpos
    cases rest with
    | nil => simp [parseOctetLoop, decValFrom_nil]; omega
    | cons a t =>
      have ha : ¬ isDigit a := hrest a (by simp)
      simp only [isDigit] at ha
      simp [parseOctetLoop, decValFrom_nil, ha]
      omega
  | cons a t ih =>
    have ha : isDigit a := hds a (by simp)
    simp only [isDigit] at ha
    rw [decValFrom_cons] at hv
    have hle := le_decValFrom (n * 10 + (a - 48)) t
    have hlt : ¬ (n * 10 + (a - 48) ≥ maxOctetSize) := by simp [maxOctetSize]; omega
    have key := ih (n * 10 + (a - 48)) (i + 1) (fun d hd => hds d (by simp [hd])) hv (by omega)
    rw [List.cons_append, parseOctetLoop, if_pos ha, if_neg hlt, key]
    simp [decValFrom_cons]
    omega

theorem parseOctet_ok {s : Str} {v c : Nat} (h : parseOctet s = (v, c, true)) :
    ∃ ds rest, s = ds ++ rest ∧ DigitRun ds ∧ NoDigitAhead rest ∧
      c = ds.length ∧ v = decVal ds ∧ v < 255 := by
  obtain ⟨ds, rest, hs, hds, hrest, hc, hv, hv2, hc2⟩ := parseOctetLoop_ok (by omega) h
  refine ⟨ds, rest, hs, ⟨?_, hds⟩, hrest, by omega, hv, hv2⟩
  rintro rfl
  simp at hc
  omega

theorem parseOctet_digits (ds rest : Str) (hds : DigitRun ds) (hrest : NoDigitAhead rest)
    (hv : decVal ds < 255) : parseOctet (ds ++ rest) = (decVal ds, ds.length, true) := by
  have hlen : 0 < ds.length := List.length_pos.2 hds.1
  have := parseOctetLoop_digits ds rest 0 0 hds.2 hrest hv (by omega)
  simpa [parseOctet, decVal] using this

/-! ## Decimal rendering of a counter -/

theorem itoaLoop_acc (fuel n : Nat) (acc : Str) :
    itoaLoop fuel n acc = itoaLoop fuel n [] ++ acc := by
  induction fuel generalizing n acc with
  | zero => simp [itoaLoop]
  | succ f ih =>
    rw [itoaLoop, itoaLoop]
    split
    · simp
    · rw [ih (n / 10) ((n % 10 + 48) :: acc), ih (n / 10) [n % 10 + 48]]
      simp

theorem itoaLoop_fuel (fuel1 fuel2 n : Nat) (acc : Str) (h1 : n < fuel1) (h2 : n < fuel2) :
    itoaLoop fuel1 n acc = itoaLoop fuel2 n acc := by
  induction fuel1 generalizing fuel2 n acc with
  | zero => omega
  | succ f1 ih =>
    cases fuel2 with
    | zero => omega
    | succ f2 =>
      rw [itoaLoop, itoaLoop]
      split
      · rfl
      · exact ih f2 (n / 10) _ (by omega) (by omega)

theorem itoa_small (n : Nat) (h : n < 10) : itoa n = [n + 48] := by
  rw [itoa, itoaLoop, if_pos h]

theorem itoa_large (n : Nat) (h : 10 ≤ n) : itoa n = itoa (n / 10) ++ [n % 10 + 48] := by
  rw [itoa, itoaLoop, if_neg (by omega), itoaLoop_acc, itoa]
  congr 1
  exact itoaLoop_fuel _ _ _ _ (by omega) (by omega)

theorem itoa_digits (n : Nat) : ∀ x ∈ itoa n, isDigit x := by
  induction n using Nat.strong_induction_on with
  | _ n ih =>
    by_cases h : n < 10
    · rw [itoa_small n h]
      intro x hx
      simp at hx
      subst hx
      unfold isDigit
      omega
    · rw [itoa_large n (by omega)]
      intro x hx
      rcases List.mem_append.1 hx with hx | hx
      · exact ih (n / 10) (by omega) x hx
      · simp at hx
        subst hx
        unfold isDigit
        omega

theorem decVal_itoa (n : Nat) : decVal (itoa n) = n := by
  induction n using Nat.strong_induction_on with
  | _ n ih =>
    by_cases h : n < 10
    · rw [itoa_small n h]
      simp [decVal, decValFrom]
    · rw [itoa_large n (by omega)]
      have := ih (n / 10) (by omega)
      unfold decVal at this ⊢
      rw [decValFrom_append, this]
      simp [decValFrom]
      omega

theorem decVal_zeros (k : Nat) (ds : Str) : decVal (List.replicate k 48 ++ ds) = decVal ds := by
  induction k with
  | zero => simp
  | succ k ih =>
    rw [List.replicate_succ, List.cons_append]
    unfold decVal at ih ⊢
    rw [decValFrom_cons]
    simpa using ih

/-- The call `fmt.Sprintf(template, n)` gives different texts for different
numbers. -/
theorem sprintf_injective (t : Template) (n m : Nat) (h : sprintf t n = sprintf t m) :
    n = m := by
  unfold sprintf at h
  simp only [List.append_assoc] at h
  have h1 := List.append_cancel_left h
  rw [← List.append_assoc, ← List.append_assoc] at h1
  have h2 := List.append_cancel_right h1
  have h3 := congrArg decVal h2
  rw [decVal_zeros, decVal_zeros, decVal_itoa, decVal_itoa] at h3
  exact h3

/-! ## tryParseIPv4 -/

theorem DigitRun.length_pos {ds : Str} (h : DigitRun ds) : 0 < ds.length :=
  List.length_pos.2 h.1

/-- The first iteration of `tryParseIPv4` on an octet it accepts. -/
theorem tryParseIPv4Loop_first (oLen k : Nat) (ds rest : Str) (ls : Nat) (p : List Nat)
    (hds : DigitRun ds) (hrest : NoDigitAhead rest) (hv : decVal ds < 255) :
    tryParseIPv4Loop oLen (k + 1) 0 (ds ++ rest) ls p =
      tryParseIPv4Loop oLen k 1 rest ls (p ++ [decVal ds]) := by
  have hlen := hds.length_pos
  rw [tryParseIPv4Loop]
  have h1 : ¬ ((ds ++ rest).length = 0) := by rw [List.length_append]; omega
  rw [if_neg h1, if_neg (by simp)]
  simp only [gt_iff_lt, Nat.lt_irrefl, if_false]
  rw [parseOctet_digits ds rest hds hrest hv]
  simp only [Bool.true_eq_false, false_or]
  rw [if_neg (by omega)]
  simp [Nat.mod_eq_of_lt (show decVal ds < 256 by omega)]

/-- A later iteration of `tryParseIPv4` on a separator and an octet it accepts. -/
theorem tryParseIPv4Loop_sep (oLen k i : Nat) (sep : Nat) (ds rest : Str) (ls : Nat)
    (p : List Nat) (hi : 0 < i) (hsep : isSep sep) (hls : ls = 0 ∨ sep = ls)
    (hds : DigitRun ds) (hrest : NoDigitAhead rest) (hv : decVal ds < 255) :
    tryParseIPv4Loop oLen (k + 1) i (sep :: (ds ++ rest)) ls p =
      tryParseIPv4Loop oLen k (i + 1) rest sep (p ++ [decVal ds]) := by
  rw [tryParseIPv4Loop]
  rw [if_neg (by simp)]
  have h2 : ¬ (i > 0 ∧ (((sep :: (ds ++ rest)).headD 0 ≠ 46 ∧ (sep :: (ds ++ rest)).headD 0 ≠ 45) ∨
      (ls ≠ 0 ∧ (sep :: (ds ++ rest)).headD 0 ≠ ls))) := by
    simp only [List.headD_cons]
    unfold isSep at hsep
    omega
  rw [if_neg h2]
  simp only [gt_iff_lt, hi, if_true, List.headD_cons, List.drop_succ_cons, List.drop_zero]
  rw [parseOctet_digits ds rest hds hrest hv]
  simp only [Bool.true_eq_false, false_or]
  rw [if_neg (by omega)]
  simp [Nat.mod_eq_of_lt (show decVal ds < 256 by omega)]

/-- What a successful first iteration of `tryParseIPv4` has read. -/
theorem tryParseIPv4Loop_first_inv {oLen k : Nat} {s : Str} {ls : Nat} {p q : List Nat} {n : Nat}
    (h : tryParseIPv4Loop oLen (k + 1) 0 s ls p = (some q, n)) :
    ∃ ds rest, s = ds ++ rest ∧ DigitRun ds ∧ NoDigitAhead rest ∧ decVal ds < 255 ∧
      tryParseIPv4Loop oLen k 1 rest ls (p ++ [decVal ds]) = (some q, n) := by
  rw [tryParseIPv4Loop] at h
  split at h
  · simp at h
  · rw [if_neg (by simp)] at h
    simp only [gt_iff_lt, Nat.lt_irrefl, if_false] at h
    rcases hpo : parseOctet s with ⟨v, c, ok⟩
    rw [hpo] at h
    simp only at h
    split at h
    · simp at h
    · rename_i hok
      have hok2 : ok = true := by
        cases ok
        · simp at hok
        · rfl
      subst hok2
      obtain ⟨ds, rest, hs, hds, hrest, hc, hv, hv2⟩ := parseOctet_ok hpo
      refine ⟨ds, rest, hs, hds, hrest, by omega, ?_⟩
      subst hs hc
      rw [← hv]
      simpa [Nat.mod_eq_of_lt (show v < 256 by omega)] using h

/-- What a successful later iteration of `tryParseIPv4` has read. -/
theorem tryParseIPv4Loop_sep_inv {oLen k i : Nat} {s : Str} {ls : Nat} {p q : List Nat}
    {n : Nat} (hi : 0 < i) (h : tryParseIPv4Loop oLen (k + 1) i s ls p = (some q, n)) :
    ∃ sep ds rest, s = sep :: (ds ++ rest) ∧ isSep sep ∧ (ls = 0 ∨ sep = ls) ∧ DigitRun ds ∧
      NoDigitAhead rest ∧ decVal ds < 255 ∧
      tryParseIPv4Loop oLen k (i + 1) rest sep (p ++ [decVal ds]) = (some q, n) := by
  rw [tryParseIPv4Loop] at h
  split at h
  · simp at h
  · rename_i hne
    cases s with
    | nil => simp at hne
    | cons sep t =>
      split at h
      · simp at h
      · rename_i hsep
        simp only [List.headD_cons, gt_iff_lt, hi, true_and, not_or, not_and, Decidable.not_not] at hsep
        simp only [gt_iff_lt, hi, if_true, List.headD_cons, List.drop_succ_cons, List.drop_zero] at h
        rcases hpo : parseOctet t with ⟨v, c, ok⟩
        rw [hpo] at h
        simp only at h
        split at h
        · simp at h
        · rename_i hok
          have hok2 : ok = true := by
            cases ok
            · simp at hok
            · rfl
          subst hok2
          obtain ⟨ds, rest, hs, hds, hrest, hc, hv, hv2⟩ := parseOctet_ok hpo
          refine ⟨sep, ds, rest, by rw [hs], ?_, ?_, hds, hrest, by omega, ?_⟩
          · unfold isSep
            by_cases h46 : sep = 46
            · exact Or.inl h46
            · exact Or.inr (hsep.1 h46)
          · by_cases h0 : ls = 0
            · exact Or.inl h0
            · exact Or.inr (hsep.2 h0)
          · subst hs hc
            rw [← hv]
            simpa [Nat.mod_eq_of_lt (show v < 256 by omega)] using h

theorem NoDigitAhead_sep_cons {sep : Nat} (h : isSep sep) (t : Str) : NoDigitAhead (sep :: t) := by
  intro c hc
  simp at hc
  subst hc
  unfold isSep at h
  unfold isDigit
  omega

/-- The function `tryParseIPv4` accepts every text with the shape of an address. -/
theorem tryParseIPv4_of_shape {t d1 d2 d3 d4 : Str} {sep : Nat} {rest : Str}
    (h : AddressShape t d1 d2 d3 d4 sep rest) :
    tryParseIPv4 t = (some [decVal d1, decVal d2, decVal d3, decVal d4], t.length - rest.length) := by
  have hsep0 : sep ≠ 0 := by have := h.sep; unfold isSep at this; omega
  unfold tryParseIPv4
  rw [h.eq]
  rw [tryParseIPv4Loop_first _ _ d1 _ _ _ h.run1 (NoDigitAhead_sep_cons h.sep _) h.val1]
  rw [tryParseIPv4Loop_sep _ _ _ sep d2 _ _ _ (by omega) h.sep (Or.inl rfl) h.run2
    (NoDigitAhead_sep_cons h.sep _) h.val2]
  rw [tryParseIPv4Loop_sep _ _ _ sep d3 _ _ _ (by omega) h.sep (Or.inr rfl) h.run3
    (NoDigitAhead_sep_cons h.sep _) h.val3]
  rw [tryParseIPv4Loop_sep _ _ _ sep d4 _ _ _ (by omega) h.sep (Or.inr rfl) h.run4
    h.rest h.val4]
  simp [tryParseIPv4Loop]

/-- The function `tryParseIPv4` accepts only texts with the shape of an address. -/
theorem tryParseIPv4_shape {t : Str} {q : List Nat} {n : Nat}
    (h : tryParseIPv4 t = (some q, n)) :
    ∃ d1 d2 d3 d4 sep rest, AddressShape t d1 d2 d3 d4 sep rest ∧
      q = [decVal d1, decVal d2, decVal d3, decVal d4] ∧ n = t.length - rest.length := by
  unfold tryParseIPv4 at h
  obtain ⟨d1, r1, e1, run1, -, v1, h1⟩ := tryParseIPv4Loop_first_inv h
  obtain ⟨s1, d2, r2, e2, hs1, -, run2, -, v2, h2⟩ := tryParseIPv4Loop_sep_inv (by omega) h1
  obtain ⟨s2, d3, r3, e3, hs2, hl2, run3, -, v3, h3⟩ := tryParseIPv4Loop_sep_inv (by omega) h2
  obtain ⟨s3, d4, r4, e4, hs3, hl3, run4, hr4, v4, h4⟩ := tryParseIPv4Loop_sep_inv (by omega) h3
  clear h h1 h2 h3
  have hs10 : s1 ≠ 0 := by unfold isSep at hs1; omega
  have hs20 : s2 ≠ 0 := by unfold isSep at hs2; omega
  have e21 : s2 = s1 := by rcases hl2 with h0 | h0; exact absurd h0 hs10; exact h0
  have e32 : s3 = s2 := by rcases hl3 with h0 | h0; exact absurd h0 hs20; exact h0
  subst e32 e21
  simp only [tryParseIPv4Loop, List.nil_append, List.cons_append, Prod.mk.injEq,
    Option.some.injEq] at h4
  refine ⟨d1, d2, d3, d4, s3, r4, ⟨?_, hs1, run1, run2, run3, run4, v1, v2, v3, v4, hr4⟩,
    h4.1.symm, h4.2.symm⟩
  rw [e1, e2, e3, e4]

/-! ## FindNextIPv4 -/

theorem tryParseIPv4Loop_le (oLen : Nat) (k i : Nat) (s : Str) (ls : Nat) (p : List Nat) :
    (tryParseIPv4Loop oLen k i s ls p).2 ≤ oLen := by
  induction k generalizing i s ls p with
  | zero => simp [tryParseIPv4Loop]
  | succ k ih =>
    rw [tryParseIPv4Loop]
    dsimp only
    split_ifs <;> first | exact ih _ _ _ _ | simp

theorem tryParseIPv4_le (t : Str) : (tryParseIPv4 t).2 ≤ t.length :=
  tryParseIPv4Loop_le _ _ _ _ _ _

theorem ubtoa_ne_nil (v : Nat) : ubtoa v ≠ [] := by
  unfold ubtoa
  split
  · simp
  · split <;> simp

theorem ipString_ne_nil (p : List Nat) : ipString p ≠ [] := by
  have := ubtoa_ne_nil (p.getD 0 0)
  simp [ipString, this]

/-- More fuel than the bytes left never changes the result of `findLoop`. -/
theorem findLoop_fuel (s : Str) (fuel1 fuel2 i : Nat) (h1 : s.length < i + fuel1)
    (h2 : s.length < i + fuel2) : findLoop s fuel1 i = findLoop s fuel2 i := by
  induction fuel1 generalizing fuel2 i with
  | zero =>
    cases fuel2 with
    | zero => rfl
    | succ f2 =>
      rw [findLoop, findLoop, if_neg (by omega)]
  | succ f1 ih =>
    cases fuel2 with
    | zero => rw [findLoop, findLoop, if_neg (by omega)]
    | succ f2 =>
      rw [findLoop, findLoop]
      split
      · split
        · rcases hp : tryParseIPv4 (List.drop i s) with ⟨r, n⟩
          cases r with
          | none => simp only; exact ih _ _ (by omega) (by omega)
          | some q => rfl
        · exact ih _ _ (by omega) (by omega)
      · rfl

/-- The fuel that `FindNextIPv4` gives its loop is enough. -/
theorem FindNextIPv4_fuel (s : Str) (fuel : Nat) (h : s.length < fuel) :
    findLoop s fuel 0 = FindNextIPv4 s :=
  findLoop_fuel s _ _ 0 (by omega) (by omega)

theorem findFrom_zero (s : Str) : findFrom s 0 = FindNextIPv4 s := rfl

theorem findLoop_eq_findFrom (s : Str) (fuel i : Nat) (h : s.length < i + fuel) :
    findLoop s fuel i = findFrom s i :=
  findLoop_fuel s _ _ i h (by omega)

theorem findFrom_done (s : Str) (i : Nat) (h : s.length ≤ i) : findFrom s i = ([], 0, i) := by
  unfold findFrom
  cases hf : s.length + 1 - i with
  | zero => rfl
  | succ f => rw [findLoop, if_neg (by omega)]

theorem findFrom_skip (s : Str) (i : Nat) (h : i < s.length)
    (hc : ¬ isStartDigit (s.getD i 0)) : findFrom s i = findFrom s (i + 1) := by
  unfold findFrom
  obtain ⟨f, hf⟩ : ∃ f, s.length + 1 - i = f + 1 := ⟨s.length - i, by omega⟩
  rw [hf, findLoop, if_pos h, if_neg (by unfold isStartDigit at hc; omega)]
  exact findLoop_fuel s _ _ _ (by omega) (by omega)

theorem findFrom_found (s : Str) (i : Nat) (h : i < s.length)
    (hc : isStartDigit (s.getD i 0)) {q : List Nat} {n : Nat}
    (hp : tryParseIPv4 (s.drop i) = (some q, n)) : findFrom s i = (ipString q, i, i + n) := by
  unfold findFrom
  obtain ⟨f, hf⟩ : ∃ f, s.length + 1 - i = f + 1 := ⟨s.length - i, by omega⟩
  rw [hf, findLoop, if_pos h, if_pos (by unfold isStartDigit at hc; omega), hp]

theorem findFrom_failed (s : Str) (i : Nat) (h : i < s.length)
    (hc : isStartDigit (s.getD i 0)) {n : Nat}
    (hp : tryParseIPv4 (s.drop i) = (none, n)) : findFrom s i = findFrom s (i + n + 1) := by
  unfold findFrom
  obtain ⟨f, hf⟩ : ∃ f, s.length + 1 - i = f + 1 := ⟨s.length - i, by omega⟩
  rw [hf, findLoop, if_pos h, if_pos (by unfold isStartDigit at hc; omega), hp]
  exact findLoop_fuel s _ _ _ (by omega) (by omega)

/-- Induction along the indices that the loop of `FindNextIPv4` visits. -/
theorem findFrom_induction (s : Str) (P : Nat → Prop)
    (done : ∀ i, s.length ≤ i → P i)
    (skip : ∀ i, i < s.length → ¬ isStartDigit (s.getD i 0) → P (i + 1) → P i)
    (found : ∀ i q n, i < s.length → isStartDigit (s.getD i 0) →
      tryParseIPv4 (s.drop i) = (some q, n) → P i)
    (failed : ∀ i n, i < s.length → isStartDigit (s.getD i 0) →
      tryParseIPv4 (s.drop i) = (none, n) → P (i + n + 1) → P i) : ∀ i, P i := by
  intro i
  generalize hk : s.length - i = k
  induction k using Nat.strong_induction_on generalizing i with
  | _ k ih =>
    by_cases hlt : i < s.length
    · by_cases hc : isStartDigit (s.getD i 0)
      · rcases hp : tryParseIPv4 (s.drop i) with ⟨r, n⟩
        cases r with
        | none => exact failed i n hlt hc hp (ih _ (by omega) _ rfl)
        | some q => exact found i q n hlt hc hp
      · exact skip i hlt hc (ih _ (by omega) _ rfl)
    · exact done i (by omega)

/-- A match of the loop of `FindNextIPv4` starts at a byte in '1'..'9' from
which `tryParseIPv4` succeeds. -/
theorem findFrom_sound (s : Str) (i : Nat) {ip : Str} {st en : Nat}
    (h : findFrom s i = (ip, st, en)) (hip : ip ≠ []) :
    i ≤ st ∧ st < s.length ∧ isStartDigit (s.getD st 0) ∧
      ∃ q n, tryParseIPv4 (s.drop st) = (some q, n) ∧ en = st + n ∧ ip = ipString q := by
  revert h
  refine findFrom_induction s (fun i => findFrom s i = (ip, st, en) →
    i ≤ st ∧ st < s.length ∧ isStartDigit (s.getD st 0) ∧
      ∃ q n, tryParseIPv4 (s.drop st) = (some q, n) ∧ en = st + n ∧ ip = ipString q) ?_ ?_ ?_ ?_ i
  · intro i hi h
    rw [findFrom_done s i hi] at h
    simp only [Prod.mk.injEq] at h
    exact absurd h.1.symm hip
  · intro i hi hc ih h
    rw [findFrom_skip s i hi hc] at h
    have := ih h
    exact ⟨by omega, this.2⟩
  · intro i q n hi hc hp h
    rw [findFrom_found s i hi hc hp] at h
    simp only [Prod.mk.injEq] at h
    obtain ⟨h1, h2, h3⟩ := h
    subst h2
    exact ⟨le_refl _, hi, hc, q, n, hp, h3.symm, h1.symm⟩
  · intro i n hi hc hp ih h
    rw [findFrom_failed s i hi hc hp] at h
    have := ih h
    exact ⟨by omega, this.2⟩

/-- The result of the loop of `FindNextIPv4` when it finds nothing. -/
theorem findFrom_none (s : Str) (i : Nat) (hi : i ≤ s.length + 1)
    (h : (findFrom s i).1 = []) :
    (findFrom s i).2.1 = 0 ∧ s.length ≤ (findFrom s i).2.2 ∧ (findFrom s i).2.2 ≤ s.length + 1 := by
  revert hi h
  refine findFrom_induction s
    (fun i => i ≤ s.length + 1 → (findFrom s i).1 = [] → (findFrom s i).2.1 = 0 ∧
      s.length ≤ (findFrom s i).2.2 ∧ (findFrom s i).2.2 ≤ s.length + 1) ?_ ?_ ?_ ?_ i
  · intro i hi h1 _
    rw [findFrom_done s i hi]
    exact ⟨rfl, hi, h1⟩
  · intro i hi hc ih _ h
    rw [findFrom_skip s i hi hc] at h ⊢
    exact ih (by omega) h
  · intro i q n hi hc hp _ h
    rw [findFrom_found s i hi hc hp] at h
    exact absurd h (ipString_ne_nil q)
  · intro i n hi hc hp ih _ h
    rw [findFrom_failed s i hi hc hp] at h ⊢
    have hn := tryParseIPv4_le (s.drop i)
    rw [hp] at hn
    simp only [List.length_drop] at hn
    exact ih (by omega) h

/-! ## Decimal rendering of an octet -/

theorem ubtoa_digitRun (v : Nat) (hv : v < 1000) : DigitRun (ubtoa v) := by
  unfold ubtoa DigitRun isDigit
  split
  · simp; omega
  · split
    · simp; omega
    · simp; omega

theorem decVal_ubtoa (v : Nat) (hv : v < 1000) : decVal (ubtoa v) = v := by
  unfold ubtoa decVal decValFrom
  split
  · simp
  · split
    · simp; omega
    · simp; omega

theorem ubtoa_head (v : Nat) (h1 : 1 ≤ v) (hv : v < 1000) (rest : Str) :
    isStartDigit ((ubtoa v ++ rest).getD 0 0) := by
  unfold ubtoa isStartDigit
  split
  · simp; omega
  · split
    · simp; omega
    · simp; omega

/-- The rendering of an octet by `net.IP.String` is the decimal rendering
without leading zeros. -/
theorem ubtoa_eq_itoa (v : Nat) (hv : v < 1000) : ubtoa v = itoa v := by
  unfold ubtoa
  split
  · rename_i h
    rw [itoa_small v h]
  · split
    · rw [itoa_large v (by omega), itoa_small (v / 10) (by omega)]
      rfl
    · rw [itoa_large v (by omega), itoa_large (v / 10) (by omega),
        itoa_small (v / 10 / 10) (by omega)]
      simp only [List.singleton_append, List.cons_append, List.nil_append, List.cons.injEq,
        and_true]
      omega

/-- A literal followed by no digit has the shape of an address. -/
theorem literal_shape (sep a b c d : Nat) (q : Str) (ha : a ≤ 254) (hb : b ≤ 254)
    (hc : c ≤ 254) (hd : d ≤ 254) (hsep : isSep sep) (hq : NoDigitAhead q) :
    AddressShape (literal sep a b c d ++ q) (ubtoa a) (ubtoa b) (ubtoa c) (ubtoa d) sep q where
  eq := by simp [literal]
  sep := hsep
  run1 := ubtoa_digitRun a (by omega)
  run2 := ubtoa_digitRun b (by omega)
  run3 := ubtoa_digitRun c (by omega)
  run4 := ubtoa_digitRun d (by omega)
  val1 := by rw [decVal_ubtoa a (by omega)]; omega
  val2 := by rw [decVal_ubtoa b (by omega)]; omega
  val3 := by rw [decVal_ubtoa c (by omega)]; omega
  val4 := by rw [decVal_ubtoa d (by omega)]; omega
  rest := hq

theorem tryParseIPv4_literal (sep a b c d : Nat) (q : Str) (ha : a ≤ 254) (hb : b ≤ 254)
    (hc : c ≤ 254) (hd : d ≤ 254) (hsep : isSep sep) (hq : NoDigitAhead q) :
    tryParseIPv4 (literal sep a b c d ++ q) = (some [a, b, c, d], (literal sep a b c d).length) := by
  rw [tryParseIPv4_of_shape (literal_shape sep a b c d q ha hb hc hd hsep hq)]
  rw [decVal_ubtoa a (by omega), decVal_ubtoa b (by omega), decVal_ubtoa c (by omega),
    decVal_ubtoa d (by omega)]
  simp

theorem ipString_eq_literal (a b c d : Nat) : ipString [a, b, c, d] = literal 46 a b c d := by
  simp [ipString, literal]

theorem AddressShape.length_eq {t d1 d2 d3 d4 : Str} {sep : Nat} {rest : Str}
    (h : AddressShape t d1 d2 d3 d4 sep rest) :
    t.length = d1.length + d2.length + d3.length + d4.length + 3 + rest.length := by
  rw [h.eq]
  simp
  omega

/-! ## The cases of TestMatchingIPv4s -/

/-- The embedding gives what the test `TestMatchingIPv4s` expects, case by
case. -/
theorem TestMatchingIPv4s_cases :
    FindNextIPv4 (ascii "received request from 192.168.1.10") = (ascii "192.168.1.10", 22, 34) ∧
    FindNextIPv4 (ascii "192.168.1.10 received request") = (ascii "192.168.1.10", 0, 12) ∧
    FindNextIPv4 (ascii "192.168.1.10") = (ascii "192.168.1.10", 0, 12) ∧
    FindNextIPv4 (ascii "calling https://192.168.1.20/metrics for values")
      = (ascii "192.168.1.20", 16, 28) ∧
    FindNextIPv4 (ascii "received request from 192.168.1.20 proxied through 192.168.1.3")
      = (ascii "192.168.1.20", 22, 34) ∧
    FindNextIPv4 (ascii "dns forwarded to 8.8.8.8 and was OK") = (ascii "8.8.8.8", 17, 24) ∧
    FindNextIPv4 (ascii "ip-10-0-129-220.ec2.aws.yaml") = (ascii "10.0.129.220", 3, 15) ∧
    FindNextIPv4 (ascii "ip+10+0+129+220.ec2.aws.yaml") = ([], 0, 28) ∧
    FindNextIPv4 (ascii "obfuscate 10.0.129.220 and 10-0-129-220")
      = (ascii "10.0.129.220", 10, 22) ∧
    FindNextIPv4 (ascii "version: 4.8.0-0.nightly-2021-07-31-065602") = ([], 0, 43) ∧
    FindNextIPv4 (ascii "version: 4.8.12") = ([], 0, 16) ∧
    FindNextIPv4 (ascii "Listening on 0.0.0.0:8080") = ([], 0, 26) := by
  refine ⟨?_, ?_, ?_, ?_, ?_, ?_, ?_, ?_, ?_, ?_, ?_, ?_⟩ <;> decide

/-! ## The claims on FindNextIPv4 -/

/-- C1: when `FindNextIPv4 s` returns a non-empty address `ip` with offsets
`(start, endIdx)`, then `start < endIdx ≤ len(s)`, the byte at `start` is in
'1'..'9', and `s[start:endIdx]` is `d1 sep d2 sep d3 sep d4` with each `di` a
non-empty run of digits of value below 255, one separator '.' or '-' used three
times, no digit after `d4`, and `ip` the four values in decimal without leading
zeros joined by '.'. -/
theorem FindNextIPv4_sound (s ip : Str) (start endIdx : Nat)
    (h : FindNextIPv4 s = (ip, start, endIdx)) (hip : ip ≠ []) :
    start < endIdx ∧ endIdx ≤ s.length ∧ isStartDigit (s.getD start 0) ∧
    ∃ d1 d2 d3 d4 sep,
      slice s start endIdx = d1 ++ [sep] ++ d2 ++ [sep] ++ d3 ++ [sep] ++ d4 ∧
      DigitRun d1 ∧ DigitRun d2 ∧ DigitRun d3 ∧ DigitRun d4 ∧
      decVal d1 < 255 ∧ decVal d2 < 255 ∧ decVal d3 < 255 ∧ decVal d4 < 255 ∧
      isSep sep ∧ NoDigitAhead (s.drop endIdx) ∧
      ip = literal 46 (decVal d1) (decVal d2) (decVal d3) (decVal d4) := by
  rw [← findFrom_zero] at h
  obtain ⟨-, hst, hc, q, n, hp, hen, hq⟩ := findFrom_sound s 0 h hip
  obtain ⟨d1, d2, d3, d4, sep, rest, hshape, hq2, hn⟩ := tryParseIPv4_shape hp
  have hlen := hshape.length_eq
  have hl1 := hshape.run1.length_pos
  have hdl : (s.drop start).length = s.length - start := List.length_drop _ _
  have hlit : (d1 ++ [sep] ++ d2 ++ [sep] ++ d3 ++ [sep] ++ d4).length = n := by
    simp
    omega
  have heq : s.drop start = (d1 ++ [sep] ++ d2 ++ [sep] ++ d3 ++ [sep] ++ d4) ++ rest := by
    rw [hshape.eq]
    simp
  refine ⟨by omega, by omega, hc, d1, d2, d3, d4, sep, ?_, hshape.run1, hshape.run2,
    hshape.run3, hshape.run4, hshape.val1, hshape.val2, hshape.val3, hshape.val4, hshape.sep,
    ?_, ?_⟩
  · unfold slice
    rw [List.drop_take, heq, hen]
    exact List.take_left' (by omega)
  · have : s.drop endIdx = (s.drop start).drop n := by
      rw [List.drop_drop, hen]
    rw [this, heq]
    rw [List.drop_left' hlit]
    exact hshape.rest
  · rw [hq, hq2, ipString_eq_literal]

/-- A witness of C1. -/
theorem FindNextIPv4_sound_witness :
    (10 < 22 ∧ 22 ≤ (ascii "obfuscate 10-0-129-220 and").length ∧
      isStartDigit ((ascii "obfuscate 10-0-129-220 and").getD 10 0) ∧
      ∃ d1 d2 d3 d4 sep,
        slice (ascii "obfuscate 10-0-129-220 and") 10 22
          = d1 ++ [sep] ++ d2 ++ [sep] ++ d3 ++ [sep] ++ d4 ∧
        DigitRun d1 ∧ DigitRun d2 ∧ DigitRun d3 ∧ DigitRun d4 ∧
        decVal d1 < 255 ∧ decVal d2 < 255 ∧ decVal d3 < 255 ∧ decVal d4 < 255 ∧
        isSep sep ∧ NoDigitAhead ((ascii "obfuscate 10-0-129-220 and").drop 22) ∧
        ascii "10.0.129.220" = literal 46 (decVal d1) (decVal d2) (decVal d3) (decVal d4)) :=
  FindNextIPv4_sound (ascii "obfuscate 10-0-129-220 and") (ascii "10.0.129.220") 10 22
    (by decide) (by decide)

theorem findFrom_skip_run (pre p rest : Str) (hp : ∀ x ∈ p, ¬ isStartDigit x) :
    findFrom (pre ++ p ++ rest) pre.length = findFrom (pre ++ p ++ rest) (pre.length + p.length) := by
  induction p generalizing pre with
  | nil => simp
  | cons x p ih =>
    have h1 : pre.length < (pre ++ x :: p ++ rest).length := by
      simp only [List.length_append, List.length_cons]; omega
    have h2 : (pre ++ x :: p ++ rest).getD pre.length 0 = x := by
      rw [List.append_assoc, List.getD_append_right _ _ _ _ (le_refl _)]
      simp
    rw [findFrom_skip _ _ h1 (by rw [h2]; exact hp x (by simp))]
    have := ih (pre ++ [x]) (fun y hy => hp y (by simp [hy]))
    simp only [List.append_assoc, List.singleton_append, List.length_append, List.length_singleton,
      List.length_cons, List.length_nil, Nat.zero_add] at this ⊢
    rw [show pre.length + (p.length + 1) = pre.length + 1 + p.length by omega]
    exact this

/-- The loop of `FindNextIPv4` on a literal after a prefix without a byte in
'1'..'9' and before a suffix that starts with no digit. -/
theorem findFrom_literal (a b c d sep : Nat) (p q : Str) (ha1 : 1 ≤ a) (ha : a ≤ 254)
    (hb : b ≤ 254) (hc : c ≤ 254) (hd : d ≤ 254) (hsep : isSep sep)
    (hp : ∀ x ∈ p, ¬ isStartDigit x) (hq : NoDigitAhead q) :
    findFrom (p ++ literal sep a b c d ++ q) 0 =
      (literal 46 a b c d, p.length, p.length + (literal sep a b c d).length) := by
  have h0 := findFrom_skip_run [] p (literal sep a b c d ++ q) hp
  simp only [List.nil_append, List.length_nil, Nat.zero_add, ← List.append_assoc] at h0
  rw [h0]
  have hdrop : (p ++ literal sep a b c d ++ q).drop p.length = literal sep a b c d ++ q := by
    rw [List.append_assoc, List.drop_left]
  have hlit : 0 < (literal sep a b c d).length := by
    have := ubtoa_digitRun a (by omega)
    have := this.length_pos
    simp only [literal, List.length_append, List.length_singleton]
    omega
  have hlen : p.length < (p ++ literal sep a b c d ++ q).length := by
    simp only [List.length_append]
    omega
  have hget : (p ++ literal sep a b c d ++ q).getD p.length 0
      = (ubtoa a ++ ([sep] ++ ubtoa b ++ [sep] ++ ubtoa c ++ [sep] ++ ubtoa d ++ q)).getD 0 0 := by
    rw [List.append_assoc, List.getD_append_right _ _ _ _ (le_refl _)]
    simp [literal]
  rw [findFrom_found _ _ hlen (by rw [hget]; exact ubtoa_head a ha1 (by omega) _)
    (by rw [hdrop]; exact tryParseIPv4_literal sep a b c d q ha hb hc hd hsep hq)]
  rw [ipString_eq_literal]

/-- C2: for octets `a` in 1..254 and `b`, `c`, `d` in 0..254, a separator '.'
or '-', a prefix `p` with no byte in '1'..'9' and a suffix `q` that is empty or
starts with a byte that is no digit, `FindNextIPv4 (p ++ addr ++ q)` returns the
dotted address, `len(p)` and `len(p) + len(addr)`. -/
theorem FindNextIPv4_roundtrip (a b c d sep : Nat) (p q : Str) (ha1 : 1 ≤ a) (ha : a ≤ 254)
    (hb : b ≤ 254) (hc : c ≤ 254) (hd : d ≤ 254) (hsep : isSep sep)
    (hp : ∀ x ∈ p, ¬ isStartDigit x) (hq : NoDigitAhead q) :
    FindNextIPv4 (p ++ literal sep a b c d ++ q) =
      (literal 46 a b c d, p.length, p.length + (literal sep a b c d).length) := by
  rw [← findFrom_zero]
  exact findFrom_literal a b c d sep p q ha1 ha hb hc hd hsep hp hq

/-- A witness of C2. -/
theorem FindNextIPv4_roundtrip_witness :
    FindNextIPv4 (ascii "ip-" ++ literal 45 10 0 129 220 ++ ascii ".ec2.aws.yaml") =
      (literal 46 10 0 129 220, (ascii "ip-").length,
        (ascii "ip-").length + (literal 45 10 0 129 220).length) :=
  FindNextIPv4_roundtrip 10 0 129 220 45 (ascii "ip-") (ascii ".ec2.aws.yaml") (by decide)
    (by decide) (by decide) (by decide) (by decide) (by decide) (by decide) (by decide)

/-- C3, as stated, fails: index 2 of "1-2.3.4.5" is a valid start, yet
`FindNextIPv4` returns the empty address, because after the candidate at index
0 failed the scan resumed at index 4, behind the bytes that candidate consumed. -/
theorem FindNextIPv4_skips_valid_start :
    ValidStart (ascii "1-2.3.4.5") 2 ∧ (∀ j, j < 2 → ¬ ValidStart (ascii "1-2.3.4.5") j) ∧
      FindNextIPv4 (ascii "1-2.3.4.5") = ([], 0, 10) := by
  decide

/-- C3, amended: a match of `FindNextIPv4` starts at a valid start; the smallest
valid start `j` is the start returned whenever no earlier candidate consumes
bytes up to `j` (after a failed candidate at `c` that consumed `n` bytes the
scan resumes at `c + n + 1`); and a text without valid start gives the empty
address. -/
theorem FindNextIPv4_first (s : Str) :
    (∀ ip st en, FindNextIPv4 s = (ip, st, en) → ip ≠ [] → ValidStart s st) ∧
    (∀ j, ValidStart s j → (∀ c, c < j → ¬ ValidStart s c) →
      (∀ c, c < j → isStartDigit (s.getD c 0) → c + (tryParseIPv4 (s.drop c)).2 < j) →
      ∃ ip en, ip ≠ [] ∧ FindNextIPv4 s = (ip, j, en)) ∧
    ((∀ j, ¬ ValidStart s j) → (FindNextIPv4 s).1 = []) := by
  have part1 : ∀ ip st en, FindNextIPv4 s = (ip, st, en) → ip ≠ [] → ValidStart s st := by
    intro ip st en h hip
    rw [← findFrom_zero] at h
    obtain ⟨-, hst, hc, q, n, hp, -, -⟩ := findFrom_sound s 0 h hip
    exact ⟨hst, hc, by rw [hp]; simp⟩
  refine ⟨part1, ?_, ?_⟩
  · intro j hj hmin hskip
    obtain ⟨hjlen, hjc, hjp⟩ := hj
    rcases hpj : tryParseIPv4 (s.drop j) with ⟨r, n⟩
    cases r with
    | none => rw [hpj] at hjp; exact absurd rfl hjp
    | some q =>
      refine ⟨ipString q, j + n, ipString_ne_nil q, ?_⟩
      rw [← findFrom_zero]
      have key : ∀ i, i ≤ j → findFrom s i = (ipString q, j, j + n) := by
        refine findFrom_induction s (fun i => i ≤ j → findFrom s i = (ipString q, j, j + n))
          ?_ ?_ ?_ ?_
        · intro i hi hij
          omega
        · intro i hi hc ih hij
          have hne : i ≠ j := by rintro rfl; exact hc hjc
          rw [findFrom_skip s i hi hc]
          exact ih (by omega)
        · intro i q1 n1 hi hc hp hij
          by_cases hij2 : i = j
          · subst hij2
            rw [findFrom_found s i hi hc hp]
            rw [hp] at hpj
            simp only [Prod.mk.injEq, Option.some.injEq] at hpj
            rw [hpj.1, hpj.2]
          · exact absurd ⟨hi, hc, by rw [hp]; simp⟩ (hmin i (by omega))
        · intro i n1 hi hc hp ih hij
          have hne : i ≠ j := by
            rintro rfl
            rw [hp] at hpj
            simp at hpj
          have := hskip i (by omega) hc
          rw [hp] at this
          rw [findFrom_failed s i hi hc hp]
          exact ih (by omega)
      exact key 0 (Nat.zero_le _)
  · intro hno
    by_contra hne
    rcases hf : FindNextIPv4 s with ⟨ip, st, en⟩
    rw [hf] at hne
    exact hno st (part1 ip st en hf hne)

/-- A witness of C3 as amended: in "4.8.12 at 8.8.8.8" the smallest valid start
is 10 and no earlier candidate consumes bytes up to it, and "4.8.12" has no
valid start. -/
theorem FindNextIPv4_first_witness :
    (∃ ip en, ip ≠ [] ∧ FindNextIPv4 (ascii "4.8.12 at 8.8.8.8") = (ip, 10, en)) ∧
      (FindNextIPv4 (ascii "4.8.12")).1 = [] :=
  ⟨(FindNextIPv4_first (ascii "4.8.12 at 8.8.8.8")).2.1 10 (by decide) (by decide) (by decide),
    (FindNextIPv4_first (ascii "4.8.12")).2.2
      (fun j hv => (by decide : ∀ j, j < 6 → ¬ ValidStart (ascii "4.8.12") j) j hv.1 hv)⟩

theorem findFrom_no_start (s : Str) (hno : ∀ x ∈ s, ¬ isStartDigit x) (i : Nat)
    (hi : i ≤ s.length) : findFrom s i = ([], 0, s.length) := by
  revert hi
  refine findFrom_induction s (fun i => i ≤ s.length → findFrom s i = ([], 0, s.length))
    ?_ ?_ ?_ ?_ i
  · intro i hi hle
    rw [findFrom_done s i hi]
    have : i = s.length := by omega
    rw [this]
  · intro i hi hc ih _
    rw [findFrom_skip s i hi hc]
    exact ih (by omega)
  · intro i q n hi hc _ _
    rw [List.getD_eq_getElem _ _ hi] at hc
    exact absurd hc (hno _ (List.getElem_mem hi))
  · intro i n hi hc _ _ _
    rw [List.getD_eq_getElem _ _ hi] at hc
    exact absurd hc (hno _ (List.getElem_mem hi))

/-- C4, as stated, fails: on the 15 bytes of "version: 4.8.12" nothing is found
and the end offset returned is 16, not 15. -/
theorem FindNextIPv4_end_offset_past_length :
    (FindNextIPv4 (ascii "version: 4.8.12")).1 = [] ∧
      (ascii "version: 4.8.12").length = 15 ∧
      FindNextIPv4 (ascii "version: 4.8.12") = ([], 0, 16) := by
  decide

/-- C4, amended: when `FindNextIPv4 s` finds no address it returns the empty
address, start offset 0 and an end offset that is `len(s)` or `len(s) + 1`; it
is `len(s)` when `s` has no byte in '1'..'9'. -/
theorem FindNextIPv4_no_match (s : Str) (h : (FindNextIPv4 s).1 = []) :
    (FindNextIPv4 s).2.1 = 0 ∧
      ((FindNextIPv4 s).2.2 = s.length ∨ (FindNextIPv4 s).2.2 = s.length + 1) ∧
      ((∀ x ∈ s, ¬ isStartDigit x) → (FindNextIPv4 s).2.2 = s.length) := by
  rw [← findFrom_zero] at h ⊢
  obtain ⟨h1, h2, h3⟩ := findFrom_none s 0 (by omega) h
  refine ⟨h1, by omega, ?_⟩
  intro hno
  rw [findFrom_no_start s hno 0 (Nat.zero_le _)]

/-- A witness of C4 as amended. -/
theorem FindNextIPv4_no_match_witness :
    (FindNextIPv4 (ascii "ip+10+0+129+220.ec2.aws.yaml")).2.1 = 0 ∧
      ((FindNextIPv4 (ascii "ip+10+0+129+220.ec2.aws.yaml")).2.2
          = (ascii "ip+10+0+129+220.ec2.aws.yaml").length ∨
        (FindNextIPv4 (ascii "ip+10+0+129+220.ec2.aws.yaml")).2.2
          = (ascii "ip+10+0+129+220.ec2.aws.yaml").length + 1) ∧
      ((∀ x ∈ ascii "ip+10+0+129+220.ec2.aws.yaml", ¬ isStartDigit x) →
        (FindNextIPv4 (ascii "ip+10+0+129+220.ec2.aws.yaml")).2.2
          = (ascii "ip+10+0+129+220.ec2.aws.yaml").length) :=
  FindNextIPv4_no_match (ascii "ip+10+0+129+220.ec2.aws.yaml") (by decide)

/-! ## The tracker -/

theorem mapGet_mapSet (m : Mapping) (k v k2 : Str) :
    mapGet (mapSet m k v) k2 = if k = k2 then some v else mapGet m k2 := by
  induction m with
  | nil => simp [mapSet, mapGet]
  | cons e m ih =>
    rcases e with ⟨k1, v1⟩
    by_cases h1 : k1 = k
    · subst h1
      by_cases h2 : k1 = k2
      · simp [mapSet, mapGet, h2]
      · simp [mapSet, mapGet, h2]
    · by_cases h2 : k1 = k2
      · subst h2
        have : ¬ k = k1 := fun h => h1 h.symm
        simp [mapSet, mapGet, h1, this]
      · simp [mapSet, mapGet, h1, h2, ih]

theorem mapGet_mapSet_self (m : Mapping) (k v : Str) : mapGet (mapSet m k v) k = some v := by
  rw [mapGet_mapSet, if_pos rfl]

theorem AddReplacement_same (m : Mapping) (k v : Str) (h : mapGet m k = some v) :
    AddReplacement m k v = some m := by
  simp [AddReplacement, h]

theorem AddReplacement_absent (m : Mapping) (k v : Str) (h : mapGet m k = none) :
    AddReplacement m k v = some (mapSet m k v) := by
  simp [AddReplacement, h]

/-! ## The loop of replace -/

theorem findNext_end_pos {t ip : Str} {st en : Nat} (h : FindNextIPv4 t = (ip, st, en))
    (hip : ip ≠ []) : st < en ∧ en ≤ t.length := by
  rw [← findFrom_zero] at h
  obtain ⟨-, hst, -, q, n, hp, hen, -⟩ := findFrom_sound t 0 h hip
  obtain ⟨d1, d2, d3, d4, sep, rest, hshape, -, hn⟩ := tryParseIPv4_shape hp
  have hlen := hshape.length_eq
  have hl1 := hshape.run1.length_pos
  have hdl : (t.drop st).length = t.length - st := List.length_drop _ _
  omega

/-- One iteration of the loop of `replace`. -/
theorem replaceLoop_succ (s : Str) (fuel i lwi : Nat) (sb : Str) (o : fastIpv4Obfuscator) :
    replaceLoop s (fuel + 1) i lwi sb o =
      if i < s.length then
        if (FindNextIPv4 (s.drop i)).1 ≠ [] then
          (recordMatch o (FindNextIPv4 (s.drop i)).1
            (slice (s.drop i) (FindNextIPv4 (s.drop i)).2.1 (FindNextIPv4 (s.drop i)).2.2)).bind
            (fun ro => replaceLoop s fuel (i + (FindNextIPv4 (s.drop i)).2.2)
              (i + (FindNextIPv4 (s.drop i)).2.2)
              (sb ++ slice s lwi (i + (FindNextIPv4 (s.drop i)).2.1) ++ ro.1) ro.2)
        else replaceLoop s fuel (i + 1) i (sb ++ byteToString (s.getD i 0)) o
      else some (sb, o) := by
  rw [replaceLoop]
  rcases hf : FindNextIPv4 (s.drop i) with ⟨ip, st, en⟩
  simp only [recordMatch]
  split
  · split
    · rcases generateFor o ip with ⟨r, o1⟩
      simp only
      cases AddReplacement o1.tracker ip r with
      | none => rfl
      | some m2 =>
        simp only
        cases AddReplacement m2 (slice (List.drop i s) st en) r with
        | none => rfl
        | some m3 => rfl
    · rfl
  · rfl

/-- More fuel than the bytes left never changes the result of `replaceLoop`. -/
theorem replaceLoop_fuel (s : Str) (fuel1 fuel2 i lwi : Nat) (sb : Str)
    (o : fastIpv4Obfuscator) (h1 : s.length ≤ i + fuel1) (h2 : s.length ≤ i + fuel2) :
    replaceLoop s fuel1 i lwi sb o = replaceLoop s fuel2 i lwi sb o := by
  induction fuel1 generalizing fuel2 i lwi sb o with
  | zero =>
    cases fuel2 with
    | zero => rfl
    | succ f2 => rw [replaceLoop_succ, if_neg (by omega)]; rfl
  | succ f1 ih =>
    cases fuel2 with
    | zero => rw [replaceLoop_succ, if_neg (by omega)]; rfl
    | succ f2 =>
      rw [replaceLoop_succ, replaceLoop_succ]
      rcases hf : FindNextIPv4 (s.drop i) with ⟨ip, st, en⟩
      simp only
      split
      · split
        · rename_i hip
          have hpos := findNext_end_pos hf hip
          congr 1
          funext ro
          exact ih f2 (i + en) _ _ _ (by omega) (by omega)
        · exact ih f2 (i + 1) _ _ _ (by omega) (by omega)
      · rfl

/-- The fuel that `replace` gives its loop is enough. -/
theorem replace_fuel (s : Str) (fuel : Nat) (o : fastIpv4Obfuscator) (h : s.length ≤ fuel) :
    replaceLoop s fuel 0 0 [] o = replaceFrom s 0 0 [] o :=
  replaceLoop_fuel s _ _ 0 0 [] o (by omega) (by simp)

theorem replaceFrom_done (s : Str) (i lwi : Nat) (sb : Str) (o : fastIpv4Obfuscator)
    (h : s.length ≤ i) : replaceFrom s i lwi sb o = some (sb, o) := by
  unfold replaceFrom
  rw [show s.length - i = 0 by omega]
  rfl

theorem replaceFrom_plain_step (s : Str) (i lwi : Nat) (sb : Str) (o : fastIpv4Obfuscator)
    (h : i < s.length) (hf : (FindNextIPv4 (s.drop i)).1 = []) :
    replaceFrom s i lwi sb o = replaceFrom s (i + 1) i (sb ++ byteToString (s.getD i 0)) o := by
  unfold replaceFrom
  obtain ⟨f, hfu⟩ : ∃ f, s.length - i = f + 1 := ⟨s.length - i - 1, by omega⟩
  rw [hfu, replaceLoop_succ, if_pos h, if_neg (by simp [hf])]
  exact replaceLoop_fuel s f (s.length - (i + 1)) (i + 1) _ _ _ (by omega) (by omega)

theorem replaceFrom_match_step (s : Str) (i lwi : Nat) (sb : Str) (o : fastIpv4Obfuscator)
    {ip : Str} {st en : Nat} (h : i < s.length) (hf : FindNextIPv4 (s.drop i) = (ip, st, en))
    (hip : ip ≠ []) :
    replaceFrom s i lwi sb o =
      (recordMatch o ip (slice (s.drop i) st en)).bind
        (fun ro => replaceFrom s (i + en) (i + en) (sb ++ slice s lwi (i + st) ++ ro.1) ro.2) := by
  unfold replaceFrom
  obtain ⟨f, hfu⟩ : ∃ f, s.length - i = f + 1 := ⟨s.length - i - 1, by omega⟩
  have hpos := findNext_end_pos hf hip
  rw [hfu, replaceLoop_succ, if_pos h, hf, if_pos hip]
  congr 1
  funext ro
  exact replaceLoop_fuel s f (s.length - (i + en)) (i + en) _ _ _ (by omega) (by omega)

/-- The method `replace` in terms of the loop with the fuel it needs. -/
theorem replace_eq (o : fastIpv4Obfuscator) (s : Str) :
    replace o s = (replaceFrom s 0 0 [] o).map
      (fun r => if r.1.length = 0 then (s, r.2) else r) := by
  unfold replace replaceFrom
  simp only [Nat.sub_zero]
  cases replaceLoop s s.length 0 0 [] o with
  | none => rfl
  | some r =>
    rcases r with ⟨sb, o1⟩
    simp only [Option.map_some']
    split <;> rfl

/-- Text in which no suffix from `i` on holds an address goes to the output byte
by byte, each byte through the conversion `string(s[i])`. -/
theorem replaceFrom_plain (s : Str) (o : fastIpv4Obfuscator) (i lwi : Nat) (sb : Str)
    (hno : ∀ j, i ≤ j → j < s.length → (FindNextIPv4 (s.drop j)).1 = []) :
    replaceFrom s i lwi sb o = some (sb ++ (s.drop i).flatMap byteToString, o) := by
  generalize hk : s.length - i = k
  induction k generalizing i lwi sb with
  | zero =>
    rw [replaceFrom_done s i lwi sb o (by omega), List.drop_of_length_le (by omega)]
    simp
  | succ k ih =>
    have hi : i < s.length := by omega
    rw [replaceFrom_plain_step s i lwi sb o hi (hno i (le_refl _) hi),
      ih (i + 1) i _ (fun j hj => hno j (by omega)) (by omega)]
    conv_rhs => rw [List.drop_eq_getElem_cons hi]
    rw [List.getD_eq_getElem _ _ hi, List.flatMap_cons, List.append_assoc]

theorem flatMap_byteToString_ascii (t : Str) (h : ∀ x ∈ t, x < 128) : t.flatMap byteToString = t := by
  induction t with
  | nil => rfl
  | cons x t ih =>
    have hx : x < 128 := h x (by simp)
    rw [List.flatMap_cons, ih (fun y hy => h y (by simp [hy]))]
    simp [byteToString, hx]

/-! ## The tracker calls on a match -/

theorem generateFor_known (o : fastIpv4Obfuscator) (hv : ValidType o) (ip r : Str)
    (h : mapGet o.tracker ip = some r) : generateFor o ip = (r, o) := by
  unfold generateFor GenerateIfAbsent
  rcases hv with hv | hv
  · rw [if_pos hv, h]
  · have hne : ¬ o.replacementType = ObfuscateReplacementTypeStatic := by
      rw [hv]; decide
    rw [if_neg hne, if_pos hv, h]

theorem generateFor_new (o : fastIpv4Obfuscator) (hv : ValidType o) (ip : Str)
    (h : mapGet o.tracker ip = none) :
    generateFor o ip = (nextReplacement o,
      { o with tracker := mapSet o.tracker ip (nextReplacement o), gen := nextGen o }) := by
  unfold generateFor GenerateIfAbsent nextReplacement nextGen
  rcases hv with hv | hv
  · rw [if_pos hv, h]
    simp [generateStaticReplacement, hv]
  · have hne : ¬ o.replacementType = ObfuscateReplacementTypeStatic := by
      rw [hv]; decide
    rw [if_neg hne, if_pos hv, h]
    simp [generateConsistentReplacement, hne]

theorem recordMatch_known_present (o : fastIpv4Obfuscator) (hv : ValidType o) (ip lit r : Str)
    (h : mapGet o.tracker ip = some r) (hl : mapGet o.tracker lit = some r) :
    recordMatch o ip lit = some (r, o) := by
  unfold recordMatch
  rw [generateFor_known o hv ip r h]
  simp only
  rw [AddReplacement_same _ _ _ h]
  simp only
  rw [AddReplacement_same _ _ _ hl]

theorem recordMatch_known_absent (o : fastIpv4Obfuscator) (hv : ValidType o) (ip lit r : Str)
    (h : mapGet o.tracker ip = some r) (hl : mapGet o.tracker lit = none) :
    recordMatch o ip lit = some (r, { o with tracker := mapSet o.tracker lit r }) := by
  unfold recordMatch
  rw [generateFor_known o hv ip r h]
  simp only
  rw [AddReplacement_same _ _ _ h]
  simp only
  rw [AddReplacement_absent _ _ _ hl]

theorem recordMatch_new_same (o : fastIpv4Obfuscator) (hv : ValidType o) (ip : Str)
    (h : mapGet o.tracker ip = none) :
    recordMatch o ip ip = some (nextReplacement o,
      { o with tracker := mapSet o.tracker ip (nextReplacement o), gen := nextGen o }) := by
  unfold recordMatch
  rw [generateFor_new o hv ip h]
  simp only
  rw [AddReplacement_same _ _ _ (mapGet_mapSet_self _ _ _)]
  simp only
  rw [AddReplacement_same _ _ _ (mapGet_mapSet_self _ _ _)]

theorem recordMatch_new_absent (o : fastIpv4Obfuscator) (hv : ValidType o) (ip lit : Str)
    (h : mapGet o.tracker ip = none) (hl : mapGet o.tracker lit = none) (hne : ip ≠ lit) :
    recordMatch o ip lit = some (nextReplacement o,
      { o with tracker := mapSet (mapSet o.tracker ip (nextReplacement o)) lit (nextReplacement o),
               gen := nextGen o }) := by
  unfold recordMatch
  rw [generateFor_new o hv ip h]
  simp only
  rw [AddReplacement_same _ _ _ (mapGet_mapSet_self _ _ _)]
  simp only
  rw [AddReplacement_absent _ _ _ (by rw [mapGet_mapSet, if_neg hne]; exact hl)]

/-! ## The loop of replace on texts that hold known literals -/

theorem literal_length_pos (sep a b c d : Nat) : 0 < (literal sep a b c d).length := by
  simp only [literal, List.length_append, List.length_singleton]
  omega

theorem literal_ne_nil (sep a b c d : Nat) : literal sep a b c d ≠ [] :=
  List.length_pos.1 (literal_length_pos sep a b c d)

theorem literal_sep_ne (sep a b c d : Nat) (h : sep ≠ 46) :
    literal 46 a b c d ≠ literal sep a b c d := by
  intro heq
  simp only [literal, List.append_assoc, List.singleton_append] at heq
  have := List.append_cancel_left heq
  simp only [List.cons_append, List.cons.injEq] at this
  exact h this.1.symm

theorem PlainText.no_start {t : Str} (h : PlainText t) : ∀ x ∈ t, ¬ isStartDigit x := by
  intro x hx hs
  have := (h x hx).2
  unfold isDigit at this
  unfold isStartDigit at hs
  omega

theorem PlainText.noDigitAhead {t : Str} (h : PlainText t) (rest : Str) (hne : t ≠ []) :
    NoDigitAhead (t ++ rest) := by
  cases t with
  | nil => exact absurd rfl hne
  | cons x t =>
    intro c hc
    simp at hc
    subst hc
    exact (h x (by simp)).2

theorem PlainText.noDigitAhead_self {t : Str} (h : PlainText t) : NoDigitAhead t := by
  cases t with
  | nil => intro c hc; simp at hc
  | cons x t =>
    intro c hc
    simp at hc
    subst hc
    exact (h x (by simp)).2

theorem PlainText.flatMap_eq {t : Str} (h : PlainText t) : t.flatMap byteToString = t :=
  flatMap_byteToString_ascii t (fun x hx => (h x hx).1)

/-- In a text without a byte in '1'..'9' no suffix holds an address. -/
theorem findNext_drop_no_start (t : Str) (h : ∀ x ∈ t, ¬ isStartDigit x) (j : Nat) :
    (FindNextIPv4 (t.drop j)).1 = [] := by
  rw [← findFrom_zero,
    findFrom_no_start (t.drop j) (fun x hx => h x (List.mem_of_mem_drop hx)) 0 (Nat.zero_le _)]

/-- The loop of `replace` on a tail of plain text. -/
theorem replaceFrom_tail (s : Str) (o : fastIpv4Obfuscator) (i lwi : Nat) (sb q : Str)
    (hs : s.drop i = q) (hq : PlainText q) :
    replaceFrom s i lwi sb o = some (sb ++ q, o) := by
  rw [replaceFrom_plain s o i lwi sb, hs, hq.flatMap_eq]
  intro j hij _
  have : s.drop j = q.drop (j - i) := by
    rw [← hs, List.drop_drop]
    congr 1
    omega
  rw [this]
  exact findNext_drop_no_start q hq.no_start _

/-- The loop of `replace` on plain text followed by a literal: the text is
copied, the literal is recorded and replaced. -/
theorem replaceFrom_literal (s : Str) (o : fastIpv4Obfuscator) (i : Nat) (sb : Str)
    (a b c d sep : Nat) (p q : Str) (ha1 : 1 ≤ a) (ha : a ≤ 254) (hb : b ≤ 254) (hc : c ≤ 254)
    (hd : d ≤ 254) (hsep : isSep sep) (hp : ∀ x ∈ p, ¬ isStartDigit x) (hq : NoDigitAhead q)
    (hs : s.drop i = p ++ literal sep a b c d ++ q) :
    replaceFrom s i i sb o =
      (recordMatch o (literal 46 a b c d) (literal sep a b c d)).bind
        (fun ro => replaceFrom s (i + (p.length + (literal sep a b c d).length))
          (i + (p.length + (literal sep a b c d).length)) (sb ++ p ++ ro.1) ro.2) := by
  have hpos := literal_length_pos sep a b c d
  have hlen : (s.drop i).length = p.length + (literal sep a b c d).length + q.length := by
    rw [hs]; simp only [List.length_append]
  rw [List.length_drop] at hlen
  have hf : FindNextIPv4 (s.drop i) =
      (literal 46 a b c d, p.length, p.length + (literal sep a b c d).length) := by
    rw [hs, ← findFrom_zero]
    exact findFrom_literal a b c d sep p q ha1 ha hb hc hd hsep hp hq
  rw [replaceFrom_match_step s i i sb o (by omega) hf (literal_ne_nil _ _ _ _ _)]
  have h1 : slice (s.drop i) p.length (p.length + (literal sep a b c d).length)
      = literal sep a b c d := by
    unfold slice
    rw [hs, List.drop_take, List.append_assoc, List.drop_left]
    exact List.take_left' (by omega)
  have h2 : slice s i (i + p.length) = p := by
    unfold slice
    rw [List.drop_take, hs, List.append_assoc]
    exact List.take_left' (by omega)
  rw [h1, h2]

/-- The method `replace` on a text that holds one literal between plain texts. -/
theorem replace_one (o : fastIpv4Obfuscator) (a b c d sep : Nat) (p q : Str) (ha1 : 1 ≤ a)
    (ha : a ≤ 254) (hb : b ≤ 254) (hc : c ≤ 254) (hd : d ≤ 254) (hsep : isSep sep)
    (hp : PlainText p) (hq : PlainText q) :
    replace o (p ++ literal sep a b c d ++ q) =
      (recordMatch o (literal 46 a b c d) (literal sep a b c d)).map
        (fun ro => (if (p ++ ro.1 ++ q).length = 0 then p ++ literal sep a b c d ++ q
          else p ++ ro.1 ++ q, ro.2)) := by
  rw [replace_eq, replaceFrom_literal (p ++ literal sep a b c d ++ q) o 0 [] a b c d sep p q
    ha1 ha hb hc hd hsep hp.no_start hq.noDigitAhead_self (by simp)]
  cases recordMatch o (literal 46 a b c d) (literal sep a b c d) with
  | none => rfl
  | some ro =>
    simp only [Option.some_bind, Option.map_some', Nat.zero_add, List.nil_append]
    rw [replaceFrom_tail _ ro.2 _ _ _ q
      (List.drop_left' (by simp only [List.length_append])) hq]
    simp only [Option.map_some']
    split <;> rfl

/-- The method `replace` on a text that holds two literals between plain texts,
the one in the middle not empty. -/
theorem replace_two (o : fastIpv4Obfuscator) (a b c d sep a2 b2 c2 d2 sep2 : Nat) (p m q : Str)
    (ha1 : 1 ≤ a) (ha : a ≤ 254) (hb : b ≤ 254) (hc : c ≤ 254) (hd : d ≤ 254)
    (hsep : isSep sep) (ha21 : 1 ≤ a2) (ha2 : a2 ≤ 254) (hb2 : b2 ≤ 254) (hc2 : c2 ≤ 254)
    (hd2 : d2 ≤ 254) (hsep2 : isSep sep2)
    (hp : PlainText p) (hm : PlainText m) (hmne : m ≠ []) (hq : PlainText q) :
    replace o (p ++ literal sep a b c d ++ m ++ literal sep2 a2 b2 c2 d2 ++ q) =
      (recordMatch o (literal 46 a b c d) (literal sep a b c d)).bind (fun ro1 =>
        (recordMatch ro1.2 (literal 46 a2 b2 c2 d2) (literal sep2 a2 b2 c2 d2)).map (fun ro2 =>
          (if (p ++ ro1.1 ++ m ++ ro2.1 ++ q).length = 0
            then p ++ literal sep a b c d ++ m ++ literal sep2 a2 b2 c2 d2 ++ q
            else p ++ ro1.1 ++ m ++ ro2.1 ++ q, ro2.2))) := by
  rw [replace_eq, replaceFrom_literal _ o 0 [] a b c d sep p
    (m ++ literal sep2 a2 b2 c2 d2 ++ q)
    ha1 ha hb hc hd hsep hp.no_start (by
      rw [List.append_assoc]; exact hm.noDigitAhead _ hmne) (by simp)]
  cases recordMatch o (literal 46 a b c d) (literal sep a b c d) with
  | none => rfl
  | some ro1 =>
    simp only [Option.some_bind, Nat.zero_add, List.nil_append]
    rw [replaceFrom_literal _ ro1.2 _ _ a2 b2 c2 d2 sep2 m q ha21 ha2 hb2 hc2 hd2 hsep2
      hm.no_start hq.noDigitAhead_self (by
        rw [show p ++ literal sep a b c d ++ m ++ literal sep2 a2 b2 c2 d2 ++ q
          = (p ++ literal sep a b c d) ++ (m ++ literal sep2 a2 b2 c2 d2 ++ q) by
            simp only [List.append_assoc]]
        exact List.drop_left' (by simp only [List.length_append]))]
    cases recordMatch ro1.2 (literal 46 a2 b2 c2 d2) (literal sep2 a2 b2 c2 d2) with
    | none => rfl
    | some ro2 =>
      simp only [Option.some_bind, Option.map_some']
      rw [replaceFrom_tail _ ro2.2 _ _ _ q
        (List.drop_left' (by simp only [List.length_append]; omega)) hq]
      simp only [Option.map_some', List.append_assoc]
      split <;> rfl

/-! ## The claims on one and two addresses -/

theorem NewFastIPv4Obfuscator_ok {t : Str} {o : fastIpv4Obfuscator}
    (h : NewFastIPv4Obfuscator t = Except.ok o) :
    o = { tracker := NewSimpleTracker
          gen := newGenerator consistentIPv4Template obfuscatedStaticIPv4 9999999999
          replacementType := t } ∧
      (t = ObfuscateReplacementTypeStatic ∨ t = ObfuscateReplacementTypeConsistent) := by
  unfold NewFastIPv4Obfuscator at h
  split at h
  · cases h
  · rename_i hne
    simp only [Except.ok.injEq] at h
    refine ⟨h.symm, ?_⟩
    by_cases h1 : t = ObfuscateReplacementTypeStatic
    · exact Or.inl h1
    · by_cases h2 : t = ObfuscateReplacementTypeConsistent
      · exact Or.inr h2
      · exact absurd ⟨h1, h2⟩ hne

theorem nextReplacement_fresh_consistent :
    nextReplacement freshConsistent = ascii "x-ipv4-0000000001-x" := by decide

/-- C5: a fresh fast IPv4 obfuscator in consistent mode turns
`p ++ addr ++ q`, for a well-formed address literal `addr` and ASCII texts `p`
and `q` without a digit, into `p ++ "x-ipv4-0000000001-x" ++ q`, and its report
afterwards maps exactly the dotted form of `addr` and the literal `addr` to
"x-ipv4-0000000001-x" (one key when `addr` is dotted). -/
theorem Contents_single_address (o : fastIpv4Obfuscator)
    (hnew : NewFastIPv4Obfuscator ObfuscateReplacementTypeConsistent = Except.ok o)
    (a b c d sep : Nat) (p q : Str) (ha1 : 1 ≤ a) (ha : a ≤ 254) (hb : b ≤ 254) (hc : c ≤ 254)
    (hd : d ≤ 254) (hsep : isSep sep) (hp : PlainText p) (hq : PlainText q) :
    ∃ o1, Contents o (p ++ literal sep a b c d ++ q)
        = some (p ++ ascii "x-ipv4-0000000001-x" ++ q, o1) ∧
      Report o1.tracker =
        (if sep = 46 then [(literal 46 a b c d, ascii "x-ipv4-0000000001-x")]
         else [(literal 46 a b c d, ascii "x-ipv4-0000000001-x"),
               (literal sep a b c d, ascii "x-ipv4-0000000001-x")]) ∧
      ∀ k, mapGet (Report o1.tracker) k =
        if k = literal 46 a b c d ∨ k = literal sep a b c d
        then some (ascii "x-ipv4-0000000001-x") else none := by
  have ho : o = freshConsistent := (NewFastIPv4Obfuscator_ok hnew).1
  subst ho
  have hv : ValidType freshConsistent := Or.inr rfl
  have hr := nextReplacement_fresh_consistent
  have hne : (ascii "x-ipv4-0000000001-x") ≠ [] := by decide
  have hlen : ∀ r : Str, r ≠ [] → ¬ (p ++ r ++ q).length = 0 := by
    intro r hr0
    have := List.length_pos.2 hr0
    simp only [List.length_append]
    omega
  unfold Contents
  rw [replace_one freshConsistent a b c d sep p q ha1 ha hb hc hd hsep hp hq]
  by_cases h46 : sep = 46
  · subst h46
    rw [recordMatch_new_same freshConsistent hv _ rfl, hr]
    simp only [Option.map_some', if_neg (hlen _ hne)]
    refine ⟨_, rfl, ?_, ?_⟩
    · simp [Report, freshConsistent, NewSimpleTracker, mapSet]
    · intro k
      simp only [Report, freshConsistent, NewSimpleTracker, mapSet, mapGet, or_self]
      by_cases hk : k = literal 46 a b c d
      · simp [hk]
      · have : ¬ literal 46 a b c d = k := fun h => hk h.symm
        simp [hk, this]
  · have hlne := literal_sep_ne sep a b c d h46
    rw [recordMatch_new_absent freshConsistent hv _ _ rfl rfl hlne, hr]
    simp only [Option.map_some', if_neg (hlen _ hne)]
    refine ⟨_, rfl, ?_, ?_⟩
    · simp [Report, freshConsistent, NewSimpleTracker, mapSet, hlne, h46]
    · intro k
      simp only [Report, freshConsistent, NewSimpleTracker, mapSet, mapGet, hlne, if_false]
      by_cases hk : k = literal 46 a b c d
      · simp [hk]
      · have h1 : ¬ literal 46 a b c d = k := fun h => hk h.symm
        by_cases hk2 : k = literal sep a b c d
        · simp [hk2, h1, hk]
        · have h2 : ¬ literal sep a b c d = k := fun h => hk2 h.symm
          simp [hk, hk2, h1, h2]

/-- A witness of C5: the input of the end-to-end test. -/
theorem Contents_single_address_witness :
    ∃ o1, Contents freshConsistent
        (ascii "received request from " ++ literal 46 192 168 1 10 ++ [])
        = some (ascii "received request from " ++ ascii "x-ipv4-0000000001-x" ++ [], o1) ∧
      Report o1.tracker =
        (if 46 = 46 then [(literal 46 192 168 1 10, ascii "x-ipv4-0000000001-x")]
         else [(literal 46 192 168 1 10, ascii "x-ipv4-0000000001-x"),
               (literal 46 192 168 1 10, ascii "x-ipv4-0000000001-x")]) ∧
      ∀ k, mapGet (Report o1.tracker) k =
        if k = literal 46 192 168 1 10 ∨ k = literal 46 192 168 1 10
        then some (ascii "x-ipv4-0000000001-x") else none :=
  Contents_single_address freshConsistent rfl 192 168 1 10 46
    (ascii "received request from ") [] (by decide) (by decide) (by decide) (by decide)
    (by decide) (by decide) (by decide) (by decide)

theorem Contents_literal (o : fastIpv4Obfuscator) (a b c d sep : Nat) (ha1 : 1 ≤ a)
    (ha : a ≤ 254) (hb : b ≤ 254) (hc : c ≤ 254) (hd : d ≤ 254) (hsep : isSep sep) :
    Contents o (literal sep a b c d) =
      (recordMatch o (literal 46 a b c d) (literal sep a b c d)).map
        (fun ro => (if ro.1.length = 0 then literal sep a b c d else ro.1, ro.2)) := by
  have h := replace_one o a b c d sep [] [] ha1 ha hb hc hd hsep
    (by intro x hx; simp at hx) (by intro x hx; simp at hx)
  simp only [List.nil_append, List.append_nil] at h
  exact h

theorem Contents_pair (o : fastIpv4Obfuscator) (a b c d sep sep2 : Nat) (m : Str) (ha1 : 1 ≤ a)
    (ha : a ≤ 254) (hb : b ≤ 254) (hc : c ≤ 254) (hd : d ≤ 254) (hsep : isSep sep)
    (hsep2 : isSep sep2) (hm : PlainText m) (hmne : m ≠ []) :
    Contents o (literal sep a b c d ++ m ++ literal sep2 a b c d) =
      (recordMatch o (literal 46 a b c d) (literal sep a b c d)).bind (fun ro1 =>
        (recordMatch ro1.2 (literal 46 a b c d) (literal sep2 a b c d)).map (fun ro2 =>
          (ro1.1 ++ m ++ ro2.1, ro2.2))) := by
  have h := replace_two o a b c d sep a b c d sep2 [] m [] ha1 ha hb hc hd hsep ha1 ha hb hc hd
    hsep2 (by intro x hx; simp at hx) hm hmne (by intro x hx; simp at hx)
  simp only [List.nil_append, List.append_nil] at h
  unfold Contents
  rw [h]
  have hlen : ∀ r1 r2 : Str, ¬ (r1 ++ m ++ r2).length = 0 := by
    intro r1 r2
    have := List.length_pos.2 hmne
    simp only [List.length_append]
    omega
  simp only [if_neg (hlen _ _)]

theorem nextReplacement_fresh_ne_nil {t : Str} {o : fastIpv4Obfuscator}
    (h : NewFastIPv4Obfuscator t = Except.ok o) : nextReplacement o ≠ [] := by
  obtain ⟨ho, ht⟩ := NewFastIPv4Obfuscator_ok h
  subst ho
  rcases ht with ht | ht <;> subst ht <;> decide

/-- C6: on a fresh fast IPv4 obfuscator of either mode, the dotted spelling
`a.b.c.d` and the dashed spelling `a-b-c-d` get one replacement `r`, whether
`Contents` sees them in two calls (in either order) or in one call (in either
order, with a non-empty ASCII text `m` without digit between them), and the
report afterwards has the two spellings as two keys, both mapped to `r`. -/
theorem Contents_cross_spelling (t : Str) (o : fastIpv4Obfuscator)
    (hnew : NewFastIPv4Obfuscator t = Except.ok o) (a b c d : Nat) (ha1 : 1 ≤ a) (ha : a ≤ 254)
    (hb : b ≤ 254) (hc : c ≤ 254) (hd : d ≤ 254) (m : Str) (hm : PlainText m) (hmne : m ≠ []) :
    ∃ r, r ≠ [] ∧ literal 46 a b c d ≠ literal 45 a b c d ∧
      (∃ o1 o2, Contents o (literal 46 a b c d) = some (r, o1) ∧
        Contents o1 (literal 45 a b c d) = some (r, o2) ∧
        mapGet (Report o2.tracker) (literal 46 a b c d) = some r ∧
        mapGet (Report o2.tracker) (literal 45 a b c d) = some r) ∧
      (∃ o1 o2, Contents o (literal 45 a b c d) = some (r, o1) ∧
        Contents o1 (literal 46 a b c d) = some (r, o2) ∧
        mapGet (Report o2.tracker) (literal 46 a b c d) = some r ∧
        mapGet (Report o2.tracker) (literal 45 a b c d) = some r) ∧
      (∃ o1, Contents o (literal 46 a b c d ++ m ++ literal 45 a b c d)
          = some (r ++ m ++ r, o1) ∧
        mapGet (Report o1.tracker) (literal 46 a b c d) = some r ∧
        mapGet (Report o1.tracker) (literal 45 a b c d) = some r) ∧
      (∃ o1, Contents o (literal 45 a b c d ++ m ++ literal 46 a b c d)
          = some (r ++ m ++ r, o1) ∧
        mapGet (Report o1.tracker) (literal 46 a b c d) = some r ∧
        mapGet (Report o1.tracker) (literal 45 a b c d) = some r) := by
  have hrne := nextReplacement_fresh_ne_nil hnew
  obtain ⟨ho, ht⟩ := NewFastIPv4Obfuscator_ok hnew
  have hv : ValidType o := by rw [ho]; exact ht
  have htr : o.tracker = [] := by rw [ho]; rfl
  have hDH : literal 46 a b c d ≠ literal 45 a b c d := literal_sep_ne 45 a b c d (by decide)
  have s46 : isSep 46 := Or.inl rfl
  have s45 : isSep 45 := Or.inr rfl
  have hlen : ¬ (nextReplacement o).length = 0 := by
    have := List.length_pos.2 hrne
    omega
  have g0 : ∀ k, mapGet o.tracker k = none := by intro k; rw [htr]; rfl
  -- the obfuscator after the dotted spelling came first
  have hv1 : ValidType { o with tracker := mapSet o.tracker (literal 46 a b c d) (nextReplacement o),
                                gen := nextGen o } := hv
  -- the obfuscator after the dashed spelling came first
  have hv2 : ValidType { o with
      tracker := mapSet (mapSet o.tracker (literal 46 a b c d) (nextReplacement o))
        (literal 45 a b c d) (nextReplacement o), gen := nextGen o } := hv
  have gD1 : mapGet (mapSet o.tracker (literal 46 a b c d) (nextReplacement o))
      (literal 46 a b c d) = some (nextReplacement o) := mapGet_mapSet_self _ _ _
  have gH1 : mapGet (mapSet o.tracker (literal 46 a b c d) (nextReplacement o))
      (literal 45 a b c d) = none := by rw [mapGet_mapSet, if_neg hDH]; exact g0 _
  have gH2 : mapGet (mapSet (mapSet o.tracker (literal 46 a b c d) (nextReplacement o))
      (literal 45 a b c d) (nextReplacement o)) (literal 45 a b c d) = some (nextReplacement o) :=
    mapGet_mapSet_self _ _ _
  have gD2 : mapGet (mapSet (mapSet o.tracker (literal 46 a b c d) (nextReplacement o))
      (literal 45 a b c d) (nextReplacement o)) (literal 46 a b c d) = some (nextReplacement o) := by
    rw [mapGet_mapSet, if_neg (fun h => hDH h.symm)]; exact gD1
  refine ⟨nextReplacement o, hrne, hDH, ?_, ?_, ?_, ?_⟩
  · refine ⟨({ o with
        tracker := mapSet o.tracker (literal 46 a b c d) (nextReplacement o)
        gen := nextGen o } : fastIpv4Obfuscator),
      ({ o with
        tracker := mapSet (mapSet o.tracker (literal 46 a b c d) (nextReplacement o))
          (literal 45 a b c d) (nextReplacement o)
        gen := nextGen o } : fastIpv4Obfuscator), ?_, ?_, gD2, gH2⟩
    · rw [Contents_literal o a b c d 46 ha1 ha hb hc hd s46,
        recordMatch_new_same o hv _ (g0 _)]
      simp only [Option.map_some', if_neg hlen]
    · rw [Contents_literal _ a b c d 45 ha1 ha hb hc hd s45,
        recordMatch_known_absent _ hv1 _ _ _ gD1 gH1]
      simp only [Option.map_some', if_neg hlen]
  · refine ⟨({ o with
        tracker := mapSet (mapSet o.tracker (literal 46 a b c d) (nextReplacement o))
          (literal 45 a b c d) (nextReplacement o)
        gen := nextGen o } : fastIpv4Obfuscator),
      ({ o with
        tracker := mapSet (mapSet o.tracker (literal 46 a b c d) (nextReplacement o))
          (literal 45 a b c d) (nextReplacement o)
        gen := nextGen o } : fastIpv4Obfuscator),
       ?_, ?_, gD2, gH2⟩
    · rw [Contents_literal o a b c d 45 ha1 ha hb hc hd s45,
        recordMatch_new_absent o hv _ _ (g0 _) (g0 _) hDH]
      simp only [Option.map_some', if_neg hlen]
    · rw [Contents_literal _ a b c d 46 ha1 ha hb hc hd s46,
        recordMatch_known_present _ hv2 _ _ _ gD2 gD2]
      simp only [Option.map_some', if_neg hlen]
  · refine ⟨({ o with
        tracker := mapSet (mapSet o.tracker (literal 46 a b c d) (nextReplacement o))
          (literal 45 a b c d) (nextReplacement o)
        gen := nextGen o } : fastIpv4Obfuscator),
      ?_, gD2, gH2⟩
    rw [Contents_pair o a b c d 46 45 m ha1 ha hb hc hd s46 s45 hm hmne,
      recordMatch_new_same o hv _ (g0 _)]
    simp only [Option.some_bind]
    rw [recordMatch_known_absent _ hv1 _ _ _ gD1 gH1]
    simp only [Option.map_some']
  · refine ⟨({ o with
        tracker := mapSet (mapSet o.tracker (literal 46 a b c d) (nextReplacement o))
          (literal 45 a b c d) (nextReplacement o)
        gen := nextGen o } : fastIpv4Obfuscator),
      ?_, gD2, gH2⟩
    rw [Contents_pair o a b c d 45 46 m ha1 ha hb hc hd s45 s46 hm hmne,
      recordMatch_new_absent o hv _ _ (g0 _) (g0 _) hDH]
    simp only [Option.some_bind]
    rw [recordMatch_known_present _ hv2 _ _ _ gD2 gD2]
    simp only [Option.map_some']

/-- A witness of C6: the two spellings of the test "standard ipv4 and standard
ipv4", in static mode. -/
theorem Contents_cross_spelling_witness :
    ∃ r, r ≠ [] ∧ literal 46 10 0 129 220 ≠ literal 45 10 0 129 220 ∧
      (∃ o1 o2, Contents freshStatic (literal 46 10 0 129 220) = some (r, o1) ∧
        Contents o1 (literal 45 10 0 129 220) = some (r, o2) ∧
        mapGet (Report o2.tracker) (literal 46 10 0 129 220) = some r ∧
        mapGet (Report o2.tracker) (literal 45 10 0 129 220) = some r) ∧
      (∃ o1 o2, Contents freshStatic (literal 45 10 0 129 220) = some (r, o1) ∧
        Contents o1 (literal 46 10 0 129 220) = some (r, o2) ∧
        mapGet (Report o2.tracker) (literal 46 10 0 129 220) = some r ∧
        mapGet (Report o2.tracker) (literal 45 10 0 129 220) = some r) ∧
      (∃ o1, Contents freshStatic (literal 46 10 0 129 220 ++ ascii " and " ++
            literal 45 10 0 129 220) = some (r ++ ascii " and " ++ r, o1) ∧
        mapGet (Report o1.tracker) (literal 46 10 0 129 220) = some r ∧
        mapGet (Report o1.tracker) (literal 45 10 0 129 220) = some r) ∧
      (∃ o1, Contents freshStatic (literal 45 10 0 129 220 ++ ascii " and " ++
            literal 46 10 0 129 220) = some (r ++ ascii " and " ++ r, o1) ∧
        mapGet (Report o1.tracker) (literal 46 10 0 129 220) = some r ∧
        mapGet (Report o1.tracker) (literal 45 10 0 129 220) = some r) :=
  Contents_cross_spelling ObfuscateReplacementTypeStatic freshStatic rfl 10 0 129 220
    (by decide) (by decide) (by decide) (by decide) (by decide) (ascii " and ") (by decide)
    (by decide)

/-! ## Placeholders hold no address -/

theorem sepDigitPairs_cons_le (x : Nat) (t : Str) : sepDigitPairs t ≤ sepDigitPairs (x :: t) := by
  cases t with
  | nil => simp [sepDigitPairs]
  | cons b t => rw [sepDigitPairs]; omega

theorem sepDigitPairs_drop_le (t : Str) (j : Nat) : sepDigitPairs (t.drop j) ≤ sepDigitPairs t := by
  induction t generalizing j with
  | nil => simp
  | cons x t ih =>
    cases j with
    | zero => simp
    | succ j =>
      rw [List.drop_succ_cons]
      exact le_trans (ih j) (sepDigitPairs_cons_le x t)

theorem sepDigitPairs_digits (ds rest : Str) (h : ∀ x ∈ ds, isDigit x) :
    sepDigitPairs (ds ++ rest) = sepDigitPairs rest := by
  induction ds with
  | nil => rfl
  | cons a ds ih =>
    have ha : ¬ isSep a := by
      have := h a (by simp)
      unfold isDigit at this
      unfold isSep
      omega
    have ih2 := ih (fun x hx => h x (by simp [hx]))
    rw [List.cons_append]
    cases hl : ds ++ rest with
    | nil =>
      rw [hl] at ih2
      rw [← ih2]
      simp [sepDigitPairs]
    | cons b t =>
      rw [hl] at ih2
      rw [sepDigitPairs, ← ih2]
      simp [ha]

theorem sepDigitPairs_sep_run (sep : Nat) (d rest : Str) (hsep : isSep sep) (hd : DigitRun d) :
    sepDigitPairs (sep :: (d ++ rest)) = 1 + sepDigitPairs rest := by
  rw [← sepDigitPairs_digits d rest hd.2]
  cases d with
  | nil => exact absurd rfl hd.1
  | cons b d =>
    rw [List.cons_append, sepDigitPairs]
    have hb := hd.2 b (by simp)
    simp [hsep, hb]

/-- A text with the shape of an address has three separators followed by a
digit. -/
theorem AddressShape.three_pairs {t d1 d2 d3 d4 : Str} {sep : Nat} {rest : Str}
    (h : AddressShape t d1 d2 d3 d4 sep rest) : 3 ≤ sepDigitPairs t := by
  rw [h.eq, sepDigitPairs_digits d1 _ h.run1.2, sepDigitPairs_sep_run sep d2 _ h.sep h.run2,
    sepDigitPairs_sep_run sep d3 _ h.sep h.run3, sepDigitPairs_sep_run sep d4 _ h.sep h.run4]
  omega

theorem tryParseIPv4_fails_of_few_pairs (t : Str) (h : sepDigitPairs t < 3) :
    (tryParseIPv4 t).1 = none := by
  rcases hp : tryParseIPv4 t with ⟨r, n⟩
  cases r with
  | none => rfl
  | some q =>
    obtain ⟨d1, d2, d3, d4, sep, rest, hshape, -, -⟩ := tryParseIPv4_shape hp
    have := hshape.three_pairs
    omega

theorem findFrom_all_fail (s : Str) (h : ∀ j, (tryParseIPv4 (s.drop j)).1 = none) (i : Nat) :
    (findFrom s i).1 = [] := by
  refine findFrom_induction s (fun i => (findFrom s i).1 = []) ?_ ?_ ?_ ?_ i
  · intro i hi
    rw [findFrom_done s i hi]
  · intro i hi hc ih
    rw [findFrom_skip s i hi hc]
    exact ih
  · intro i q n _ _ hp
    have := h i
    rw [hp] at this
    cases this
  · intro i n hi hc hp ih
    rw [findFrom_failed s i hi hc hp]
    exact ih

/-- In a text with fewer than three separators followed by a digit, no suffix
holds an address. -/
theorem findNext_few_pairs (s : Str) (h : sepDigitPairs s < 3) (j : Nat) :
    (FindNextIPv4 (s.drop j)).1 = [] := by
  rw [← findFrom_zero]
  apply findFrom_all_fail
  intro k
  apply tryParseIPv4_fails_of_few_pairs
  have h1 := sepDigitPairs_drop_le (s.drop j) k
  have h2 := sepDigitPairs_drop_le s j
  omega

/-- What `Contents` does with a text in which no suffix holds an address. -/
theorem Contents_plain (o : fastIpv4Obfuscator) (s : Str)
    (hno : ∀ j, (FindNextIPv4 (s.drop j)).1 = []) :
    Contents o s = some (s.flatMap byteToString, o) := by
  unfold Contents
  rw [replace_eq, replaceFrom_plain s o 0 0 [] (fun j _ _ => hno j)]
  simp only [Option.map_some', List.nil_append, List.drop_zero]
  split
  · rename_i h0
    have : s.flatMap byteToString = [] := List.length_eq_zero.1 h0
    rw [this]
    cases s with
    | nil => rfl
    | cons x t =>
      rw [List.flatMap_cons] at this
      have hx : byteToString x ≠ [] := by unfold byteToString; split <;> simp
      simp [hx] at this
  · rfl

theorem sepDigitPairs_cons_succ (x : Nat) (t : Str) :
    sepDigitPairs (x :: t) ≤ 1 + sepDigitPairs t := by
  cases t with
  | nil => simp [sepDigitPairs]
  | cons b t =>
    rw [sepDigitPairs]
    split <;> omega

theorem sprintf_consistent_eq (n : Nat) :
    sprintf consistentIPv4Template n =
      [120, 45, 105, 112, 118, 52, 45] ++
        ((List.replicate (10 - (itoa n).length) 48 ++ itoa n) ++ [45, 120]) := by
  have hpre : ascii "x-ipv4-" = [120, 45, 105, 112, 118, 52, 45] := by decide
  have hpost : ascii "-x" = [45, 120] := by decide
  unfold sprintf consistentIPv4Template
  simp only [hpre, hpost, List.append_assoc]

theorem padded_digits (k n : Nat) : ∀ x ∈ List.replicate k 48 ++ itoa n, isDigit x := by
  intro x hx
  rcases List.mem_append.1 hx with hx | hx
  · rw [List.eq_of_mem_replicate hx]
    decide
  · exact itoa_digits n x hx

theorem consistent_placeholder_pairs (n : Nat) :
    sepDigitPairs (sprintf consistentIPv4Template n) < 3 := by
  have hd := padded_digits (10 - (itoa n).length) n
  rw [sprintf_consistent_eq]
  generalize List.replicate (10 - (itoa n).length) 48 ++ itoa n = ds at hd
  have hX : sepDigitPairs (ds ++ [45, 120]) = 0 := by
    rw [sepDigitPairs_digits _ _ hd]
    decide
  have h7 := sepDigitPairs_cons_succ 45 (ds ++ [45, 120])
  show sepDigitPairs (120 :: 45 :: 105 :: 112 :: 118 :: 52 :: 45 :: (ds ++ [45, 120])) < 3
  simp only [sepDigitPairs, isSep, isDigit]
  norm_num
  omega

theorem consistent_placeholder_ascii (n : Nat) :
    ∀ x ∈ sprintf consistentIPv4Template n, x < 128 := by
  have hd := padded_digits (10 - (itoa n).length) n
  rw [sprintf_consistent_eq]
  intro x hx
  simp only [List.mem_append, List.mem_cons] at hx
  rcases hx with hx | hx | hx
  · rcases hx with h | h | h | h | h | h | h | h
    all_goals first | omega | simp at h
  · have := hd x (List.mem_append.2 hx)
    unfold isDigit at this
    omega
  · rcases hx with h | h | h
    all_goals first | omega | simp at h

/-- C10: for every counter value `n` the consistent placeholder
"x-ipv4-%010d-x" filled with `n`, and the static placeholder
"xxx.xxx.xxx.xxx", hold no address for `FindNextIPv4`, in no suffix; `Contents`
of the fast IPv4 obfuscator, in whatever state, returns each of them unchanged
and leaves the obfuscator (its tracker and its counter) as it was. -/
theorem placeholders_never_match (n : Nat) (o : fastIpv4Obfuscator) :
    (∀ j, (FindNextIPv4 ((sprintf consistentIPv4Template n).drop j)).1 = []) ∧
    (∀ j, (FindNextIPv4 (obfuscatedStaticIPv4.drop j)).1 = []) ∧
    Contents o (sprintf consistentIPv4Template n) = some (sprintf consistentIPv4Template n, o) ∧
    Contents o obfuscatedStaticIPv4 = some (obfuscatedStaticIPv4, o) := by
  have h1 : ∀ j, (FindNextIPv4 ((sprintf consistentIPv4Template n).drop j)).1 = [] :=
    findNext_few_pairs _ (consistent_placeholder_pairs n)
  have h2 : ∀ j, (FindNextIPv4 (obfuscatedStaticIPv4.drop j)).1 = [] :=
    findNext_few_pairs _ (by decide)
  refine ⟨h1, h2, ?_, ?_⟩
  · rw [Contents_plain o _ h1,
      flatMap_byteToString_ascii _ (consistent_placeholder_ascii n)]
  · rw [Contents_plain o _ h2, flatMap_byteToString_ascii _ (by decide)]

/-! ## Sequence numbering in consistent mode -/

/-- A match of `FindNextIPv4`: the normalized address is the dotted form of
four octets, and the literal matched parses, whole, to these octets. -/
theorem findNext_match {t ip : Str} {st en : Nat} (h : FindNextIPv4 t = (ip, st, en))
    (hip : ip ≠ []) :
    ∃ a b c d, a ≤ 254 ∧ b ≤ 254 ∧ c ≤ 254 ∧ d ≤ 254 ∧ ip = literal 46 a b c d ∧
      tryParseIPv4 (slice t st en) = (some [a, b, c, d], (slice t st en).length) := by
  rw [← findFrom_zero] at h
  obtain ⟨-, hst, hc, q, n, hp, hen, hq⟩ := findFrom_sound t 0 h hip
  obtain ⟨d1, d2, d3, d4, sep, rest, hshape, hq2, hn⟩ := tryParseIPv4_shape hp
  have hlen := hshape.length_eq
  have hlit : (d1 ++ sep :: (d2 ++ sep :: (d3 ++ sep :: (d4 ++ [])))).length = n := by
    simp
    omega
  have hsl : slice t st en = d1 ++ sep :: (d2 ++ sep :: (d3 ++ sep :: (d4 ++ []))) := by
    unfold slice
    rw [List.drop_take, hshape.eq, hen]
    have : d1 ++ sep :: (d2 ++ sep :: (d3 ++ sep :: (d4 ++ rest)))
        = (d1 ++ sep :: (d2 ++ sep :: (d3 ++ sep :: (d4 ++ [])))) ++ rest := by simp
    rw [this]
    exact List.take_left' (by omega)
  have hshape2 : AddressShape (slice t st en) d1 d2 d3 d4 sep [] :=
    ⟨hsl, hshape.sep, hshape.run1, hshape.run2, hshape.run3, hshape.run4, hshape.val1,
      hshape.val2, hshape.val3, hshape.val4, by intro c hc; simp at hc⟩
  refine ⟨decVal d1, decVal d2, decVal d3, decVal d4, ?_, ?_, ?_, ?_, ?_, ?_⟩
  · have := hshape.val1; omega
  · have := hshape.val2; omega
  · have := hshape.val3; omega
  · have := hshape.val4; omega
  · rw [hq, hq2, ipString_eq_literal]
  · rw [tryParseIPv4_of_shape hshape2]
    simp

theorem tryParseIPv4_dotted (a b c d : Nat) (ha : a ≤ 254) (hb : b ≤ 254) (hc : c ≤ 254)
    (hd : d ≤ 254) :
    tryParseIPv4 (literal 46 a b c d) = (some [a, b, c, d], (literal 46 a b c d).length) := by
  have := tryParseIPv4_literal 46 a b c d [] ha hb hc hd (Or.inl rfl) (by intro c hc; simp at hc)
  simpa using this

theorem mem_addSeen (seen : List Str) (x y : Str) : y ∈ addSeen seen x ↔ y ∈ seen ∨ y = x := by
  unfold addSeen
  split
  · rename_i h
    constructor
    · exact Or.inl
    · rintro (h1 | h1)
      · exact h1
      · rw [h1]; exact h
  · simp

theorem Numbered.valid {o : fastIpv4Obfuscator} {seen : List Str} (h : Numbered o seen) :
    ValidType o := Or.inr h.type

theorem Numbered.nextReplacement_eq {o : fastIpv4Obfuscator} {seen : List Str}
    (h : Numbered o seen) :
    nextReplacement o = sprintf consistentIPv4Template (seen.length + 1) := by
  unfold MustGatherClean.nextReplacement
  rw [if_neg (by rw [h.type]; decide), h.template, h.count]

theorem Numbered.mem_of_key {o : fastIpv4Obfuscator} {seen : List Str} (h : Numbered o seen)
    {a b c d : Nat} {k v : Str} (hk : tryParseIPv4 k = (some [a, b, c, d], k.length))
    (hv : mapGet o.tracker k = some v) :
    literal 46 a b c d ∈ seen ∧ mapGet o.tracker (literal 46 a b c d) = some v := by
  obtain ⟨a2, b2, c2, d2, -, -, -, -, hp, hmem, hget⟩ := h.keys k v hv
  rw [hk] at hp
  simp only [Prod.mk.injEq, Option.some.injEq, List.cons.injEq, and_true] at hp
  obtain ⟨h1, h2, h3, h4⟩ := hp
  subst h1 h2 h3 h4
  exact ⟨hmem, hget⟩

theorem Numbered.get_of_mem {o : fastIpv4Obfuscator} {seen : List Str} (h : Numbered o seen)
    {x : Str} (hx : x ∈ seen) :
    ∃ n, n < seen.length ∧ seen.getD n [] = x ∧
      mapGet o.tracker x = some (sprintf consistentIPv4Template (n + 1)) := by
  obtain ⟨n, hn, hget⟩ := List.getElem_of_mem hx
  have := h.numbered n hn
  rw [List.getD_eq_getElem _ _ hn, hget] at this
  exact ⟨n, hn, by rw [List.getD_eq_getElem _ _ hn, hget], this⟩

/-- The numbering is kept when the tracker gains the replacement `r` for a
normalized address and a literal of it, `r` being the replacement the address
had, or the next placeholder when the address is new. -/
theorem Numbered.extend {o o1 : fastIpv4Obfuscator} {seen : List Str} {lit r : Str}
    {a b c d : Nat} (h : Numbered o seen) (ha : a ≤ 254) (hb : b ≤ 254) (hc : c ≤ 254)
    (hd : d ≤ 254) (hlit : tryParseIPv4 lit = (some [a, b, c, d], lit.length))
    (htype : o1.replacementType = o.replacementType)
    (htemplate : o1.gen.template = o.gen.template)
    (hchar : ∀ k, mapGet o1.tracker k =
      if k = literal 46 a b c d ∨ k = lit then some r else mapGet o.tracker k)
    (hold : literal 46 a b c d ∈ seen →
      o1.gen.count = o.gen.count ∧ mapGet o.tracker (literal 46 a b c d) = some r)
    (hnew : literal 46 a b c d ∉ seen → o1.gen.count = o.gen.count + 1 ∧
      r = sprintf consistentIPv4Template (seen.length + 1)) :
    Numbered o1 (addSeen seen (literal 46 a b c d)) := by
  have hdot := tryParseIPv4_dotted a b c d ha hb hc hd
  have mono : ∀ k v, mapGet o.tracker k = some v → mapGet o1.tracker k = some v := by
    intro k v hk
    rw [hchar]
    split
    · rename_i hcase
      have hm : literal 46 a b c d ∈ seen ∧ mapGet o.tracker (literal 46 a b c d) = some v := by
        rcases hcase with hcase | hcase
        · subst hcase
          exact h.mem_of_key hdot hk
        · subst hcase
          exact h.mem_of_key hlit hk
      have := (hold hm.1).2
      rw [hm.2] at this
      rw [this]
    · exact hk
  by_cases hmem : literal 46 a b c d ∈ seen
  · have hs : addSeen seen (literal 46 a b c d) = seen := by unfold addSeen; rw [if_pos hmem]
    rw [hs]
    refine ⟨by rw [htype, h.type], by rw [htemplate, h.template], by rw [(hold hmem).1, h.count],
      h.nodup, fun n hn => mono _ _ (h.numbered n hn), ?_⟩
    intro k v hk
    rw [hchar] at hk
    split at hk
    · rename_i hcase
      simp only [Option.some.injEq] at hk
      subst hk
      refine ⟨a, b, c, d, ha, hb, hc, hd, ?_, hmem, by rw [hchar, if_pos (Or.inl rfl)]⟩
      rcases hcase with hcase | hcase
      · rw [hcase]; exact hdot
      · rw [hcase]; exact hlit
    · obtain ⟨a2, b2, c2, d2, h1, h2, h3, h4, h5, h6, h7⟩ := h.keys k v hk
      exact ⟨a2, b2, c2, d2, h1, h2, h3, h4, h5, h6, mono _ _ h7⟩
  · have hs : addSeen seen (literal 46 a b c d) = seen ++ [literal 46 a b c d] := by
      unfold addSeen; rw [if_neg hmem]
    rw [hs]
    refine ⟨by rw [htype, h.type], by rw [htemplate, h.template], ?_, ?_, ?_, ?_⟩
    · rw [(hnew hmem).1, h.count]
      simp
    · rw [List.nodup_append]
      refine ⟨h.nodup, by simp, ?_⟩
      intro x hx1 hx2
      simp only [List.mem_singleton] at hx2
      subst hx2
      exact hmem hx1
    · intro n hn
      simp only [List.length_append, List.length_singleton] at hn
      by_cases hlt : n < seen.length
      · rw [List.getD_append _ _ _ _ hlt]
        exact mono _ _ (h.numbered n hlt)
      · have hn2 : n = seen.length := by omega
        subst hn2
        rw [List.getD_append_right _ _ _ _ (le_refl _), Nat.sub_self]
        simp only [List.getD_cons_zero]
        rw [hchar, if_pos (Or.inl rfl), (hnew hmem).2]
    · intro k v hk
      rw [hchar] at hk
      split at hk
      · rename_i hcase
        simp only [Option.some.injEq] at hk
        subst hk
        refine ⟨a, b, c, d, ha, hb, hc, hd, ?_, by simp, by rw [hchar, if_pos (Or.inl rfl)]⟩
        rcases hcase with hcase | hcase
        · rw [hcase]; exact hdot
        · rw [hcase]; exact hlit
      · obtain ⟨a2, b2, c2, d2, h1, h2, h3, h4, h5, h6, h7⟩ := h.keys k v hk
        exact ⟨a2, b2, c2, d2, h1, h2, h3, h4, h5, by simp [h6], mono _ _ h7⟩

theorem nextGen_consistent {o : fastIpv4Obfuscator}
    (h : o.replacementType = ObfuscateReplacementTypeConsistent) :
    nextGen o = { o.gen with count := o.gen.count + 1 } := by
  unfold nextGen
  rw [if_neg (by rw [h]; decide)]

/-- On a match, the tracker calls of `replace` do not reach the fatal exit and
keep the numbering. -/
theorem Numbered.after_recordMatch {o : fastIpv4Obfuscator} {seen : List Str} {lit : Str}
    {a b c d : Nat} (h : Numbered o seen) (ha : a ≤ 254) (hb : b ≤ 254) (hc : c ≤ 254)
    (hd : d ≤ 254) (hlit : tryParseIPv4 lit = (some [a, b, c, d], lit.length)) :
    ∃ r o1, MustGatherClean.recordMatch o (literal 46 a b c d) lit = some (r, o1) ∧
      Numbered o1 (addSeen seen (literal 46 a b c d)) := by
  have hdot := tryParseIPv4_dotted a b c d ha hb hc hd
  have hv := h.valid
  by_cases hmem : literal 46 a b c d ∈ seen
  · obtain ⟨n, hn, -, hg⟩ := h.get_of_mem hmem
    cases hl : mapGet o.tracker lit with
    | none =>
      refine ⟨_, _, recordMatch_known_absent o hv _ _ _ hg hl, ?_⟩
      refine h.extend ha hb hc hd hlit rfl rfl ?_ (fun _ => ⟨rfl, hg⟩) (fun hx => absurd hmem hx)
      intro k
      simp only [mapGet_mapSet]
      by_cases hk : lit = k
      · subst hk
        simp
      · have hk2 : ¬ k = lit := fun e => hk e.symm
        by_cases hk3 : k = literal 46 a b c d
        · subst hk3
          simp [hk, hg]
        · simp [hk, hk2, hk3]
    | some v =>
      have hv2 := (h.mem_of_key hlit hl).2
      rw [hg] at hv2
      simp only [Option.some.injEq] at hv2
      subst hv2
      refine ⟨_, _, recordMatch_known_present o hv _ _ _ hg hl, ?_⟩
      refine h.extend ha hb hc hd hlit rfl rfl ?_ (fun _ => ⟨rfl, hg⟩) (fun hx => absurd hmem hx)
      intro k
      by_cases hk3 : k = literal 46 a b c d
      · subst hk3
        simp [hg]
      · by_cases hk : k = lit
        · subst hk
          simp [hl]
        · simp [hk, hk3]
  · have hnone : mapGet o.tracker (literal 46 a b c d) = none := by
      cases hg : mapGet o.tracker (literal 46 a b c d) with
      | none => rfl
      | some v => exact absurd (h.mem_of_key hdot hg).1 hmem
    have hr := h.nextReplacement_eq
    by_cases hl : literal 46 a b c d = lit
    · subst hl
      refine ⟨_, _, recordMatch_new_same o hv _ hnone, ?_⟩
      refine h.extend ha hb hc hd hlit rfl (by rw [nextGen_consistent h.type]) ?_
        (fun hx => absurd hx hmem) (fun _ => ⟨by rw [nextGen_consistent h.type], hr⟩)
      intro k
      simp only [mapGet_mapSet, or_self]
      by_cases hk : literal 46 a b c d = k
      · subst hk
        simp
      · have hk2 : ¬ k = literal 46 a b c d := fun e => hk e.symm
        simp [hk, hk2]
    · have hlnone : mapGet o.tracker lit = none := by
        cases hg : mapGet o.tracker lit with
        | none => rfl
        | some v => exact absurd (h.mem_of_key hlit hg).1 hmem
      refine ⟨_, _, recordMatch_new_absent o hv _ _ hnone hlnone hl, ?_⟩
      refine h.extend ha hb hc hd hlit rfl (by rw [nextGen_consistent h.type]) ?_
        (fun hx => absurd hx hmem) (fun _ => ⟨by rw [nextGen_consistent h.type], hr⟩)
      intro k
      simp only [mapGet_mapSet]
      by_cases hk : lit = k
      · subst hk
        simp
      · have hk2 : ¬ k = lit := fun e => hk e.symm
        by_cases hk3 : literal 46 a b c d = k
        · subst hk3
          simp [hk]
        · have hk4 : ¬ k = literal 46 a b c d := fun e => hk3 e.symm
          simp [hk, hk2, hk3, hk4]

/-- The loop of `replace` does not reach the fatal exit on a numbered
obfuscator, and keeps the numbering, extended by the addresses it matches. -/
theorem Numbered.after_replaceLoop (s : Str) (fuel i lwi : Nat) (sb : Str) {o : fastIpv4Obfuscator}
    {seen : List Str} (h : Numbered o seen) :
    ∃ sb1 o1, MustGatherClean.replaceLoop s fuel i lwi sb o = some (sb1, o1) ∧
      Numbered o1 ((matchesLoop s fuel i).foldl addSeen seen) := by
  induction fuel generalizing i lwi sb o seen with
  | zero => exact ⟨sb, o, rfl, h⟩
  | succ f ih =>
    rw [replaceLoop_succ, matchesLoop]
    rcases hf : FindNextIPv4 (s.drop i) with ⟨ip, st, en⟩
    simp only
    split
    · split
      · rename_i hip
        obtain ⟨a, b, c, d, ha, hb, hc, hd, hipeq, hlit⟩ := findNext_match hf hip
        subst hipeq
        obtain ⟨r, o1, hrec, hnum⟩ := h.after_recordMatch ha hb hc hd hlit
        rw [hrec]
        simp only [Option.some_bind, List.foldl_cons]
        exact ih _ _ _ hnum
      · exact ih _ _ _ h
    · exact ⟨sb, o, rfl, h⟩

/-- The method `Contents` does not reach the fatal exit on a numbered
obfuscator, and keeps the numbering, extended by the addresses it matches. -/
theorem Numbered.after_Contents (s : Str) {o : fastIpv4Obfuscator} {seen : List Str}
    (h : Numbered o seen) :
    ∃ out o1, MustGatherClean.Contents o s = some (out, o1) ∧
      Numbered o1 ((matchesOf s).foldl addSeen seen) := by
  obtain ⟨sb1, o1, hloop, hnum⟩ := h.after_replaceLoop s s.length 0 0 []
  unfold MustGatherClean.Contents replace
  rw [hloop]
  simp only
  split
  · exact ⟨_, _, rfl, hnum⟩
  · exact ⟨_, _, rfl, hnum⟩

/-- The method `Contents` called on each input in order does not reach the
fatal exit on a numbered obfuscator, and keeps the numbering. -/
theorem Numbered.after_ContentsAll (inputs : List Str) {o : fastIpv4Obfuscator} {seen : List Str}
    (h : Numbered o seen) :
    ∃ outs o1, MustGatherClean.ContentsAll o inputs = some (outs, o1) ∧
      Numbered o1 ((inputs.flatMap matchesOf).foldl addSeen seen) := by
  induction inputs generalizing o seen with
  | nil => exact ⟨[], o, rfl, h⟩
  | cons s rest ih =>
    obtain ⟨out, o1, hc, hnum⟩ := h.after_Contents s
    obtain ⟨outs, o2, hc2, hnum2⟩ := ih hnum
    refine ⟨out :: outs, o2, ?_, ?_⟩
    · rw [MustGatherClean.ContentsAll, hc]
      simp only
      rw [hc2]
    · rw [List.flatMap_cons, List.foldl_append]
      exact hnum2

theorem Numbered.fresh : Numbered freshConsistent [] where
  type := rfl
  template := rfl
  count := rfl
  nodup := List.nodup_nil
  numbered := by intro n hn; simp at hn
  keys := by intro k v hk; simp [freshConsistent, NewSimpleTracker, mapGet] at hk

/-- C9: on a fresh fast IPv4 obfuscator in consistent mode, `Contents` called
on any list of inputs in order never reaches the fatal exit, and with
`a_1, ..., a_k` the distinct normalized addresses in the order they are first
matched, the report maps `a_n` to "x-ipv4-%010d-x" filled with `n`; distinct
addresses have distinct placeholders, the counter ends at `k + 1`, and two
fresh obfuscators give the same outputs and reports. -/
theorem consistent_numbering (o : fastIpv4Obfuscator)
    (hnew : NewFastIPv4Obfuscator ObfuscateReplacementTypeConsistent = Except.ok o)
    (inputs : List Str) :
    ∃ outs o1, ContentsAll o inputs = some (outs, o1) ∧
      (∀ n, n < (distinctInOrder (inputs.flatMap matchesOf)).length →
        mapGet (Report o1.tracker) ((distinctInOrder (inputs.flatMap matchesOf)).getD n [])
          = some (sprintf consistentIPv4Template (n + 1))) ∧
      (distinctInOrder (inputs.flatMap matchesOf)).Nodup ∧
      (∀ x ∈ distinctInOrder (inputs.flatMap matchesOf),
        ∀ y ∈ distinctInOrder (inputs.flatMap matchesOf),
          mapGet (Report o1.tracker) x = mapGet (Report o1.tracker) y → x = y) ∧
      o1.gen.count = (distinctInOrder (inputs.flatMap matchesOf)).length + 1 ∧
      (∀ o2, NewFastIPv4Obfuscator ObfuscateReplacementTypeConsistent = Except.ok o2 →
        ContentsAll o2 inputs = some (outs, o1)) := by
  have ho : o = freshConsistent := (NewFastIPv4Obfuscator_ok hnew).1
  subst ho
  obtain ⟨outs, o1, hc, hnum⟩ := Numbered.fresh.after_ContentsAll inputs
  refine ⟨outs, o1, hc, hnum.numbered, hnum.nodup, ?_, hnum.count, ?_⟩
  · intro x hx y hy hxy
    obtain ⟨n, hn, hxn, hgx⟩ := hnum.get_of_mem hx
    obtain ⟨m, hm, hym, hgy⟩ := hnum.get_of_mem hy
    unfold Report at hxy
    rw [hgx, hgy] at hxy
    simp only [Option.some.injEq] at hxy
    have := sprintf_injective _ _ _ hxy
    have hnm : n = m := by omega
    subst hnm
    rw [← hxn, ← hym]
  · intro o2 h2
    rw [(NewFastIPv4Obfuscator_ok h2).1]
    exact hc

/-- A witness of C9: two inputs with three matches of two addresses. -/
theorem consistent_numbering_witness :
    ∃ outs o1, ContentsAll freshConsistent
        [ascii "from 10.0.0.1 to 10.0.0.2", ascii "ip-10-0-0-1"] = some (outs, o1) ∧
      (∀ n, n < (distinctInOrder ([ascii "from 10.0.0.1 to 10.0.0.2",
            ascii "ip-10-0-0-1"].flatMap matchesOf)).length →
        mapGet (Report o1.tracker) ((distinctInOrder ([ascii "from 10.0.0.1 to 10.0.0.2",
            ascii "ip-10-0-0-1"].flatMap matchesOf)).getD n [])
          = some (sprintf consistentIPv4Template (n + 1))) ∧
      (distinctInOrder ([ascii "from 10.0.0.1 to 10.0.0.2",
        ascii "ip-10-0-0-1"].flatMap matchesOf)).Nodup ∧
      (∀ x ∈ distinctInOrder ([ascii "from 10.0.0.1 to 10.0.0.2",
          ascii "ip-10-0-0-1"].flatMap matchesOf),
        ∀ y ∈ distinctInOrder ([ascii "from 10.0.0.1 to 10.0.0.2",
            ascii "ip-10-0-0-1"].flatMap matchesOf),
          mapGet (Report o1.tracker) x = mapGet (Report o1.tracker) y → x = y) ∧
      o1.gen.count = (distinctInOrder ([ascii "from 10.0.0.1 to 10.0.0.2",
        ascii "ip-10-0-0-1"].flatMap matchesOf)).length + 1 ∧
      (∀ o2, NewFastIPv4Obfuscator ObfuscateReplacementTypeConsistent = Except.ok o2 →
        ContentsAll o2 [ascii "from 10.0.0.1 to 10.0.0.2", ascii "ip-10-0-0-1"]
          = some (outs, o1)) :=
  consistent_numbering freshConsistent rfl
    [ascii "from 10.0.0.1 to 10.0.0.2", ascii "ip-10-0-0-1"]

/-! ## Where `replace` does not copy the unmatched text verbatim -/

/-- C7 fails on the code: in "1-2.3.4.5" nothing is found from index 0 (the
failed candidate at index 0 hides the address), so `replace` writes the byte
'1' and sets `lastWriteIndex` to 0; from index 1 the address "2.3.4.5" is
found, and `s[lastWriteIndex : i+start]` copies "1-", the byte '1' a second
time. The output is "11-x-ipv4-0000000001-x" and not "1-x-ipv4-0000000001-x",
with the report holding the one address. -/
theorem Contents_duplicates_a_byte :
    FindNextIPv4 (ascii "1-2.3.4.5") = ([], 0, 10) ∧
    FindNextIPv4 ((ascii "1-2.3.4.5").drop 1) = (ascii "2.3.4.5", 1, 8) ∧
    (Contents freshConsistent (ascii "1-2.3.4.5")).map (fun r => (r.1, Report r.2.tracker))
      = some (ascii "11-x-ipv4-0000000001-x",
          [(ascii "2.3.4.5", ascii "x-ipv4-0000000001-x")]) ∧
    ascii "11-x-ipv4-0000000001-x" ≠ ascii "1-" ++ ascii "x-ipv4-0000000001-x" ∧
    ascii "11-x-ipv4-0000000001-x" ≠ ascii "1-2.3.4.5" := by
  decide

/-- C8 fails on the code: the two bytes C3 A9 (the letter e with an acute
accent in UTF-8) hold no address, and `Contents` returns the four bytes
C3 83 C2 A9, because `string(s[i])` encodes each byte as a code point. Nothing
is recorded. -/
theorem Contents_reencodes_high_bytes :
    (∀ j, (FindNextIPv4 (([195, 169] : Str).drop j)).1 = []) ∧
    Contents freshConsistent [195, 169] = some ([195, 131, 194, 169], freshConsistent) ∧
    ([195, 131, 194, 169] : Str) ≠ [195, 169] :=
  ⟨findNext_drop_no_start [195, 169] (by decide), by decide, by decide⟩

/-! ## Bounds of the no-match result -/

/-- C20: when `FindNextIPv4 s` returns the empty address, the start offset is 0
and the end offset `e` has `len(s) ≤ e ≤ len(s) + 1`; the 15 bytes of
"version: 4.8.12" give 16 and the 28 bytes of "ip+10+0+129+220.ec2.aws.yaml"
give 28, as the tests expect. -/
theorem FindNextIPv4_no_match_bounds (s : Str) (ip : Str) (start e : Nat)
    (h : FindNextIPv4 s = (ip, start, e)) (hip : ip = []) :
    start = 0 ∧ s.length ≤ e ∧ e ≤ s.length + 1 ∧
      FindNextIPv4 (ascii "version: 4.8.12") = ([], 0, 16) ∧
      (ascii "version: 4.8.12").length = 15 ∧
      FindNextIPv4 (ascii "ip+10+0+129+220.ec2.aws.yaml") = ([], 0, 28) ∧
      (ascii "ip+10+0+129+220.ec2.aws.yaml").length = 28 := by
  have hnone : (findFrom s 0).1 = [] := by rw [findFrom_zero, h, hip]
  obtain ⟨h1, h2, h3⟩ := findFrom_none s 0 (by omega) hnone
  rw [findFrom_zero, h] at h1 h2 h3
  exact ⟨h1, h2, h3, by decide, by decide, by decide, by decide⟩

/-- A witness of C20. -/
theorem FindNextIPv4_no_match_bounds_witness :
    0 = 0 ∧ (ascii "Listening on 0.0.0.0:8080").length ≤ 26 ∧
      26 ≤ (ascii "Listening on 0.0.0.0:8080").length + 1 ∧
      FindNextIPv4 (ascii "version: 4.8.12") = ([], 0, 16) ∧
      (ascii "version: 4.8.12").length = 15 ∧
      FindNextIPv4 (ascii "ip+10+0+129+220.ec2.aws.yaml") = ([], 0, 28) ∧
      (ascii "ip+10+0+129+220.ec2.aws.yaml").length = 28 :=
  FindNextIPv4_no_match_bounds (ascii "Listening on 0.0.0.0:8080") [] 0 26 (by decide) rfl

/-! ## Maps as association lists -/

theorem mapGet_eq_none_of_not_mem (m : Mapping) (k : Str) (h : k ∉ mapKeys m) :
    mapGet m k = none := by
  induction m with
  | nil => rfl
  | cons e m ih =>
    rcases e with ⟨k1, v1⟩
    simp only [mapKeys, List.map_cons, List.mem_cons, not_or] at h
    rw [mapGet, if_neg (fun e => h.1 e.symm)]
    exact ih h.2

theorem mem_of_mapGet {m : Mapping} {k v : Str} (h : mapGet m k = some v) : (k, v) ∈ m := by
  induction m with
  | nil => simp [mapGet] at h
  | cons e m ih =>
    rcases e with ⟨k1, v1⟩
    rw [mapGet] at h
    split at h
    · rename_i hk
      simp only [Option.some.injEq] at h
      subst hk h
      simp
    · exact List.mem_cons_of_mem _ (ih h)

theorem mem_mapSet {m : Mapping} {k v : Str} {e : Str × Str} (h : e ∈ mapSet m k v) :
    e = (k, v) ∨ e ∈ m := by
  induction m with
  | nil =>
    simp only [mapSet, List.mem_singleton] at h
    exact Or.inl h
  | cons e1 m ih =>
    rcases e1 with ⟨k1, v1⟩
    rw [mapSet] at h
    split at h
    · rcases List.mem_cons.1 h with h | h
      · exact Or.inl h
      · exact Or.inr (List.mem_cons_of_mem _ h)
    · rcases List.mem_cons.1 h with h | h
      · exact Or.inr (by rw [h]; simp)
      · rcases ih h with h | h
        · exact Or.inl h
        · exact Or.inr (List.mem_cons_of_mem _ h)

theorem mem_mapKeys_mapSet {m : Mapping} {k v x : Str} (h : x ∈ mapKeys (mapSet m k v)) :
    x = k ∨ x ∈ mapKeys m := by
  simp only [mapKeys, List.mem_map] at h ⊢
  obtain ⟨e, he, rfl⟩ := h
  rcases mem_mapSet he with h | h
  · exact Or.inl (by rw [h])
  · exact Or.inr ⟨e, h, rfl⟩

theorem nodup_mapSet {m : Mapping} (k v : Str) (h : (mapKeys m).Nodup) :
    (mapKeys (mapSet m k v)).Nodup := by
  induction m with
  | nil => simp [mapSet, mapKeys]
  | cons e m ih =>
    rcases e with ⟨k1, v1⟩
    simp only [mapKeys, List.map_cons, List.nodup_cons] at h
    rw [mapSet]
    split
    · rename_i hk
      subst hk
      simp only [mapKeys, List.map_cons, List.nodup_cons]
      exact h
    · rename_i hk
      simp only [mapKeys, List.map_cons, List.nodup_cons]
      refine ⟨?_, ih h.2⟩
      intro hmem
      rcases mem_mapKeys_mapSet hmem with h1 | h1
      · exact hk h1
      · exact h.1 h1

/-- The loop that copies a map into another: the entries of the map copied
win. -/
theorem mapGet_copyInto (acc l : Mapping) (k : Str) (h : (mapKeys l).Nodup) :
    mapGet (copyInto acc l) k = match mapGet l k with
      | some v => some v
      | none => mapGet acc k := by
  induction l generalizing acc with
  | nil => rfl
  | cons e l ih =>
    rcases e with ⟨k1, v1⟩
    simp only [mapKeys, List.map_cons, List.nodup_cons] at h
    have hstep : copyInto acc ((k1, v1) :: l) = copyInto (mapSet acc k1 v1) l := rfl
    rw [hstep, ih _ h.2, mapGet]
    by_cases hk : k1 = k
    · subst hk
      rw [if_pos rfl, mapGet_eq_none_of_not_mem l k1 h.1, mapGet_mapSet_self]
    · rw [if_neg hk, mapGet_mapSet, if_neg hk]

/-! ## The StripedTracker -/

namespace StripedTracker

theorem getD_set_self {α : Type} (l : List α) (i : Nat) (a d : α) (h : i < l.length) :
    (l.set i a).getD i d = a := by
  rw [List.getD_eq_getElem?_getD, List.getElem?_set, if_pos rfl, if_pos h]
  rfl

theorem getD_set_other {α : Type} (l : List α) (i j : Nat) (a d : α) (h : i ≠ j) :
    (l.set i a).getD j d = l.getD j d := by
  rw [List.getD_eq_getElem?_getD, List.getElem?_set, if_neg h, ← List.getD_eq_getElem?_getD]

theorem setIn_length (s : StripedTracker) (key k v : Str) :
    (s.setIn key k v).mapping.length = s.mapping.length := by
  simp [setIn]

theorem setIn_stripeIdx (s : StripedTracker) (key k v x : Str) :
    (s.setIn key k v).stripeIdx x = s.stripeIdx x := by
  unfold stripeIdx
  rw [setIn_length]

theorem stripeIdx_lt (s : StripedTracker) (h : 0 < s.mapping.length) (k : Str) :
    s.stripeIdx k < s.mapping.length := Nat.mod_lt _ h

/-- What a `StripedTracker` holds after a write under a key. -/
theorem lookup_setIn (s : StripedTracker) (h : 0 < s.mapping.length) (o r k : Str) :
    (s.setIn o o r).lookup k = if o = k then some r else s.lookup k := by
  unfold lookup getMap
  rw [setIn_stripeIdx]
  by_cases hidx : s.stripeIdx o = s.stripeIdx k
  · have : (s.setIn o o r).mapping.getD (s.stripeIdx k) [] = mapSet (s.getMap o) o r := by
      rw [← hidx]
      exact getD_set_self _ _ _ _ (stripeIdx_lt s h o)
    rw [this, mapGet_mapSet]
    unfold getMap
    rw [hidx]
  · have hne : o ≠ k := by
      rintro rfl
      exact hidx rfl
    have : (s.setIn o o r).mapping.getD (s.stripeIdx k) [] = s.mapping.getD (s.stripeIdx k) [] :=
      getD_set_other _ _ _ _ _ hidx
    rw [this, if_neg hne]

theorem WellFormed.after_setIn {s : StripedTracker} (h : s.WellFormed) (o r : Str) :
    (s.setIn o o r).WellFormed := by
  have hlt := stripeIdx_lt s h.stripes o
  refine ⟨by rw [setIn_length]; exact h.stripes, ?_, ?_⟩
  · intro j hj
    rw [setIn_length] at hj
    by_cases hidx : s.stripeIdx o = j
    · subst hidx
      have : (s.setIn o o r).mapping.getD (s.stripeIdx o) [] = mapSet (s.getMap o) o r :=
        getD_set_self _ _ _ _ hlt
      rw [this]
      exact nodup_mapSet _ _ (h.nodup _ hlt)
    · have : (s.setIn o o r).mapping.getD j [] = s.mapping.getD j [] :=
        getD_set_other _ _ _ _ _ hidx
      rw [this]
      exact h.nodup j hj
  · intro j hj e he
    rw [setIn_length] at hj
    rw [setIn_stripeIdx]
    by_cases hidx : s.stripeIdx o = j
    · subst hidx
      have : (s.setIn o o r).mapping.getD (s.stripeIdx o) [] = mapSet (s.getMap o) o r :=
        getD_set_self _ _ _ _ hlt
      rw [this] at he
      rcases mem_mapSet he with he | he
      · rw [he]
      · exact h.home _ hlt e he
    · have : (s.setIn o o r).mapping.getD j [] = s.mapping.getD j [] :=
        getD_set_other _ _ _ _ _ hidx
      rw [this] at he
      exact h.home j hj e he

theorem WellFormed.of_new (n : Nat) (h : 0 < n) : (NewStripedTracker n).WellFormed := by
  have hget : ∀ j, (List.replicate n ([] : Mapping)).getD j [] = [] := by
    intro j
    rw [List.getD_eq_getElem?_getD, List.getElem?_replicate]
    split <;> rfl
  refine ⟨by simp [NewStripedTracker]; exact h, ?_, ?_⟩
  · intro j _
    simp only [NewStripedTracker]
    rw [hget]
    exact List.nodup_nil
  · intro j _ e he
    simp only [NewStripedTracker] at he
    rw [hget] at he
    simp at he

theorem lookup_new (n : Nat) (k : Str) : (NewStripedTracker n).lookup k = none := by
  unfold lookup getMap NewStripedTracker
  simp only
  rw [List.getD_eq_getElem?_getD, List.getElem?_replicate]
  split <;> rfl

/-- A key that the stripe of its hash does not hold is in no stripe. -/
theorem WellFormed.mapGet_stripe {s : StripedTracker} (h : s.WellFormed) (j : Nat)
    (hj : j < s.mapping.length) (k : Str) (hne : s.stripeIdx k ≠ j) :
    mapGet (s.mapping.getD j []) k = none := by
  cases hg : mapGet (s.mapping.getD j []) k with
  | none => rfl
  | some v => exact absurd (h.home j hj _ (mem_of_mapGet hg)) hne

/-- The report of a `StripedTracker` holds, for every key, what the stripe of
the key holds. -/
theorem WellFormed.report_eq {s : StripedTracker} (h : s.WellFormed) (k : Str) :
    mapGet s.Report k = s.lookup k := by
  have key : ∀ n, n ≤ s.mapping.length →
      mapGet ((s.mapping.take n).foldl (fun acc maps => copyInto acc maps) []) k =
        if s.stripeIdx k < n then s.lookup k else none := by
    intro n
    induction n with
    | zero => intro _; rfl
    | succ n ih =>
      intro hn
      have hlt : n < s.mapping.length := by omega
      rw [List.take_succ, List.getElem?_eq_getElem hlt, List.foldl_append]
      simp only [Option.toList, List.foldl_cons, List.foldl_nil]
      have hgd : s.mapping.getD n [] = s.mapping[n] := List.getD_eq_getElem _ _ hlt
      rw [mapGet_copyInto _ _ _ (by rw [← hgd]; exact h.nodup n hlt), ih (by omega)]
      by_cases hidx : s.stripeIdx k = n
      · have hl : s.lookup k = mapGet s.mapping[n] k := by
          unfold lookup getMap
          rw [hidx, hgd]
        rw [if_neg (by omega), if_pos (by omega), hl]
        cases mapGet s.mapping[n] k <;> rfl
      · have hnone := h.mapGet_stripe n hlt k hidx
        rw [hgd] at hnone
        rw [hnone]
        simp only
        by_cases hlt2 : s.stripeIdx k < n
        · rw [if_pos hlt2, if_pos (by omega)]
        · rw [if_neg hlt2, if_neg (by omega)]
  have := key s.mapping.length (le_refl _)
  rw [List.take_length, if_pos (stripeIdx_lt s h.stripes k)] at this
  exact this

end StripedTracker

/-! ## The contracts of AddReplacement and GenerateIfAbsent -/

/-- C11: `AddReplacement(original, replacement)`, on a `SimpleTracker` and on a
`StripedTracker`, (i) leaves the state as it is when `original` is recorded with
this replacement, (ii) reaches the fatal exit when `original` is recorded with
another replacement, and (iii) otherwise records `original -> replacement` and
changes no other entry. The states of the `StripedTracker` are those its methods
build (every key in the stripe of its hash); what it has recorded is read from
its report. -/
theorem AddReplacement_contract (m : Mapping) (s : StripedTracker) (hs : s.WellFormed)
    (original replacement : Str) :
    (mapGet (Report m) original = some replacement →
      AddReplacement m original replacement = some m) ∧
    (∀ v, mapGet (Report m) original = some v → v ≠ replacement →
      AddReplacement m original replacement = none) ∧
    (mapGet (Report m) original = none →
      ∃ m1, AddReplacement m original replacement = some m1 ∧
        ∀ k, mapGet (Report m1) k
          = if k = original then some replacement else mapGet (Report m) k) ∧
    (mapGet s.Report original = some replacement →
      s.AddReplacement original replacement = some s) ∧
    (∀ v, mapGet s.Report original = some v → v ≠ replacement →
      s.AddReplacement original replacement = none) ∧
    (mapGet s.Report original = none →
      ∃ s1, s.AddReplacement original replacement = some s1 ∧ s1.WellFormed ∧
        ∀ k, mapGet s1.Report k
          = if k = original then some replacement else mapGet s.Report k) := by
  refine ⟨?_, ?_, ?_, ?_, ?_, ?_⟩
  · intro h
    exact AddReplacement_same m _ _ h
  · intro v h hne
    unfold AddReplacement
    rw [show mapGet m original = some v from h]
    simp only
    rw [if_pos (fun e => hne e.symm)]
  · intro h
    refine ⟨mapSet m original replacement, AddReplacement_absent m _ _ h, ?_⟩
    intro k
    unfold Report
    rw [mapGet_mapSet]
    by_cases hk : original = k
    · rw [if_pos hk, if_pos hk.symm]
    · rw [if_neg hk, if_neg (fun e => hk e.symm)]
  · intro h
    rw [hs.report_eq] at h
    unfold StripedTracker.AddReplacement
    rw [show mapGet (s.getMap original) original = some replacement from h]
    simp
  · intro v h hne
    rw [hs.report_eq] at h
    unfold StripedTracker.AddReplacement
    rw [show mapGet (s.getMap original) original = some v from h]
    simp only
    rw [if_pos (fun e => hne e.symm)]
  · intro h
    rw [hs.report_eq] at h
    refine ⟨s.setIn original original replacement, ?_, hs.after_setIn _ _, ?_⟩
    · unfold StripedTracker.AddReplacement
      rw [show mapGet (s.getMap original) original = none from h]
    · intro k
      rw [(hs.after_setIn original replacement).report_eq, hs.report_eq,
        StripedTracker.lookup_setIn s hs.stripes]
      by_cases hk : original = k
      · rw [if_pos hk, if_pos hk.symm]
      · rw [if_neg hk, if_neg (fun e => hk e.symm)]

/-- A witness of C11: a `StripedTracker` with four stripes that has recorded
one entry. -/
theorem AddReplacement_contract_witness :
    ((NewStripedTracker 4).setIn (ascii "10.0.0.1") (ascii "10.0.0.1") (ascii "r1")).WellFormed ∧
    ((mapGet (Report [(ascii "10.0.0.1", ascii "r1")]) (ascii "10.0.0.2") = none →
      ∃ m1, AddReplacement [(ascii "10.0.0.1", ascii "r1")] (ascii "10.0.0.2") (ascii "r2")
          = some m1 ∧
        ∀ k, mapGet (Report m1) k = if k = ascii "10.0.0.2" then some (ascii "r2")
          else mapGet (Report [(ascii "10.0.0.1", ascii "r1")]) k)) ∧
    (∀ v, mapGet ((NewStripedTracker 4).setIn (ascii "10.0.0.1") (ascii "10.0.0.1")
        (ascii "r1")).Report (ascii "10.0.0.1") = some v → v ≠ ascii "r2" →
      ((NewStripedTracker 4).setIn (ascii "10.0.0.1") (ascii "10.0.0.1")
        (ascii "r1")).AddReplacement (ascii "10.0.0.1") (ascii "r2") = none) :=
  ⟨(StripedTracker.WellFormed.of_new 4 (by decide)).after_setIn _ _,
    (AddReplacement_contract [(ascii "10.0.0.1", ascii "r1")]
      ((NewStripedTracker 4).setIn (ascii "10.0.0.1") (ascii "10.0.0.1") (ascii "r1"))
      ((StripedTracker.WellFormed.of_new 4 (by decide)).after_setIn _ _)
      (ascii "10.0.0.2") (ascii "r2")).2.2.1,
    (AddReplacement_contract [(ascii "10.0.0.1", ascii "r1")]
      ((NewStripedTracker 4).setIn (ascii "10.0.0.1") (ascii "10.0.0.1") (ascii "r1"))
      ((StripedTracker.WellFormed.of_new 4 (by decide)).after_setIn _ _)
      (ascii "10.0.0.1") (ascii "r2")).2.2.2.2.1⟩

/-- C12: `GenerateIfAbsent(original, key, generator)`, on a `SimpleTracker` and
on a `StripedTracker`, returns the recorded replacement, with the generator not
called and the state as it was, when `original` is recorded; returns the empty
string and records nothing when `original` is not recorded and the generator is
nil; and otherwise calls the generator once on `key`, records the result under
`original`, changing no other entry, and returns it. -/
theorem GenerateIfAbsent_contract {σ : Type} (m : Mapping) (s : StripedTracker)
    (hs : s.WellFormed) (original key : Str) (generator : Option (σ → Str → Str × σ)) (g : σ) :
    (∀ v, mapGet (Report m) original = some v →
      GenerateIfAbsent m original key generator g = (v, m, g)) ∧
    (mapGet (Report m) original = none → generator = none →
      GenerateIfAbsent m original key generator g = ([], m, g)) ∧
    (∀ gen, mapGet (Report m) original = none → generator = some gen →
      ∃ m1, GenerateIfAbsent m original key generator g = ((gen g key).1, m1, (gen g key).2) ∧
        ∀ k, mapGet (Report m1) k
          = if k = original then some (gen g key).1 else mapGet (Report m) k) ∧
    (∀ v, mapGet s.Report original = some v →
      s.GenerateIfAbsent original key generator g = (v, s, g)) ∧
    (mapGet s.Report original = none → generator = none →
      s.GenerateIfAbsent original key generator g = ([], s, g)) ∧
    (∀ gen, mapGet s.Report original = none → generator = some gen →
      ∃ s1, s.GenerateIfAbsent original key generator g = ((gen g key).1, s1, (gen g key).2) ∧
        s1.WellFormed ∧
        ∀ k, mapGet s1.Report k
          = if k = original then some (gen g key).1 else mapGet s.Report k) := by
  refine ⟨?_, ?_, ?_, ?_, ?_, ?_⟩
  · intro v h
    unfold GenerateIfAbsent
    rw [show mapGet m original = some v from h]
  · intro h hgen
    unfold GenerateIfAbsent
    rw [show mapGet m original = none from h, hgen]
  · intro gen h hgen
    refine ⟨mapSet m original (gen g key).1, ?_, ?_⟩
    · unfold GenerateIfAbsent
      rw [show mapGet m original = none from h, hgen]
    · intro k
      unfold Report
      rw [mapGet_mapSet]
      by_cases hk : original = k
      · rw [if_pos hk, if_pos hk.symm]
      · rw [if_neg hk, if_neg (fun e => hk e.symm)]
  · intro v h
    rw [hs.report_eq] at h
    unfold StripedTracker.GenerateIfAbsent
    rw [show mapGet (s.getMap original) original = some v from h]
  · intro h hgen
    rw [hs.report_eq] at h
    unfold StripedTracker.GenerateIfAbsent
    rw [show mapGet (s.getMap original) original = none from h, hgen]
  · intro gen h hgen
    rw [hs.report_eq] at h
    refine ⟨s.setIn original original (gen g key).1, ?_, hs.after_setIn _ _, ?_⟩
    · unfold StripedTracker.GenerateIfAbsent
      rw [show mapGet (s.getMap original) original = none from h, hgen]
    · intro k
      rw [(hs.after_setIn original _).report_eq, hs.report_eq,
        StripedTracker.lookup_setIn s hs.stripes]
      by_cases hk : original = k
      · rw [if_pos hk, if_pos hk.symm]
      · rw [if_neg hk, if_neg (fun e => hk e.symm)]

/-- A witness of C12: a fresh `StripedTracker` with four stripes and the
consistent generator of the IPv4 family. -/
theorem GenerateIfAbsent_contract_witness :
    (NewStripedTracker 4).WellFormed ∧
    (∃ s1, (NewStripedTracker 4).GenerateIfAbsent (ascii "10.0.0.1") (ascii "10.0.0.1")
        (some generateConsistentReplacement)
        (newGenerator consistentIPv4Template obfuscatedStaticIPv4 9999999999)
        = ((generateConsistentReplacement
              (newGenerator consistentIPv4Template obfuscatedStaticIPv4 9999999999)
              (ascii "10.0.0.1")).1, s1,
            (generateConsistentReplacement
              (newGenerator consistentIPv4Template obfuscatedStaticIPv4 9999999999)
              (ascii "10.0.0.1")).2) ∧
      s1.WellFormed ∧
      ∀ k, mapGet s1.Report k = if k = ascii "10.0.0.1"
        then some (generateConsistentReplacement
              (newGenerator consistentIPv4Template obfuscatedStaticIPv4 9999999999)
              (ascii "10.0.0.1")).1
        else mapGet (NewStripedTracker 4).Report k) :=
  ⟨StripedTracker.WellFormed.of_new 4 (by decide),
    (GenerateIfAbsent_contract [] (NewStripedTracker 4)
      (StripedTracker.WellFormed.of_new 4 (by decide)) (ascii "10.0.0.1") (ascii "10.0.0.1")
      (some generateConsistentReplacement)
      (newGenerator consistentIPv4Template obfuscatedStaticIPv4 9999999999)).2.2.2.2.2
      generateConsistentReplacement (by decide) rfl⟩

/-! ## Initialize -/

/-- C13 fails on the code. A `SimpleTracker` initialized with the empty mapping
accepts a second `Initialize`, because it takes `len(s.mapping) > 0` for the
sign of an earlier call. A `StripedTracker` accepts `Initialize` after a write,
because only `Initialize` sets `initialized`; the seed then replaces the
replacement recorded before. -/
theorem Initialize_misses_cases :
    (Initialize NewSimpleTracker []).bind
        (fun m1 => Initialize m1 [(ascii "10.0.0.1", ascii "r1")])
      = some [(ascii "10.0.0.1", ascii "r1")] ∧
    (((NewStripedTracker 4).AddReplacement (ascii "10.0.0.1") (ascii "r1")).bind
        (fun s1 => s1.Initialize [(ascii "10.0.0.1", ascii "r2")])).map
        (fun s2 => mapGet s2.Report (ascii "10.0.0.1"))
      = some (some (ascii "r2")) := by
  decide

/-! ## The two trackers in sequential use -/

theorem SameEntries.new (n : Nat) (h : 0 < n) : SameEntries NewSimpleTracker (NewStripedTracker n) :=
  ⟨StripedTracker.WellFormed.of_new n h, fun k => by
    rw [StripedTracker.lookup_new]; rfl⟩

theorem SameEntries.write {m : Mapping} {s : StripedTracker} (h : SameEntries m s) (o r : Str) :
    SameEntries (mapSet m o r) (s.setIn o o r) := by
  refine ⟨h.1.after_setIn o r, fun k => ?_⟩
  rw [mapGet_mapSet, StripedTracker.lookup_setIn s h.1.stripes, h.2 k]

/-- One call does the same on the two trackers when they hold the same
entries: both reach the fatal exit, or both return, with the same result, the
same state of the generator, and again the same entries. -/
theorem SameEntries.after_call {σ : Type} {m : Mapping} {s : StripedTracker} (h : SameEntries m s)
    (g : σ) (op : TrackerOp σ) :
    (stepSimple m g op = none ∧ stepStriped s g op = none) ∨
    ∃ r1 m1 r2 s1 g1, stepSimple m g op = some (r1, m1, g1) ∧
      stepStriped s g op = some (r2, s1, g1) ∧ OpResult.same r1 r2 ∧ SameEntries m1 s1 := by
  cases op with
  | add original replacement =>
    have hl := h.2 original
    unfold StripedTracker.lookup at hl
    simp only [stepSimple, stepStriped, AddReplacement, StripedTracker.AddReplacement, ← hl]
    cases hg : mapGet m original with
    | none =>
      exact Or.inr ⟨_, _, _, _, _, rfl, rfl, trivial, h.write original replacement⟩
    | some v =>
      simp only
      by_cases hv : replacement = v
      · subst hv
        simp only [ne_eq, not_true_eq_false, if_false]
        exact Or.inr ⟨_, _, _, _, _, rfl, rfl, trivial, h⟩
      · have hv2 : replacement ≠ v := hv
        rw [if_pos hv2, if_pos hv2]
        exact Or.inl ⟨rfl, rfl⟩
  | generate original key generator =>
    have hl := h.2 original
    unfold StripedTracker.lookup at hl
    simp only [stepSimple, stepStriped, GenerateIfAbsent, StripedTracker.GenerateIfAbsent, ← hl]
    cases hg : mapGet m original with
    | some v => exact Or.inr ⟨_, _, _, _, _, rfl, rfl, rfl, h⟩
    | none =>
      cases generator with
      | none => exact Or.inr ⟨_, _, _, _, _, rfl, rfl, rfl, h⟩
      | some gen => exact Or.inr ⟨_, _, _, _, _, rfl, rfl, rfl, h.write original _⟩
  | report =>
    refine Or.inr ⟨_, _, _, _, _, rfl, rfl, ?_, h⟩
    intro k
    rw [h.1.report_eq]
    exact h.2 k

/-- A sequence of calls does the same on the two trackers when they hold the
same entries. -/
theorem SameEntries.after_calls {σ : Type} {m : Mapping} {s : StripedTracker} (h : SameEntries m s)
    (g : σ) (ops : List (TrackerOp σ)) :
    List.Forall₂ OpResult.same (runSimple m g ops).1 (runStriped s g ops).1 ∧
    ((runSimple m g ops).2 = none ↔ (runStriped s g ops).2 = none) ∧
    (∀ m1 g1 s1 g2, (runSimple m g ops).2 = some (m1, g1) →
      (runStriped s g ops).2 = some (s1, g2) → g1 = g2 ∧ SameEntries m1 s1) := by
  induction ops generalizing m s g with
  | nil =>
    refine ⟨List.Forall₂.nil, by simp [runSimple, runStriped], ?_⟩
    intro m1 g1 s1 g2 h1 h2
    simp only [runSimple, runStriped, Option.some.injEq, Prod.mk.injEq] at h1 h2
    obtain ⟨rfl, rfl⟩ := h1
    obtain ⟨rfl, rfl⟩ := h2
    exact ⟨rfl, h⟩
  | cons op ops ih =>
    rcases h.after_call g op with ⟨h1, h2⟩ | ⟨r1, m1, r2, s1, g1, h1, h2, hr, hsim⟩
    · simp only [runSimple, runStriped, h1, h2]
      exact ⟨List.Forall₂.nil, by simp, by intro _ _ _ _ hx; cases hx⟩
    · obtain ⟨ih1, ih2, ih3⟩ := ih hsim g1
      simp only [runSimple, runStriped, h1, h2]
      exact ⟨List.Forall₂.cons hr ih1, ih2, ih3⟩

/-- C14: for every number `N ≥ 1` of stripes and every sequence of
`AddReplacement`, `GenerateIfAbsent` and `Report` calls, a fresh `SimpleTracker`
and a fresh `StripedTracker` with `N` stripes return the same on every call,
reach the fatal exit at the same call or not at all, leave the generator in the
same state, and end with reports that are equal as maps; the `StripedTracker`
holds every key in one stripe, the one of its hash. -/
theorem trackers_interchangeable {σ : Type} (N : Nat) (hN : 1 ≤ N) (g : σ)
    (ops : List (TrackerOp σ)) :
    List.Forall₂ OpResult.same (runSimple NewSimpleTracker g ops).1
      (runStriped (NewStripedTracker N) g ops).1 ∧
    ((runSimple NewSimpleTracker g ops).2 = none ↔
      (runStriped (NewStripedTracker N) g ops).2 = none) ∧
    (∀ m1 g1 s1 g2, (runSimple NewSimpleTracker g ops).2 = some (m1, g1) →
      (runStriped (NewStripedTracker N) g ops).2 = some (s1, g2) →
      g1 = g2 ∧ (∀ k, mapGet (Report m1) k = mapGet s1.Report k) ∧ s1.WellFormed) := by
  obtain ⟨h1, h2, h3⟩ := (SameEntries.new N hN).after_calls g ops
  refine ⟨h1, h2, ?_⟩
  intro m1 g1 s1 g2 hm hs
  obtain ⟨hg, hsim⟩ := h3 m1 g1 s1 g2 hm hs
  refine ⟨hg, ?_, hsim.1⟩
  intro k
  rw [hsim.1.report_eq]
  exact hsim.2 k

/-- A witness of C14: four calls on a tracker with three stripes, the last of
them a conflicting `AddReplacement`. -/
theorem trackers_interchangeable_witness :
    List.Forall₂ OpResult.same
      (runSimple NewSimpleTracker (newGenerator consistentIPv4Template obfuscatedStaticIPv4 9)
        [TrackerOp.generate (ascii "10.0.0.1") (ascii "10.0.0.1")
            (some generateConsistentReplacement),
          TrackerOp.add (ascii "10-0-0-1") (ascii "x-ipv4-0000000001-x"),
          TrackerOp.report,
          TrackerOp.add (ascii "10-0-0-1") (ascii "x-ipv4-0000000002-x")]).1
      (runStriped (NewStripedTracker 3)
        (newGenerator consistentIPv4Template obfuscatedStaticIPv4 9)
        [TrackerOp.generate (ascii "10.0.0.1") (ascii "10.0.0.1")
            (some generateConsistentReplacement),
          TrackerOp.add (ascii "10-0-0-1") (ascii "x-ipv4-0000000001-x"),
          TrackerOp.report,
          TrackerOp.add (ascii "10-0-0-1") (ascii "x-ipv4-0000000002-x")]).1 :=
  (trackers_interchangeable 3 (by decide)
    (newGenerator consistentIPv4Template obfuscatedStaticIPv4 9)
    [TrackerOp.generate (ascii "10.0.0.1") (ascii "10.0.0.1")
        (some generateConsistentReplacement),
      TrackerOp.add (ascii "10-0-0-1") (ascii "x-ipv4-0000000001-x"),
      TrackerOp.report,
      TrackerOp.add (ascii "10-0-0-1") (ascii "x-ipv4-0000000002-x")]).1

/-! ## The constructors -/

theorem not_mode_iff (t : Str) :
    (t ≠ ObfuscateReplacementTypeStatic ∧ t ≠ ObfuscateReplacementTypeConsistent) ↔ ¬ IsMode t := by
  unfold IsMode
  constructor
  · rintro ⟨h1, h2⟩ (h | h)
    · exact h1 h
    · exact h2 h
  · intro h
    exact ⟨fun e => h (Or.inl e), fun e => h (Or.inr e)⟩

/-- C19: each of `NewFastIPv4Obfuscator`, `NewIPv4Obfuscator`,
`NewIPv6Obfuscator` and `NewMacAddressObfuscator` returns, for a replacement
type `t` that is neither static nor consistent, the error
"unsupported replacement type: " followed by `t` (and no obfuscator), and for
the two modes an obfuscator of this type whose report is empty. -/
theorem constructors_validate_mode (t : Str) :
    (¬ IsMode t →
      NewFastIPv4Obfuscator t = Except.error (ascii "unsupported replacement type: " ++ t) ∧
      NewIPv4Obfuscator t = Except.error (ascii "unsupported replacement type: " ++ t) ∧
      NewIPv6Obfuscator t = Except.error (ascii "unsupported replacement type: " ++ t) ∧
      NewMacAddressObfuscator t
        = Except.error (ascii "unsupported replacement type: " ++ t)) ∧
    (IsMode t →
      (∃ o, NewFastIPv4Obfuscator t = Except.ok o ∧ Report o.tracker = [] ∧
        o.replacementType = t) ∧
      (∃ o, NewIPv4Obfuscator t = Except.ok o ∧ Report o.tracker = [] ∧
        o.replacementType = t) ∧
      (∃ o, NewIPv6Obfuscator t = Except.ok o ∧ Report o.tracker = [] ∧
        o.replacementType = t) ∧
      (∃ o, NewMacAddressObfuscator t = Except.ok o ∧ Report o.tracker = [] ∧
        o.replacementType = t)) := by
  constructor
  · intro h
    have h2 := (not_mode_iff t).2 h
    unfold NewFastIPv4Obfuscator NewIPv4Obfuscator NewIPv6Obfuscator NewMacAddressObfuscator
    rw [if_pos h2, if_pos h2, if_pos h2, if_pos h2]
    exact ⟨rfl, rfl, rfl, rfl⟩
  · intro h
    have h2 : ¬ (t ≠ ObfuscateReplacementTypeStatic ∧ t ≠ ObfuscateReplacementTypeConsistent) :=
      fun e => (not_mode_iff t).1 e h
    unfold NewFastIPv4Obfuscator NewIPv4Obfuscator NewIPv6Obfuscator NewMacAddressObfuscator
    rw [if_neg h2, if_neg h2, if_neg h2, if_neg h2]
    exact ⟨⟨_, rfl, rfl, rfl⟩, ⟨_, rfl, rfl, rfl⟩, ⟨_, rfl, rfl, rfl⟩, ⟨_, rfl, rfl, rfl⟩⟩

/-- A witness of C19: the type "Random" is refused, the static mode accepted. -/
theorem constructors_validate_mode_witness :
    (NewFastIPv4Obfuscator (ascii "Random")
        = Except.error (ascii "unsupported replacement type: " ++ ascii "Random") ∧
      NewIPv4Obfuscator (ascii "Random")
        = Except.error (ascii "unsupported replacement type: " ++ ascii "Random") ∧
      NewIPv6Obfuscator (ascii "Random")
        = Except.error (ascii "unsupported replacement type: " ++ ascii "Random") ∧
      NewMacAddressObfuscator (ascii "Random")
        = Except.error (ascii "unsupported replacement type: " ++ ascii "Random")) ∧
    ((∃ o, NewFastIPv4Obfuscator ObfuscateReplacementTypeStatic = Except.ok o ∧
        Report o.tracker = [] ∧ o.replacementType = ObfuscateReplacementTypeStatic) ∧
      (∃ o, NewIPv4Obfuscator ObfuscateReplacementTypeStatic = Except.ok o ∧
        Report o.tracker = [] ∧ o.replacementType = ObfuscateReplacementTypeStatic) ∧
      (∃ o, NewIPv6Obfuscator ObfuscateReplacementTypeStatic = Except.ok o ∧
        Report o.tracker = [] ∧ o.replacementType = ObfuscateReplacementTypeStatic) ∧
      (∃ o, NewMacAddressObfuscator ObfuscateReplacementTypeStatic = Except.ok o ∧
        Report o.tracker = [] ∧ o.replacementType = ObfuscateReplacementTypeStatic)) :=
  ⟨(constructors_validate_mode (ascii "Random")).1 (by decide),
    (constructors_validate_mode ObfuscateReplacementTypeStatic).2 (by decide)⟩

/-! ## strings.ReplaceAll -/

theorem replaceAllAux_skip (old new : Str) (k : Nat) (t : Str) :
    replaceAllAux old new k t = replaceAllAux old new 0 (t.drop k) := by
  induction t generalizing k with
  | nil => cases k <;> simp [replaceAllAux]
  | cons c rest ih =>
    cases k with
    | zero => rfl
    | succ k => rw [replaceAllAux, List.drop_succ_cons, ih]

theorem replaceAllAux_nil (old new : Str) : replaceAllAux old new 0 [] = [] := rfl

/-- The scan of `strings.ReplaceAll` where an occurrence starts. -/
theorem replaceAllAux_occurrence (old new t : Str) (hne : old ≠ []) (h : old <+: t) :
    replaceAllAux old new 0 t = new ++ replaceAllAux old new 0 (t.drop old.length) := by
  cases t with
  | nil =>
    have := List.eq_nil_of_prefix_nil h
    exact absurd this hne
  | cons c rest =>
    rw [replaceAllAux, if_pos (List.isPrefixOf_iff_prefix.2 h), replaceAllAux_skip]
    have hl : 0 < old.length := List.length_pos.2 hne
    have : (c :: rest).drop old.length = rest.drop (old.length - 1) := by
      obtain ⟨n, hn⟩ : ∃ n, old.length = n + 1 := ⟨old.length - 1, by omega⟩
      rw [hn, List.drop_succ_cons]
      rfl
    rw [this]

/-- The scan of `strings.ReplaceAll` where no occurrence starts. -/
theorem replaceAllAux_other (old new : Str) (c : Nat) (rest : Str) (h : ¬ old <+: c :: rest) :
    replaceAllAux old new 0 (c :: rest) = c :: replaceAllAux old new 0 rest := by
  rw [replaceAllAux, if_neg (fun e => h (List.isPrefixOf_iff_prefix.1 e))]

theorem ReplaceAll_eq (s old new : Str) (h : old ≠ []) :
    ReplaceAll s old new = replaceAllAux old new 0 s := by
  unfold ReplaceAll
  rw [if_neg h]

/-- Replacing a byte by a byte maps over the text. -/
theorem ReplaceAll_byte (s : Str) (c d : Nat) :
    ReplaceAll s [c] [d] = s.map (fun b => if b = c then d else b) := by
  rw [ReplaceAll_eq _ _ _ (by simp)]
  induction s with
  | nil => rfl
  | cons b rest ih =>
    by_cases hb : b = c
    · subst hb
      rw [replaceAllAux_occurrence _ _ _ (by simp) (by simp)]
      simp only [List.length_singleton, List.drop_succ_cons, List.drop_zero, List.map_cons,
        if_true, List.singleton_append]
      rw [ih]
    · have : ¬ [c] <+: b :: rest := by
        intro h
        rw [List.prefix_iff_eq_take] at h
        simp only [List.length_singleton, List.take_succ_cons, List.take_zero,
          List.cons.injEq, and_true] at h
        exact hb h.symm
      rw [replaceAllAux_other _ _ _ _ this, ih]
      simp [hb]

theorem cleaned_eq_map (m : Str) : cleaned m = m.map (fun b => if b = 45 then 46 else b) :=
  ReplaceAll_byte m 45 46

theorem cleaned_idem (m : Str) : cleaned (cleaned m) = cleaned m := by
  rw [cleaned_eq_map, cleaned_eq_map, List.map_map]
  apply List.map_congr_left
  intro b _
  simp only [Function.comp]
  by_cases hb : b = 45
  · simp [hb]
  · simp [hb]

theorem cleaned_of_no_dash (m : Str) (h : 45 ∉ m) : cleaned m = m := by
  rw [cleaned_eq_map]
  conv_rhs => rw [← List.map_id m]
  apply List.map_congr_left
  intro b hb
  have : b ≠ 45 := by rintro rfl; exact h hb
  simp [this]

/-- A text that holds no occurrence of `old` comes back as it is. -/
theorem replaceAllAux_of_no_occurrence (old new t : Str) (h : ∀ j, ¬ old <+: t.drop j) :
    replaceAllAux old new 0 t = t := by
  induction t with
  | nil => rfl
  | cons c rest ih =>
    rw [replaceAllAux_other _ _ _ _ (h 0), ih (fun j => h (j + 1))]

/-- The scan of `strings.ReplaceAll` gives the text back, or copies it up to its
first occurrence of `old` and goes on behind it. -/
theorem replaceAllAux_first (old new t : Str) (hne : old ≠ []) :
    replaceAllAux old new 0 t = t ∨
      ∃ g u, t = g ++ (old ++ u) ∧
        replaceAllAux old new 0 t = g ++ (new ++ replaceAllAux old new 0 u) := by
  induction t with
  | nil => exact Or.inl rfl
  | cons c rest ih =>
    by_cases h : old <+: c :: rest
    · refine Or.inr ⟨[], (c :: rest).drop old.length, ?_, ?_⟩
      · rw [List.nil_append]
        exact (List.prefix_iff_eq_append.1 h).symm
      · rw [List.nil_append]
        exact replaceAllAux_occurrence old new _ hne h
    · rw [replaceAllAux_other _ _ _ _ h]
      rcases ih with ih | ⟨g, u, h1, h2⟩
      · exact Or.inl (by rw [ih])
      · exact Or.inr ⟨c :: g, u, by rw [h1]; rfl, by rw [h2]; rfl⟩

theorem prefix_append_cases {m a b : Str} (h : m <+: a ++ b) :
    m <+: a ∨ ∃ m2, m2 ≠ [] ∧ m = a ++ m2 ∧ m2 <+: b := by
  rcases List.prefix_or_prefix_of_prefix h (List.prefix_append a b) with h1 | h1
  · exact Or.inl h1
  · obtain ⟨m2, hm2⟩ := h1
    by_cases hnil : m2 = []
    · subst hnil
      rw [List.append_nil] at hm2
      exact Or.inl (by rw [hm2])
    · refine Or.inr ⟨m2, hnil, hm2.symm, ?_⟩
      rw [← hm2] at h
      exact (List.prefix_append_right_inj a).1 h

/-- After `strings.ReplaceAll(s, old, new)` the text holds no occurrence of
`old`, when `old` holds neither the first nor the last byte of `new` and does
not occur in `new`. -/
theorem replaceAllAux_no_occurrence (old new : Str) (hne : old ≠ []) (x y : Nat)
    (hhead : new.head? = some x) (hlast : new.getLast? = some y) (hx : x ∉ old) (hy : y ∉ old)
    (hin : ∀ j, ¬ old <+: new.drop j) (t : Str) :
    ∀ j, ¬ old <+: (replaceAllAux old new 0 t).drop j := by
  have hnew : new ≠ [] := by rintro rfl; simp at hhead
  -- no occurrence starts in a copy of `new`
  have inside : ∀ (b : Str) (j : Nat), j < new.length → ¬ old <+: new.drop j ++ b := by
    intro b j hj hpre
    rcases prefix_append_cases hpre with h1 | ⟨m2, -, h2, -⟩
    · exact hin j h1
    · have hdne : new.drop j ≠ [] := by
        intro e
        have := congrArg List.length e
        simp at this
        omega
      have hl : (new.drop j).getLast? = some y := by
        have hsplit : new = new.take j ++ new.drop j := (List.take_append_drop j new).symm
        rw [hsplit, List.getLast?_append_of_ne_nil _ hdne] at hlast
        exact hlast
      have hmem : y ∈ new.drop j := List.mem_of_mem_getLast? hl
      exact hy (by rw [h2]; exact List.mem_append_left _ hmem)
  generalize hn : t.length = n
  induction n using Nat.strong_induction_on generalizing t with
  | _ n ih =>
    cases t with
    | nil =>
      intro j hpre
      rw [replaceAllAux_nil, List.drop_nil] at hpre
      exact hne (List.eq_nil_of_prefix_nil hpre)
    | cons c rest =>
      by_cases h : old <+: c :: rest
      · rw [replaceAllAux_occurrence old new _ hne h]
        have hlen : ((c :: rest).drop old.length).length < n := by
          have := List.length_pos.2 hne
          rw [List.length_drop, hn]
          simp only [List.length_cons] at hn
          omega
        have ih2 := ih _ hlen ((c :: rest).drop old.length) rfl
        intro j
        by_cases hj : j < new.length
        · rw [List.drop_append_of_le_length (by omega)]
          exact inside _ j hj
        · have : (new ++ replaceAllAux old new 0 ((c :: rest).drop old.length)).drop j
              = (replaceAllAux old new 0 ((c :: rest).drop old.length)).drop (j - new.length) := by
            rw [show j = new.length + (j - new.length) by omega, List.drop_append]
            simp
          rw [this]
          exact ih2 _
      · rw [replaceAllAux_other _ _ _ _ h]
        have hlen : rest.length < n := by
          simp only [List.length_cons] at hn
          omega
        have ih2 := ih _ hlen rest rfl
        intro j
        cases j with
        | succ j =>
          rw [List.drop_succ_cons]
          exact ih2 j
        | zero =>
          rw [List.drop_zero]
          intro hpre
          rcases replaceAllAux_first old new rest hne with h1 | ⟨g, u, h1, h2⟩
          · rw [h1] at hpre
            exact h hpre
          · rw [h2] at hpre
            have hpre2 : old <+: (c :: g) ++ (new ++ replaceAllAux old new 0 u) := hpre
            rcases prefix_append_cases hpre2 with h3 | ⟨m2, hm2, h4, h5⟩
            · apply h
              rw [h1]
              exact h3.trans (List.prefix_append (c :: g) _)
            · -- the occurrence would hold the first byte of `new`
              obtain ⟨new2, hnew2⟩ : ∃ new2, new = x :: new2 := by
                cases new with
                | nil => simp at hhead
                | cons a as =>
                  simp only [List.head?_cons, Option.some.injEq] at hhead
                  exact ⟨as, by rw [hhead]⟩
              cases m2 with
              | nil => exact hm2 rfl
              | cons a as =>
                rw [hnew2] at h5
                have : a = x := by
                  obtain ⟨w, hw⟩ := h5
                  simp only [List.cons_append, List.cons.injEq] at hw
                  exact hw.1
                subst this
                exact hx (by rw [h4]; simp)

/-- A second `strings.ReplaceAll` with the same arguments changes nothing, when
`old` holds neither the first nor the last byte of `new` and does not occur in
`new`. -/
theorem ReplaceAll_idem (s old new : Str) (hne : old ≠ []) (x y : Nat)
    (hhead : new.head? = some x) (hlast : new.getLast? = some y) (hx : x ∉ old) (hy : y ∉ old)
    (hin : ∀ j, ¬ old <+: new.drop j) :
    ReplaceAll (ReplaceAll s old new) old new = ReplaceAll s old new := by
  rw [ReplaceAll_eq _ _ _ hne, ReplaceAll_eq _ _ _ hne]
  exact replaceAllAux_of_no_occurrence _ _ _
    (replaceAllAux_no_occurrence old new hne x y hhead hlast hx hy hin s)

/-! ## The matches of ipv6Pattern -/

theorem take_takeWhile_length (p : Nat → Bool) (t : Str) :
    t.take (t.takeWhile p).length = t.takeWhile p := by
  induction t with
  | nil => rfl
  | cons a t ih =>
    rw [List.takeWhile_cons]
    split
    · rw [List.length_cons, List.take_succ_cons, ih]
    · rfl

theorem takeWhile_length_le (p : Nat → Bool) (t : Str) : (t.takeWhile p).length ≤ t.length :=
  (List.takeWhile_sublist p).length_le

theorem take_succ_of_drop (t : Str) (n c : Nat) (rest : Str) (h : t.drop n = c :: rest) :
    t.take (n + 1) = t.take n ++ [c] := by
  induction t generalizing n with
  | nil => simp at h
  | cons a t ih =>
    cases n with
    | zero =>
      simp only [List.drop_zero, List.cons.injEq] at h
      rw [h.1]
      rfl
    | succ n =>
      rw [List.drop_succ_cons] at h
      rw [List.take_succ_cons, List.take_succ_cons, ih n h]
      rfl

theorem ipv6Group_spec {t : Str} {n : Nat} (h : ipv6Group t = some n) :
    n ≤ t.length ∧ (∀ c ∈ t.take n, isIPv6Byte c) ∧ 58 ∈ t.take n := by
  unfold ipv6Group at h
  simp only at h
  split at h
  · rename_i hc
    simp only [Option.some.injEq] at h
    subst h
    obtain ⟨-, hhead⟩ := hc
    have hsplit : t = t.takeWhile isHexLower ++ t.drop (t.takeWhile isHexLower).length := by
      conv_lhs => rw [← List.take_append_drop (t.takeWhile isHexLower).length t]
      rw [take_takeWhile_length]
    obtain ⟨rest, hrest⟩ : ∃ rest, t.drop (t.takeWhile isHexLower).length = 58 :: rest := by
      cases hd : t.drop (t.takeWhile isHexLower).length with
      | nil => rw [hd] at hhead; simp at hhead
      | cons a rest =>
        rw [hd] at hhead
        simp only [List.head?_cons, Option.some.injEq] at hhead
        exact ⟨rest, by rw [hhead]⟩
    have htake : t.take ((t.takeWhile isHexLower).length + 1) = t.takeWhile isHexLower ++ [58] := by
      rw [take_succ_of_drop t _ 58 rest hrest, take_takeWhile_length]
    have hlen : (t.takeWhile isHexLower).length + 1 ≤ t.length := by
      have := congrArg List.length hsplit
      rw [hrest] at this
      simp only [List.length_append, List.length_cons] at this
      omega
    refine ⟨hlen, ?_, ?_⟩
    · rw [htake]
      intro c hc
      rcases List.mem_append.1 hc with hc | hc
      · exact Or.inl (List.mem_takeWhile_imp hc)
      · simp only [List.mem_singleton] at hc
        exact Or.inr hc
    · rw [htake]
      simp
  · cases h

theorem ipv6Tail_spec {t : Str} {n : Nat} (h : ipv6Tail t = some n) :
    n ≤ t.length ∧ (∀ c ∈ t.take n, isIPv6Byte c) ∧
      ∃ x, (t.take n).getLast? = some x ∧ isHexLower x = true := by
  unfold ipv6Tail at h
  simp only at h
  split at h
  · rename_i hc
    simp only [Option.some.injEq] at h
    subst h
    have hle := takeWhile_length_le isHexLower t
    have e1 : (t.take (t.takeWhile isHexLower).length).take (min (t.takeWhile isHexLower).length 4)
        = t.take (min (t.takeWhile isHexLower).length 4) := by
      rw [List.take_take]
      congr 1
      omega
    have hpre : t.take (min (t.takeWhile isHexLower).length 4)
        = (t.takeWhile isHexLower).take (min (t.takeWhile isHexLower).length 4) := by
      rw [← e1, take_takeWhile_length]
    have hall : ∀ c ∈ t.take (min (t.takeWhile isHexLower).length 4), isHexLower c = true := by
      rw [hpre]
      intro c hc
      exact List.mem_takeWhile_imp (List.mem_of_mem_take hc)
    refine ⟨by omega, fun c hc => Or.inl (hall c hc), ?_⟩
    have hne : t.take (min (t.takeWhile isHexLower).length 4) ≠ [] := by
      intro e
      have := congrArg List.length e
      simp only [List.length_take, List.length_nil] at this
      omega
    cases hl : (t.take (min (t.takeWhile isHexLower).length 4)).getLast? with
    | none => exact absurd (List.getLast?_eq_none_iff.1 hl) hne
    | some x => exact ⟨x, rfl, hall x (List.mem_of_mem_getLast? hl)⟩
  · cases h

theorem ipv6Groups_spec (rem k : Nat) (t : Str) (n : Nat) (h : ipv6Groups rem k t = some n) :
    n ≤ t.length ∧ (∀ c ∈ t.take n, isIPv6Byte c) ∧ (1 ≤ k ∨ 58 ∈ t.take n) ∧
      ∃ x, (t.take n).getLast? = some x ∧ isHexLower x = true := by
  induction rem generalizing k t n with
  | zero =>
    rw [ipv6Groups] at h
    split at h
    · rename_i hk
      obtain ⟨h1, h2, h3⟩ := ipv6Tail_spec h
      exact ⟨h1, h2, Or.inl hk, h3⟩
    · cases h
  | succ rem ih =>
    have tailCase : (if k ≥ 1 then ipv6Tail t else none) = some n →
        n ≤ t.length ∧ (∀ c ∈ t.take n, isIPv6Byte c) ∧ (1 ≤ k ∨ 58 ∈ t.take n) ∧
          ∃ x, (t.take n).getLast? = some x ∧ isHexLower x = true := by
      intro h
      split at h
      · rename_i hk
        obtain ⟨h1, h2, h3⟩ := ipv6Tail_spec h
        exact ⟨h1, h2, Or.inl hk, h3⟩
      · cases h
    rw [ipv6Groups] at h
    cases hg : ipv6Group t with
    | none =>
      rw [hg] at h
      exact tailCase h
    | some g =>
      rw [hg] at h
      simp only at h
      cases hr : ipv6Groups rem (k + 1) (t.drop g) with
      | none =>
        rw [hr] at h
        exact tailCase h
      | some l =>
        rw [hr] at h
        simp only [Option.some.injEq] at h
        subst h
        obtain ⟨g1, g2, g3⟩ := ipv6Group_spec hg
        obtain ⟨r1, r2, -, x, r4, r5⟩ := ih _ _ _ hr
        rw [List.length_drop] at r1
        have hne : (t.drop g).take l ≠ [] := by
          intro e
          rw [e] at r4
          simp at r4
        refine ⟨by omega, ?_, Or.inr ?_, x, ?_, r5⟩
        · rw [List.take_add]
          intro c hc
          rcases List.mem_append.1 hc with hc | hc
          · exact g2 c hc
          · exact r2 c hc
        · rw [List.take_add]
          exact List.mem_append_left _ g3
        · rw [List.take_add, List.getLast?_append_of_ne_nil _ hne]
          exact r4

theorem ipv6PatternAt_spec {t : Str} {n : Nat} (h : ipv6PatternAt t = some n) :
    IPv6MatchText (t.take n) := by
  obtain ⟨-, h2, h3, h4⟩ := ipv6Groups_spec 8 0 t n h
  refine ⟨h2, ?_, h4⟩
  rcases h3 with h3 | h3
  · omega
  · exact h3

theorem ipv6FindAllLoop_spec (s : Str) (fuel i : Nat) :
    ∀ m ∈ ipv6FindAllLoop s fuel i, IPv6MatchText m := by
  induction fuel generalizing i with
  | zero => intro m hm; simp [ipv6FindAllLoop] at hm
  | succ fuel ih =>
    intro m hm
    rw [ipv6FindAllLoop] at hm
    split at hm
    · cases hp : ipv6PatternAt (s.drop i) with
      | none =>
        rw [hp] at hm
        exact ih _ m hm
      | some n =>
        rw [hp] at hm
        simp only [List.mem_cons] at hm
        rcases hm with hm | hm
        · rw [hm]
          exact ipv6PatternAt_spec hp
        · exact ih _ m hm
    · simp at hm

/-- Every match of `ipv6Pattern` is made of the bytes of its classes, holds a
':' and ends with a digit or a letter in a..f. -/
theorem ipv6PatternFindAllString_spec (s : Str) :
    ∀ m ∈ ipv6PatternFindAllString s, IPv6MatchText m :=
  ipv6FindAllLoop_spec s _ _

theorem IPv6MatchText.not_mem {w : Str} (h : IPv6MatchText w) (c : Nat)
    (hc : isHexLower c = false) (hc2 : c ≠ 58) : c ∉ w := by
  intro hmem
  rcases h.bytes c hmem with h1 | h1
  · rw [h1] at hc
    cases hc
  · exact hc2 h1

theorem IPv6MatchText.cleaned_eq {w : Str} (h : IPv6MatchText w) : cleaned w = w :=
  cleaned_of_no_dash w (h.not_mem 45 (by decide) (by decide))

theorem IPv6MatchText.ne_nil {w : Str} (h : IPv6MatchText w) : w ≠ [] := by
  rintro rfl
  have := h.colon
  simp at this

/-! ## Candidates that the pattern-based obfuscators skip -/

theorem replaceMatches_excluded (excluded : List Str) (t m : Str) (rest : List Str) (output : Str)
    (tracker : Mapping) (gen : generator) (h : m ∈ excluded) :
    replaceMatches excluded t (m :: rest) output tracker gen
      = replaceMatches excluded t rest output tracker gen := by
  rw [replaceMatches, if_pos h]

theorem replaceMatches_invalid (excluded : List Str) (t m : Str) (rest : List Str) (output : Str)
    (tracker : Mapping) (gen : generator) (h : ParseIP (cleaned m) = none) :
    replaceMatches excluded t (m :: rest) output tracker gen
      = replaceMatches excluded t rest output tracker gen := by
  unfold cleaned at h
  rw [replaceMatches, h]
  split
  · rfl
  · rfl

theorem replaceMatches_skipped (excluded : List Str) (t m : Str) (rest : List Str) (output : Str)
    (tracker : Mapping) (gen : generator) (h : Skipped excluded m) :
    replaceMatches excluded t (m :: rest) output tracker gen
      = replaceMatches excluded t rest output tracker gen := by
  rcases h with h | h
  · exact replaceMatches_excluded excluded t m rest output tracker gen h
  · exact replaceMatches_invalid excluded t m rest output tracker gen h

theorem replaceMatches_all_skipped (excluded : List Str) (t : Str) (l : List Str) (output : Str)
    (tracker : Mapping) (gen : generator) (h : ∀ m ∈ l, Skipped excluded m) :
    replaceMatches excluded t l output tracker gen = some (output, tracker, gen) := by
  induction l with
  | nil => rfl
  | cons m rest ih =>
    rw [replaceMatches_skipped excluded t m rest output tracker gen (h m (List.mem_cons_self _ _))]
    exact ih (fun x hx => h x (List.mem_cons_of_mem _ hx))

/-- C17, as stated, fails for the pattern-based IPv4 obfuscator: in
"ip-10-0-129-220" the only match of the pattern is "10-0-129-220", which is not
excluded and is no IP address for `net.ParseIP`, and yet a fresh obfuscator in
static mode replaces it and records it. The code validates the match with its
dashes turned into dots. -/
theorem Contents_replaces_dashed_match :
    ipv4PatternFindAllString (ascii "ip-10-0-129-220") = [ascii "10-0-129-220"] ∧
      ascii "10-0-129-220" ∉ excludedIPv4s ∧
      ParseIP (ascii "10-0-129-220") = none ∧
      ipv4Obfuscator.Contents
          { tracker := NewSimpleTracker
            gen := newGenerator consistentIPv4Template obfuscatedStaticIPv4 9999999999
            replacementType := ObfuscateReplacementTypeStatic }
          (ascii "ip-10-0-129-220")
        = some (ascii "ip-xxx.xxx.xxx.xxx",
            { tracker := [(ascii "10.0.129.220", ascii "xxx.xxx.xxx.xxx"),
                          (ascii "10-0-129-220", ascii "xxx.xxx.xxx.xxx")]
              gen := newGenerator consistentIPv4Template obfuscatedStaticIPv4 9999999999
              replacementType := ObfuscateReplacementTypeStatic }) := by
  decide

/-- C17, amended: the IPv6 obfuscator returns `s6` unchanged and keeps its
tracker and generator as they were when every match of its pattern in `s6` is
excluded or is no IP address; the pattern-based IPv4 obfuscator does so for `s4`
when every match of its pattern in `s4` is excluded or is no IP address once
its dashes are turned into dots. The report of a fresh obfuscator stays
empty. -/
theorem Contents_skipped_unchanged (o6 : ipv6Obfuscator) (o4 : ipv4Obfuscator) (s6 s4 : Str)
    (h6 : ∀ m ∈ ipv6PatternFindAllString s6, m ∈ excludedIPv6s ∨ ParseIP m = none)
    (h4 : ∀ m ∈ ipv4PatternFindAllString s4, m ∈ excludedIPv4s ∨ ParseIP (cleaned m) = none) :
    o6.Contents s6 = some (s6, o6) ∧ o4.Contents s4 = some (s4, o4) ∧
      (∀ t f6 f4, NewIPv6Obfuscator t = .ok f6 → NewIPv4Obfuscator t = .ok f4 →
        ∃ r6 r4, f6.Contents s6 = some (s6, r6) ∧ Report r6.tracker = [] ∧
          f4.Contents s4 = some (s4, r4) ∧ Report r4.tracker = []) := by
  have k6 : ∀ o : ipv6Obfuscator, o.Contents s6 = some (s6, o) := by
    intro o
    have hs : ∀ m ∈ ipv6PatternFindAllString s6, Skipped excludedIPv6s m := by
      intro m hm
      rcases h6 m hm with h | h
      · exact Or.inl h
      · refine Or.inr ?_
        rw [(ipv6PatternFindAllString_spec s6 m hm).cleaned_eq]
        exact h
    unfold ipv6Obfuscator.Contents ipv6Obfuscator.replace
    rw [replaceMatches_all_skipped excludedIPv6s _ _ s6 o.tracker o.gen hs]
  have k4 : ∀ o : ipv4Obfuscator, o.Contents s4 = some (s4, o) := by
    intro o
    unfold ipv4Obfuscator.Contents ipv4Obfuscator.replace
    rw [replaceMatches_all_skipped excludedIPv4s _ _ s4 o.tracker o.gen h4]
  refine ⟨k6 o6, k4 o4, ?_⟩
  intro t f6 f4 e6 e4
  refine ⟨f6, f4, k6 f6, ?_, k4 f4, ?_⟩
  · unfold NewIPv6Obfuscator at e6
    split at e6
    · cases e6
    · cases e6
      rfl
  · unfold NewIPv4Obfuscator at e4
    split at e4
    · cases e4
    · cases e4
      rfl

theorem Contents_skipped_unchanged_witness :
    (ipv6Obfuscator.Contents
        { tracker := NewSimpleTracker
          gen := newGenerator consistentIPv6Template obfuscatedStaticIPv6 999999999999999999
          replacementType := ObfuscateReplacementTypeStatic }
        (ascii "Listening on [::1]:8080 at 12:34:56")
      = some (ascii "Listening on [::1]:8080 at 12:34:56",
          { tracker := NewSimpleTracker
            gen := newGenerator consistentIPv6Template obfuscatedStaticIPv6 999999999999999999
            replacementType := ObfuscateReplacementTypeStatic })) ∧
    (ipv4Obfuscator.Contents
        { tracker := NewSimpleTracker
          gen := newGenerator consistentIPv4Template obfuscatedStaticIPv4 9999999999
          replacementType := ObfuscateReplacementTypeConsistent }
        (ascii "Listening on 0.0.0.0:8080, 127.0.0.1 and 10.0.300.1")
      = some (ascii "Listening on 0.0.0.0:8080, 127.0.0.1 and 10.0.300.1",
          { tracker := NewSimpleTracker
            gen := newGenerator consistentIPv4Template obfuscatedStaticIPv4 9999999999
            replacementType := ObfuscateReplacementTypeConsistent })) :=
  have h := Contents_skipped_unchanged
    { tracker := NewSimpleTracker
      gen := newGenerator consistentIPv6Template obfuscatedStaticIPv6 999999999999999999
      replacementType := ObfuscateReplacementTypeStatic }
    { tracker := NewSimpleTracker
      gen := newGenerator consistentIPv4Template obfuscatedStaticIPv4 9999999999
      replacementType := ObfuscateReplacementTypeConsistent }
    (ascii "Listening on [::1]:8080 at 12:34:56")
    (ascii "Listening on 0.0.0.0:8080, 127.0.0.1 and 10.0.300.1")
    (by decide) (by decide)
  ⟨h.1, h.2.1⟩

/-! ## One address through the IPv6 obfuscator -/

theorem generateByType_known (t : Str) (ht : IsMode t) (tracker : Mapping) (gen : generator)
    (c v : Str) (h : mapGet tracker c = some v) :
    generateByType t tracker gen c = (v, tracker, gen) := by
  rcases ht with ht | ht
  · simp [generateByType, ht, GenerateIfAbsent, h]
  · have hne : ObfuscateReplacementTypeConsistent ≠ ObfuscateReplacementTypeStatic := by decide
    simp [generateByType, ht, hne, GenerateIfAbsent, h]

theorem generateByType_new (t : Str) (ht : IsMode t) (tracker : Mapping) (gen : generator)
    (c : Str) (h : mapGet tracker c = none) :
    generateByType t tracker gen c
      = ((nextOf t gen).1, mapSet tracker c (nextOf t gen).1, (nextOf t gen).2) := by
  rcases ht with ht | ht
  · simp [generateByType, nextOf, ht, GenerateIfAbsent, h, generateStaticReplacement]
  · have hne : ObfuscateReplacementTypeConsistent ≠ ObfuscateReplacementTypeStatic := by decide
    simp [generateByType, nextOf, ht, hne, GenerateIfAbsent, h, generateConsistentReplacement]

theorem replaceMatches_valid (excluded : List Str) (t m : Str) (rest : List Str) (output : Str)
    (tracker : Mapping) (gen : generator) (h1 : m ∉ excluded)
    (h2 : (ParseIP (cleaned m)).isSome = true) :
    replaceMatches excluded t (m :: rest) output tracker gen =
      match AddReplacement (generateByType t tracker gen (cleaned m)).2.1 m
          (generateByType t tracker gen (cleaned m)).1 with
      | none => none
      | some tracker2 =>
        replaceMatches excluded t rest
          (ReplaceAll output m (generateByType t tracker gen (cleaned m)).1) tracker2
          (generateByType t tracker gen (cleaned m)).2.2 := by
  unfold cleaned at *
  rw [replaceMatches, if_neg h1, if_pos h2]

theorem not_prefix_drop_of_mem (m p : Str) (c : Nat) (hc : c ∈ m) (hp : c ∉ p) :
    ∀ j, ¬ m <+: p.drop j := by
  intro j h
  exact hp (List.mem_of_mem_drop (h.subset hc))

/-- After the address `m` is recorded, more candidates that are `m` or skipped
change nothing. -/
theorem replaceMatches_settled (excluded : List Str) (t : Str) (ht : IsMode t) (m p : Str)
    (h1 : m ∉ excluded) (h2 : (ParseIP (cleaned m)).isSome = true) (hc : cleaned m = m)
    (out : Str) (hidem : ReplaceAll out m p = out) (gen : generator) (l : List Str)
    (hl : ∀ x ∈ l, x = m ∨ Skipped excluded x) :
    replaceMatches excluded t l out [(m, p)] gen = some (out, [(m, p)], gen) := by
  induction l with
  | nil => rfl
  | cons x rest ih =>
    have ihr := ih (fun y hy => hl y (List.mem_cons_of_mem _ hy))
    rcases hl x (List.mem_cons_self _ _) with hx | hx
    · subst hx
      have hg : mapGet [(x, p)] x = some p := by simp [mapGet]
      rw [replaceMatches_valid excluded t x rest out _ gen h1 h2, hc,
        generateByType_known t ht _ gen x p hg]
      simp only [AddReplacement_same _ _ _ hg, hidem]
      exact ihr
    · rw [replaceMatches_skipped excluded t x rest out _ gen hx]
      exact ihr

/-- From a fresh tracker, candidates that are `m` or skipped, `m` among them,
give the global substitution of `m` and a tracker with the one entry. -/
theorem replaceMatches_first (excluded : List Str) (t : Str) (ht : IsMode t) (m : Str)
    (h1 : m ∉ excluded) (h2 : (ParseIP (cleaned m)).isSome = true) (hc : cleaned m = m)
    (s : Str) (gen : generator)
    (hidem : ReplaceAll (ReplaceAll s m (nextOf t gen).1) m (nextOf t gen).1
      = ReplaceAll s m (nextOf t gen).1)
    (l : List Str) (hl : ∀ x ∈ l, x = m ∨ Skipped excluded x) (hmem : m ∈ l) :
    replaceMatches excluded t l s [] gen
      = some (ReplaceAll s m (nextOf t gen).1, [(m, (nextOf t gen).1)], (nextOf t gen).2) := by
  induction l with
  | nil => simp at hmem
  | cons x rest ih =>
    have hlr : ∀ y ∈ rest, y = m ∨ Skipped excluded y :=
      fun y hy => hl y (List.mem_cons_of_mem _ hy)
    by_cases hx : x = m
    · subst hx
      have hg : mapGet ([] : Mapping) x = none := rfl
      rw [replaceMatches_valid excluded t x rest s _ gen h1 h2, hc,
        generateByType_new t ht _ gen x hg]
      have hs : mapSet [] x (nextOf t gen).1 = [(x, (nextOf t gen).1)] := rfl
      have hg2 : mapGet [(x, (nextOf t gen).1)] x = some (nextOf t gen).1 := by simp [mapGet]
      simp only [hs, AddReplacement_same _ _ _ hg2]
      exact replaceMatches_settled excluded t ht x _ h1 h2 hc _ hidem _ rest hlr
    · have hsk : Skipped excluded x := by
        rcases hl x (List.mem_cons_self _ _) with h | h
        · exact absurd h hx
        · exact h
      rw [replaceMatches_skipped excluded t x rest s _ gen hsk]
      refine ih hlr ?_
      rcases List.mem_cons.1 hmem with h | h
      · exact absurd h.symm hx
      · exact h

theorem firstIPv6Placeholder_eq (t : Str) :
    (nextOf t (newGenerator consistentIPv6Template obfuscatedStaticIPv6 999999999999999999)).1
      = firstIPv6Placeholder t := by
  unfold nextOf firstIPv6Placeholder
  split
  · rfl
  · decide

/-- A match of `ipv6Pattern` does not come back after its global substitution by
a placeholder of the IPv6 obfuscator. -/
theorem ReplaceAll_placeholder_idem (t s m : Str) (hm : IPv6MatchText m) :
    ReplaceAll (ReplaceAll s m (firstIPv6Placeholder t)) m (firstIPv6Placeholder t)
      = ReplaceAll s m (firstIPv6Placeholder t) := by
  have hx : 120 ∉ m := hm.not_mem 120 (by decide) (by decide)
  unfold firstIPv6Placeholder
  split
  · obtain ⟨c, hc, hhex⟩ := hm.last
    have hcm : c ∈ m := List.mem_of_mem_getLast? hc
    have hcp : c ∉ ascii "xxxx:xxxx:xxxx:xxxx:xxxx:xxxx:xxxx:xxxx" := by
      intro hmem
      have hall : ∀ b ∈ ascii "xxxx:xxxx:xxxx:xxxx:xxxx:xxxx:xxxx:xxxx", isHexLower b = false := by
        decide
      rw [hall c hmem] at hhex
      cases hhex
    exact ReplaceAll_idem s m _ hm.ne_nil 120 120 (by decide) (by decide) hx hx
      (not_prefix_drop_of_mem m _ c hcm hcp)
  · exact ReplaceAll_idem s m _ hm.ne_nil 120 120 (by decide) (by decide) hx hx
      (not_prefix_drop_of_mem m _ 58 hm.colon (by decide))

/-- C18: for a fresh obfuscator from `NewIPv6Obfuscator` in mode `t` and an
input `s` whose matches of the pattern hold one valid address `m` (not
excluded, an IP address for `net.ParseIP`) and otherwise only excluded or
invalid candidates, `Contents(s)` is `s` with every occurrence of `m` replaced
by the placeholder, "xxxx:xxxx:xxxx:xxxx:xxxx:xxxx:xxxx:xxxx" in static mode
and "xx-ipv6-000000000000000001-xx" in consistent mode, and the report is the
one entry from `m` to the placeholder. -/
theorem IPv6_single_address (t : Str) (o : ipv6Obfuscator) (s m : Str)
    (ho : NewIPv6Obfuscator t = .ok o)
    (hm : m ∈ ipv6PatternFindAllString s) (hex : m ∉ excludedIPv6s)
    (hip : (ParseIP m).isSome = true)
    (hrest : ∀ x ∈ ipv6PatternFindAllString s, x ≠ m → x ∈ excludedIPv6s ∨ ParseIP x = none) :
    ∃ o1, o.Contents s = some (ReplaceAll s m (firstIPv6Placeholder t), o1) ∧
      Report o1.tracker = [(m, firstIPv6Placeholder t)] ∧
      (t = ObfuscateReplacementTypeStatic →
        firstIPv6Placeholder t = ascii "xxxx:xxxx:xxxx:xxxx:xxxx:xxxx:xxxx:xxxx") ∧
      (t = ObfuscateReplacementTypeConsistent →
        firstIPv6Placeholder t = ascii "xx-ipv6-000000000000000001-xx") := by
  have ht : IsMode t := by
    by_contra hn
    unfold NewIPv6Obfuscator at ho
    rw [if_pos ((not_mode_iff t).2 hn)] at ho
    cases ho
  have hoe : o = { tracker := NewSimpleTracker
                   gen := newGenerator consistentIPv6Template obfuscatedStaticIPv6
                     999999999999999999
                   replacementType := t } := by
    unfold NewIPv6Obfuscator at ho
    split at ho
    · cases ho
    · cases ho
      rfl
  have hmt := ipv6PatternFindAllString_spec s m hm
  have hc : cleaned m = m := hmt.cleaned_eq
  have h2 : (ParseIP (cleaned m)).isSome = true := by rw [hc]; exact hip
  have hl : ∀ x ∈ ipv6PatternFindAllString s, x = m ∨ Skipped excludedIPv6s x := by
    intro x hx
    by_cases hxm : x = m
    · exact Or.inl hxm
    · refine Or.inr ?_
      rcases hrest x hx hxm with h | h
      · exact Or.inl h
      · refine Or.inr ?_
        rw [(ipv6PatternFindAllString_spec s x hx).cleaned_eq]
        exact h
  have hidem := ReplaceAll_placeholder_idem t s m hmt
  rw [← firstIPv6Placeholder_eq t] at hidem
  have hrun := replaceMatches_first excludedIPv6s t ht m hex h2 hc s
    (newGenerator consistentIPv6Template obfuscatedStaticIPv6 999999999999999999) hidem
    (ipv6PatternFindAllString s) hl hm
  rw [firstIPv6Placeholder_eq t] at hrun
  subst hoe
  refine ⟨{ tracker := [(m, firstIPv6Placeholder t)]
            gen := (nextOf t (newGenerator consistentIPv6Template obfuscatedStaticIPv6
              999999999999999999)).2
            replacementType := t }, ?_, ?_, ?_, ?_⟩
  · unfold ipv6Obfuscator.Contents ipv6Obfuscator.replace
    simp only [NewSimpleTracker]
    rw [hrun]
  · rfl
  · intro h
    rw [firstIPv6Placeholder, if_pos h]
  · intro h
    have hne : ObfuscateReplacementTypeConsistent ≠ ObfuscateReplacementTypeStatic := by decide
    rw [firstIPv6Placeholder, if_neg (by rw [h]; exact hne)]

theorem IPv6_single_address_witness :
    ∃ o1, ipv6Obfuscator.Contents
        { tracker := NewSimpleTracker
          gen := newGenerator consistentIPv6Template obfuscatedStaticIPv6 999999999999999999
          replacementType := ObfuscateReplacementTypeConsistent }
        (ascii "from fe80::1ff:fe23:4567:890a to [::1] and 10.0.0.1, again fe80::1ff:fe23:4567:890a")
      = some (ascii ("from xx-ipv6-000000000000000001-xx to [::1] and 10.0.0.1, " ++
          "again xx-ipv6-000000000000000001-xx"), o1) ∧
      Report o1.tracker
        = [(ascii "fe80::1ff:fe23:4567:890a", ascii "xx-ipv6-000000000000000001-xx")] := by
  obtain ⟨o1, h1, h2, -, -⟩ := IPv6_single_address ObfuscateReplacementTypeConsistent
    { tracker := NewSimpleTracker
      gen := newGenerator consistentIPv6Template obfuscatedStaticIPv6 999999999999999999
      replacementType := ObfuscateReplacementTypeConsistent }
    (ascii "from fe80::1ff:fe23:4567:890a to [::1] and 10.0.0.1, again fe80::1ff:fe23:4567:890a")
    (ascii "fe80::1ff:fe23:4567:890a") rfl (by decide) (by decide) (by decide) (by decide)
  refine ⟨o1, ?_, ?_⟩
  · rw [h1]
    have e : ReplaceAll
        (ascii "from fe80::1ff:fe23:4567:890a to [::1] and 10.0.0.1, again fe80::1ff:fe23:4567:890a")
        (ascii "fe80::1ff:fe23:4567:890a") (firstIPv6Placeholder ObfuscateReplacementTypeConsistent)
        = ascii ("from xx-ipv6-000000000000000001-xx to [::1] and 10.0.0.1, " ++
          "again xx-ipv6-000000000000000001-xx") := by decide
    rw [e]
  · exact h2

/-! ## The pattern-based IPv4 obfuscator -/

theorem validMatches_cons_valid (excluded : List Str) (m : Str) (rest : List Str)
    (h1 : m ∉ excluded) (h2 : (ParseIP (cleaned m)).isSome = true) :
    validMatches excluded (m :: rest) = m :: validMatches excluded rest := by
  unfold validMatches
  rw [List.filter_cons_of_pos]
  exact decide_eq_true ⟨h1, h2⟩

theorem validMatches_cons_skipped (excluded : List Str) (m : Str) (rest : List Str)
    (h : Skipped excluded m) :
    validMatches excluded (m :: rest) = validMatches excluded rest := by
  unfold validMatches
  rw [List.filter_cons_of_neg]
  rw [decide_eq_true_eq]
  rintro ⟨h1, h2⟩
  rcases h with h | h
  · exact h1 h
  · rw [h] at h2
    cases h2

theorem not_valid_skipped (excluded : List Str) (m : Str)
    (h : ¬ (m ∉ excluded ∧ (ParseIP (cleaned m)).isSome = true)) : Skipped excluded m := by
  by_cases h1 : m ∈ excluded
  · exact Or.inl h1
  · refine Or.inr ?_
    cases hp : ParseIP (cleaned m) with
    | none => rfl
    | some v =>
      exfalso
      apply h
      rw [hp]
      exact ⟨h1, rfl⟩

theorem Extends.refl (a : Mapping) : Extends a a := fun _ _ h => h

theorem Extends.trans {a b c : Mapping} (h1 : Extends a b) (h2 : Extends b c) : Extends a c :=
  fun k v h => h2 k v (h1 k v h)

theorem Extends.of_mapSet (a : Mapping) (k v : Str) (h : mapGet a k = none) :
    Extends a (mapSet a k v) := by
  intro k2 v2 h2
  rw [mapGet_mapSet]
  split
  · rename_i e
    subst e
    rw [h] at h2
    cases h2
  · exact h2

theorem CleanedAgree.set_cleaned {tr : Mapping} (hca : CleanedAgree tr) (c r : Str)
    (hcc : cleaned c = c) (hnone : mapGet tr c = none) : CleanedAgree (mapSet tr c r) := by
  intro k v hk
  rw [mapGet_mapSet] at hk
  rw [mapGet_mapSet]
  by_cases e : c = k
  · subst e
    rw [if_pos rfl] at hk
    rw [hcc, if_pos rfl]
    exact hk
  · rw [if_neg e] at hk
    have h2 := hca k v hk
    by_cases e2 : c = cleaned k
    · rw [← e2, hnone] at h2
      cases h2
    · rw [if_neg e2]
      exact h2

theorem CleanedAgree.set_match {tr : Mapping} (hca : CleanedAgree tr) (m r : Str)
    (hc : mapGet tr (cleaned m) = some r) : CleanedAgree (mapSet tr m r) := by
  intro k v hk
  rw [mapGet_mapSet] at hk
  rw [mapGet_mapSet]
  by_cases e : m = k
  · subst e
    rw [if_pos rfl] at hk
    by_cases e2 : m = cleaned m
    · rw [if_pos e2]
      exact hk
    · rw [if_neg e2, hc]
      exact hk
  · rw [if_neg e] at hk
    have h2 := hca k v hk
    by_cases e2 : m = cleaned k
    · rw [if_pos e2]
      rw [← e2] at h2
      have h3 := hca m v h2
      rw [hc] at h3
      exact h3
    · rw [if_neg e2]
      exact h2

/-- One valid match through the loop of the pattern-based `replace`: no fatal
exit, the match is recorded with the replacement of its cleaned form, and the
text gets the global substitution. -/
theorem replaceMatches_valid_step (excluded : List Str) (t : Str) (ht : IsMode t) (m : Str)
    (rest : List Str) (out : Str) (tr : Mapping) (g : generator) (h1 : m ∉ excluded)
    (h2 : (ParseIP (cleaned m)).isSome = true) (hca : CleanedAgree tr) :
    ∃ r tr2 g1, replaceMatches excluded t (m :: rest) out tr g
        = replaceMatches excluded t rest (ReplaceAll out m r) tr2 g1 ∧
      Extends tr tr2 ∧ CleanedAgree tr2 ∧ mapGet tr2 m = some r := by
  rw [replaceMatches_valid excluded t m rest out tr g h1 h2]
  cases hc : mapGet tr (cleaned m) with
  | some v =>
    rw [generateByType_known t ht tr g (cleaned m) v hc]
    cases hm : mapGet tr m with
    | some v2 =>
      have e := hca m v2 hm
      rw [hc] at e
      cases e
      refine ⟨v, tr, g, ?_, Extends.refl tr, hca, hm⟩
      simp only [AddReplacement_same tr m v hm]
    | none =>
      refine ⟨v, mapSet tr m v, g, ?_, Extends.of_mapSet tr m v hm, hca.set_match m v hc,
        mapGet_mapSet_self tr m v⟩
      simp only [AddReplacement_absent tr m v hm]
  | none =>
    rw [generateByType_new t ht tr g (cleaned m) hc]
    have hm : mapGet tr m = none := by
      cases hm : mapGet tr m with
      | none => rfl
      | some v2 =>
        have e := hca m v2 hm
        rw [hc] at e
        cases e
    have hca1 : CleanedAgree (mapSet tr (cleaned m) (nextOf t g).1) :=
      hca.set_cleaned (cleaned m) _ (cleaned_idem m) hc
    have hext1 : Extends tr (mapSet tr (cleaned m) (nextOf t g).1) := Extends.of_mapSet tr _ _ hc
    by_cases e : cleaned m = m
    · have hg : mapGet (mapSet tr (cleaned m) (nextOf t g).1) m = some (nextOf t g).1 := by
        rw [mapGet_mapSet, if_pos e]
      refine ⟨(nextOf t g).1, mapSet tr (cleaned m) (nextOf t g).1, (nextOf t g).2, ?_, hext1,
        hca1, hg⟩
      simp only [AddReplacement_same _ m _ hg]
    · have hg : mapGet (mapSet tr (cleaned m) (nextOf t g).1) m = none := by
        rw [mapGet_mapSet, if_neg e]
        exact hm
      refine ⟨(nextOf t g).1, mapSet (mapSet tr (cleaned m) (nextOf t g).1) m (nextOf t g).1,
        (nextOf t g).2, ?_, hext1.trans (Extends.of_mapSet _ m _ hg), ?_,
        mapGet_mapSet_self _ m _⟩
      · simp only [AddReplacement_absent _ m _ hg]
      · exact hca1.set_match m _ (mapGet_mapSet_self tr (cleaned m) _)

/-- The loop of the pattern-based `replace` in a valid mode, from a tracker in
which every key agrees with its cleaned form: no fatal exit, the tracker keeps
its entries, every valid match is a key, and the text is the successive global
substitution of the valid matches by their entries. -/
theorem replaceMatches_fold (excluded : List Str) (t : Str) (ht : IsMode t) (l : List Str) :
    ∀ (out : Str) (tr : Mapping) (g : generator), CleanedAgree tr →
      ∃ tr1 g1, replaceMatches excluded t l out tr g
          = some (substituteAll tr1 (validMatches excluded l) out, tr1, g1) ∧
        Extends tr tr1 ∧ CleanedAgree tr1 ∧
        ∀ m ∈ validMatches excluded l, ∃ r, mapGet tr1 m = some r := by
  induction l with
  | nil =>
    intro out tr g hca
    exact ⟨tr, g, rfl, Extends.refl tr, hca, fun m hm => by simp [validMatches] at hm⟩
  | cons m rest ih =>
    intro out tr g hca
    by_cases hv : m ∉ excluded ∧ (ParseIP (cleaned m)).isSome = true
    · obtain ⟨r, tr2, g2, hstep, hext, hca2, hget⟩ :=
        replaceMatches_valid_step excluded t ht m rest out tr g hv.1 hv.2 hca
      obtain ⟨tr1, g1, hrun, hext1, hca1, hkeys⟩ := ih (ReplaceAll out m r) tr2 g2 hca2
      refine ⟨tr1, g1, ?_, hext.trans hext1, hca1, ?_⟩
      · rw [hstep, hrun, validMatches_cons_valid excluded m rest hv.1 hv.2]
        unfold substituteAll
        rw [List.foldl_cons, hext1 m r hget]
        rfl
      · intro x hx
        rw [validMatches_cons_valid excluded m rest hv.1 hv.2] at hx
        rcases List.mem_cons.1 hx with e | hx
        · subst e
          exact ⟨r, hext1 x r hget⟩
        · exact hkeys x hx
    · have hs := not_valid_skipped excluded m hv
      obtain ⟨tr1, g1, hrun, hext1, hca1, hkeys⟩ := ih out tr g hca
      refine ⟨tr1, g1, ?_, hext1, hca1, ?_⟩
      · rw [replaceMatches_skipped excluded t m rest out tr g hs,
          validMatches_cons_skipped excluded m rest hs]
        exact hrun
      · rw [validMatches_cons_skipped excluded m rest hs]
        exact hkeys

/-- C16, as stated, fails: in "1.2.3.4 11.2.3.4" the pattern matches "1.2.3.4"
and "11.2.3.4", both valid, and the report of a fresh obfuscator in consistent
mode gives them the first and the second placeholder; the text read span by
span would be "x-ipv4-0000000001-x x-ipv4-0000000002-x". The global
substitution of "1.2.3.4" also rewrites the end of "11.2.3.4", so `Contents`
returns "x-ipv4-0000000001-x 1x-ipv4-0000000001-x". -/
theorem Contents_substitutes_inside_longer_match :
    ipv4PatternFindAllString (ascii "1.2.3.4 11.2.3.4") = [ascii "1.2.3.4", ascii "11.2.3.4"] ∧
      validMatches excludedIPv4s (ipv4PatternFindAllString (ascii "1.2.3.4 11.2.3.4"))
        = [ascii "1.2.3.4", ascii "11.2.3.4"] ∧
      ipv4Obfuscator.Contents
          { tracker := NewSimpleTracker
            gen := newGenerator consistentIPv4Template obfuscatedStaticIPv4 9999999999
            replacementType := ObfuscateReplacementTypeConsistent }
          (ascii "1.2.3.4 11.2.3.4")
        = some (ascii "x-ipv4-0000000001-x 1x-ipv4-0000000001-x",
            { tracker := [(ascii "1.2.3.4", ascii "x-ipv4-0000000001-x"),
                          (ascii "11.2.3.4", ascii "x-ipv4-0000000002-x")]
              gen := { template := consistentIPv4Template, static := obfuscatedStaticIPv4,
                       count := 3, max := 9999999999 }
              replacementType := ObfuscateReplacementTypeConsistent }) ∧
      ipv4SpansReplaced
          (Report [(ascii "1.2.3.4", ascii "x-ipv4-0000000001-x"),
                   (ascii "11.2.3.4", ascii "x-ipv4-0000000002-x")])
          (ascii "1.2.3.4 11.2.3.4")
        = ascii "x-ipv4-0000000001-x x-ipv4-0000000002-x" ∧
      ascii "x-ipv4-0000000001-x 1x-ipv4-0000000001-x"
        ≠ ascii "x-ipv4-0000000001-x x-ipv4-0000000002-x" := by
  decide

/-- C16, amended: for a fresh obfuscator from `NewIPv4Obfuscator` in consistent
mode and every input `s`, `Contents(s)` does not halt; every match of the
pattern that is not excluded and is an IP address once its dashes are turned
into dots is a key of the report, with the replacement of its cleaned form;
and the output is `s` after, for each such match in the order of the matches,
the global substitution of every literal occurrence of the match in the text
so far by the replacement that the report records for it. -/
theorem Contents_global_substitution (o : ipv4Obfuscator) (s : Str)
    (ho : NewIPv4Obfuscator ObfuscateReplacementTypeConsistent = .ok o) :
    ∃ o1, o.Contents s
        = some (substituteAll (Report o1.tracker)
            (validMatches excludedIPv4s (ipv4PatternFindAllString s)) s, o1) ∧
      ∀ m ∈ validMatches excludedIPv4s (ipv4PatternFindAllString s),
        ∃ r, mapGet (Report o1.tracker) m = some r ∧
          mapGet (Report o1.tracker) (cleaned m) = some r := by
  have hoe : o = { tracker := NewSimpleTracker
                   gen := newGenerator consistentIPv4Template obfuscatedStaticIPv4 9999999999
                   replacementType := ObfuscateReplacementTypeConsistent } := by
    cases ho
    rfl
  subst hoe
  have hca : CleanedAgree NewSimpleTracker := by
    intro k v h
    cases h
  obtain ⟨tr1, g1, hrun, -, hca1, hkeys⟩ :=
    replaceMatches_fold excludedIPv4s ObfuscateReplacementTypeConsistent (Or.inr rfl)
      (ipv4PatternFindAllString s) s NewSimpleTracker
      (newGenerator consistentIPv4Template obfuscatedStaticIPv4 9999999999) hca
  refine ⟨{ tracker := tr1, gen := g1, replacementType := ObfuscateReplacementTypeConsistent },
    ?_, ?_⟩
  · unfold ipv4Obfuscator.Contents ipv4Obfuscator.replace
    simp only
    rw [hrun]
    rfl
  · intro m hm
    obtain ⟨r, hr⟩ := hkeys m hm
    exact ⟨r, hr, hca1 m r hr⟩

theorem Contents_global_substitution_witness :
    ∃ o1, ipv4Obfuscator.Contents
        { tracker := NewSimpleTracker
          gen := newGenerator consistentIPv4Template obfuscatedStaticIPv4 9999999999
          replacementType := ObfuscateReplacementTypeConsistent }
        (ascii "ip-10-0-129-220 is 10.0.129.220, not 127.0.0.1")
      = some (substituteAll (Report o1.tracker)
          (validMatches excludedIPv4s
            (ipv4PatternFindAllString (ascii "ip-10-0-129-220 is 10.0.129.220, not 127.0.0.1")))
          (ascii "ip-10-0-129-220 is 10.0.129.220, not 127.0.0.1"), o1) :=
  (Contents_global_substitution
    { tracker := NewSimpleTracker
      gen := newGenerator consistentIPv4Template obfuscatedStaticIPv4 9999999999
      replacementType := ObfuscateReplacementTypeConsistent }
    (ascii "ip-10-0-129-220 is 10.0.129.220, not 127.0.0.1") rfl).imp (fun _ h => h.1)

/-! ## Two goroutines in GenerateIfAbsent -/

/-- C15 on the `SimpleTracker`: `GenerateIfAbsent` takes the lock with `RLock`,
which two goroutines hold together. On a fresh tracker, with the consistent
generator of the IPv4 obfuscators and the schedule that lets the two goroutines
take their steps in turn, both calls for "10.0.0.1" miss the lookup, the
generator is called twice, and the calls return "x-ipv4-0000000001-x" and
"x-ipv4-0000000002-x". -/
theorem GenerateIfAbsent_shared_lock_race :
    runTwo (SimpleShared.step (ascii "10.0.0.1") (ascii "10.0.0.1")
        (some generateConsistentReplacement))
      ({ lock := { readers := 0, writer := false }
         mapping := NewSimpleTracker
         gen := newGenerator consistentIPv4Template obfuscatedStaticIPv4 9999999999
         calls := 0 }, .atLock, .atLock)
      [false, true, false, true, false, true, false, true, false, true]
    = ({ lock := { readers := 0, writer := false }
         mapping := [(ascii "10.0.0.1", ascii "x-ipv4-0000000002-x")]
         gen := { template := consistentIPv4Template, static := obfuscatedStaticIPv4,
                  count := 3, max := 9999999999 }
         calls := 2 },
       .returned (ascii "x-ipv4-0000000001-x"), .returned (ascii "x-ipv4-0000000002-x")) := by
  decide

theorem StripedInvariant.symm {σ : Type} {original : Str} {n : Nat} {g0 g1 : σ} {r : Str}
    {c0 : Nat} {sh : StripedShared σ} {a b : Call}
    (h : StripedInvariant original n g0 g1 r c0 sh a b) :
    StripedInvariant original n g0 g1 r c0 sh b a := by
  refine ⟨h.stripes, h.maps, ?_, fun hc => h.alone ⟨hc.2, hc.1⟩, ?_⟩
  · rw [h.held, Bool.or_comm]
  · rcases h.phase with ⟨h1, h2, h3, h4, h5⟩ | ⟨h1, h2, h3, h4⟩ | ⟨h1, h2, h3, h4, h5⟩
    · exact Or.inl ⟨h1, h2, h3, h5, h4⟩
    · refine Or.inr (Or.inl ⟨h1, h2, h3, ?_⟩)
      rcases h4 with ⟨x, y⟩ | ⟨x, y⟩
      · exact Or.inr ⟨y, x⟩
      · exact Or.inl ⟨y, x⟩
    · exact Or.inr (Or.inr ⟨h1, h2, h3, h5, h4⟩)

/-- A step of the first goroutine keeps the invariant. -/
theorem StripedInvariant.step_first {σ : Type} {original key : Str} {n : Nat} (hn : 0 < n)
    {gen : σ → Str → Str × σ} {g0 : σ} {c0 : Nat} {sh sh1 : StripedShared σ} {a a1 b : Call}
    (h : StripedInvariant original n g0 (gen g0 key).2 (gen g0 key).1 c0 sh a b)
    (hstep : StripedShared.step original key (some gen) sh a = some (sh1, a1)) :
    StripedInvariant original n g0 (gen g0 key).2 (gen g0 key).1 c0 sh1 a1 b := by
  have hlt : sh.tracker.stripeIdx original < sh.stripes.length := by
    rw [h.stripes, ← h.maps]
    exact StripedTracker.stripeIdx_lt _ (by rw [h.maps]; exact hn) original
  cases a with
  | atLock =>
    simp only [StripedShared.step] at hstep
    split at hstep
    · cases hstep
    · rename_i hfree
      simp only [Option.some.injEq, Prod.mk.injEq] at hstep
      obtain ⟨rfl, rfl⟩ := hstep
      have hb : b.inCritical = false := by
        have hh : sh.stripes.getD (sh.tracker.stripeIdx original) false
            = (false || b.inCritical) := h.held
        rw [Bool.false_or] at hh
        rw [← hh]
        simpa using hfree
      refine ⟨by simp [h.stripes], h.maps, ?_, ?_, ?_⟩
      · simp only [Call.inCritical, Bool.true_or]
        exact StripedTracker.getD_set_self _ _ _ _ hlt
      · rw [hb]
        simp
      · rcases h.phase with ⟨h1, h2, h3, -, h5⟩ | ⟨h1, h2, h3, h4⟩ | ⟨h1, h2, h3, -, h5⟩
        · exact Or.inl ⟨h1, h2, h3, trivial, h5⟩
        · rcases h4 with ⟨x, -⟩ | ⟨-, y⟩
          · cases x
          · rw [y] at hb
            cases hb
        · exact Or.inr (Or.inr ⟨h1, h2, h3, trivial, h5⟩)
  | atLookup =>
    simp only [StripedShared.step] at hstep
    have hb : b.inCritical = false := by
      cases hbc : b.inCritical with
      | false => rfl
      | true => exact absurd ⟨rfl, hbc⟩ h.alone
    cases hl : mapGet (sh.tracker.getMap original) original with
    | none =>
      rw [hl] at hstep
      simp only [Option.some.injEq, Prod.mk.injEq] at hstep
      obtain ⟨rfl, rfl⟩ := hstep
      refine ⟨h.stripes, h.maps, ?_, ?_, ?_⟩
      · rw [h.held]
        rfl
      · rw [hb]
        simp
      · rcases h.phase with ⟨h1, h2, h3, -, h5⟩ | ⟨h1, h2, h3, h4⟩ | ⟨h1, h2, h3, -, h5⟩
        · exact Or.inl ⟨h1, h2, h3, trivial, h5⟩
        · rcases h4 with ⟨x, -⟩ | ⟨x, -⟩
          · cases x
          · cases x
        · rw [StripedTracker.lookup, hl] at h1
          cases h1
    | some v =>
      rw [hl] at hstep
      simp only [Option.some.injEq, Prod.mk.injEq] at hstep
      obtain ⟨rfl, rfl⟩ := hstep
      refine ⟨h.stripes, h.maps, ?_, ?_, ?_⟩
      · rw [h.held]
        rfl
      · rw [hb]
        simp
      · rcases h.phase with ⟨h1, h2, h3, -, h5⟩ | ⟨h1, h2, h3, h4⟩ | ⟨h1, h2, h3, -, h5⟩
        · rw [StripedTracker.lookup, hl] at h1
          cases h1
        · rw [StripedTracker.lookup, hl] at h1
          cases h1
        · rw [StripedTracker.lookup, hl] at h1
          simp only [Option.some.injEq] at h1
          exact Or.inr (Or.inr ⟨by rw [StripedTracker.lookup, hl, h1], h2, h3, h1, h5⟩)
  | atGenerate =>
    simp only [StripedShared.step, Option.some.injEq, Prod.mk.injEq] at hstep
    obtain ⟨rfl, rfl⟩ := hstep
    have hb : b.inCritical = false := by
      cases hbc : b.inCritical with
      | false => rfl
      | true => exact absurd ⟨rfl, hbc⟩ h.alone
    refine ⟨h.stripes, h.maps, ?_, ?_, ?_⟩
    · rw [h.held]
      rfl
    · rw [hb]
      simp
    · rcases h.phase with ⟨h1, h2, h3, -, h5⟩ | ⟨h1, h2, h3, h4⟩ | ⟨h1, h2, h3, h4, h5⟩
      · refine Or.inr (Or.inl ⟨h1, by simp [h2], by simp [h3], Or.inl ⟨by rw [h3], ?_⟩⟩)
        cases b with
        | atLock => rfl
        | atLookup => cases hb
        | atGenerate => cases hb
        | atStore _ => cases h5
        | atUnlock _ => cases h5
        | returned _ => cases h5
      · rcases h4 with ⟨x, -⟩ | ⟨x, -⟩
        · cases x
        · cases x
      · cases h4
  | atStore v =>
    simp only [StripedShared.step, Option.some.injEq, Prod.mk.injEq] at hstep
    obtain ⟨rfl, rfl⟩ := hstep
    have hb : b.inCritical = false := by
      cases hbc : b.inCritical with
      | false => rfl
      | true => exact absurd ⟨rfl, hbc⟩ h.alone
    have hm : 0 < sh.tracker.mapping.length := by rw [h.maps]; exact hn
    refine ⟨h.stripes, by simp only [StripedTracker.setIn_length]; exact h.maps, ?_, ?_, ?_⟩
    · simp only [StripedTracker.setIn_stripeIdx]
      rw [h.held]
      rfl
    · rw [hb]
      simp
    · rcases h.phase with ⟨h1, h2, h3, h4, h5⟩ | ⟨h1, h2, h3, h4⟩ | ⟨h1, h2, h3, h4, h5⟩
      · cases h4
      · rcases h4 with ⟨x, y⟩ | ⟨x, -⟩
        · cases x
          subst y
          refine Or.inr (Or.inr ⟨?_, h2, h3, rfl, trivial⟩)
          simp only
          rw [StripedTracker.lookup_setIn _ hm, if_pos rfl]
        · cases x
      · cases h4
  | atUnlock v =>
    simp only [StripedShared.step, Option.some.injEq, Prod.mk.injEq] at hstep
    obtain ⟨rfl, rfl⟩ := hstep
    have hb : b.inCritical = false := by
      cases hbc : b.inCritical with
      | false => rfl
      | true => exact absurd ⟨rfl, hbc⟩ h.alone
    refine ⟨by simp [h.stripes], h.maps, ?_, ?_, ?_⟩
    · rw [StripedTracker.getD_set_self _ _ _ _ hlt]
      show false = (false || b.inCritical)
      rw [hb]
      rfl
    · rw [hb]
      simp
    · rcases h.phase with ⟨h1, h2, h3, h4, h5⟩ | ⟨h1, h2, h3, h4⟩ | ⟨h1, h2, h3, h4, h5⟩
      · cases h4
      · rcases h4 with ⟨x, -⟩ | ⟨x, -⟩
        · cases x
        · cases x
      · exact Or.inr (Or.inr ⟨h1, h2, h3, h4, h5⟩)
  | returned v =>
    simp only [StripedShared.step] at hstep
    cases hstep

/-- Every schedule keeps the invariant. -/
theorem StripedInvariant.after_schedule {σ : Type} {original key : Str} {n : Nat} (hn : 0 < n)
    {gen : σ → Str → Str × σ} {g0 : σ} {c0 : Nat} (schedule : List Bool) :
    ∀ (sh : StripedShared σ) (a b : Call),
      StripedInvariant original n g0 (gen g0 key).2 (gen g0 key).1 c0 sh a b →
      StripedInvariant original n g0 (gen g0 key).2 (gen g0 key).1 c0
        (runTwo (StripedShared.step original key (some gen)) (sh, a, b) schedule).1
        (runTwo (StripedShared.step original key (some gen)) (sh, a, b) schedule).2.1
        (runTwo (StripedShared.step original key (some gen)) (sh, a, b) schedule).2.2 := by
  induction schedule with
  | nil => intro sh a b h; exact h
  | cons t rest ih =>
    intro sh a b h
    cases t with
    | false =>
      rw [runTwo]
      cases hs : StripedShared.step original key (some gen) sh a with
      | none => exact ih sh a b h
      | some p =>
        obtain ⟨sh1, a1⟩ := p
        exact ih sh1 a1 b (h.step_first hn hs)
    | true =>
      rw [runTwo]
      cases hs : StripedShared.step original key (some gen) sh b with
      | none => exact ih sh a b h
      | some p =>
        obtain ⟨sh1, b1⟩ := p
        exact ih sh1 a b1 (h.symm.step_first hn hs).symm

/-- The `StripedTracker` does what C15 says: two goroutines in
`GenerateIfAbsent` for the same `original`, absent at first, under any
schedule after which both have returned, have called the generator once
between them and return the replacement of that one call. The schedule that
lets the first goroutine run and then the second is one after which both have
returned. -/
theorem StripedTracker.generate_once {σ : Type} (s : StripedTracker)
    (hn : 0 < s.mapping.length) (original key : Str) (gen : σ → Str → Str × σ) (g0 : σ)
    (habsent : s.lookup original = none) :
    (∀ (schedule : List Bool) (sh : StripedShared σ) (ra rb : Str),
      runTwo (StripedShared.step original key (some gen))
          ({ stripes := List.replicate s.mapping.length false, tracker := s, gen := g0,
             calls := 0 }, .atLock, .atLock) schedule
        = (sh, .returned ra, .returned rb) →
      ra = (gen g0 key).1 ∧ rb = (gen g0 key).1 ∧ sh.calls = 1 ∧
        sh.tracker.lookup original = some (gen g0 key).1) ∧
    ∃ sh, runTwo (StripedShared.step original key (some gen))
          ({ stripes := List.replicate s.mapping.length false, tracker := s, gen := g0,
             calls := 0 }, .atLock, .atLock)
          [false, false, false, false, false, true, true, true]
        = (sh, .returned (gen g0 key).1, .returned (gen g0 key).1) := by
  have hidx : s.stripeIdx original < s.mapping.length := StripedTracker.stripeIdx_lt s hn original
  have hfree : (List.replicate s.mapping.length false).getD (s.stripeIdx original) false
      = false := by
    rw [List.getD_eq_getElem?_getD, List.getElem?_replicate]
    split <;> rfl
  constructor
  · intro schedule sh ra rb hrun
    have hinit : StripedInvariant original s.mapping.length g0 (gen g0 key).2 (gen g0 key).1 0
        { stripes := List.replicate s.mapping.length false, tracker := s, gen := g0, calls := 0 }
        .atLock .atLock :=
      ⟨by simp, rfl, hfree, by simp [Call.inCritical],
        Or.inl ⟨habsent, rfl, rfl, trivial, trivial⟩⟩
    have hfin := StripedInvariant.after_schedule hn schedule _ _ _ hinit
    rw [hrun] at hfin
    rcases hfin.phase with ⟨-, -, -, h4, -⟩ | ⟨-, -, -, h4⟩ | ⟨h1, h2, -, h4, h5⟩
    · cases h4
    · rcases h4 with ⟨x, -⟩ | ⟨x, -⟩
      · cases x
      · cases x
    · exact ⟨h4, h5, h2, h1⟩
  · have hget : mapGet (s.getMap original) original = none := habsent
    have hget2 : mapGet ((s.setIn original original (gen g0 key).1).getMap original) original
        = some (gen g0 key).1 := by
      have := StripedTracker.lookup_setIn s hn original (gen g0 key).1 original
      rw [if_pos rfl] at this
      exact this
    have hlen : s.stripeIdx original < (List.replicate s.mapping.length false).length := by
      simpa using hidx
    have e : (runTwo (StripedShared.step original key (some gen))
          ({ stripes := List.replicate s.mapping.length false, tracker := s, gen := g0,
             calls := 0 }, .atLock, .atLock)
          [false, false, false, false, false, true, true, true]).2
        = (.returned (gen g0 key).1, .returned (gen g0 key).1) := by
      simp only [runTwo, StripedShared.step, hfree, hget, hget2, StripedTracker.setIn_stripeIdx,
        StripedTracker.getD_set_self _ _ _ _ hlen, Bool.false_eq_true, if_false, List.set_set,
        List.length_set]
    exact ⟨_, Prod.ext rfl e⟩

/-! ## The fatal exit is out of reach of the fast IPv4 obfuscator -/

theorem LiteralKeys.octets {t : Mapping} (h : LiteralKeys t) {a b c d : Nat} {k v : Str}
    (hk : tryParseIPv4 k = (some [a, b, c, d], k.length)) (hv : mapGet t k = some v) :
    mapGet t (literal 46 a b c d) = some v := by
  obtain ⟨a2, b2, c2, d2, -, -, -, -, hp, hget⟩ := h k v hv
  rw [hk] at hp
  simp only [Prod.mk.injEq, Option.some.injEq, List.cons.injEq, and_true] at hp
  obtain ⟨h1, h2, h3, h4⟩ := hp
  subst h1 h2 h3 h4
  exact hget

/-- The invariant is kept when the tracker gains the replacement `r` for a
normalized address and for a literal of it, `r` being the replacement that the
address had if it had one. -/
theorem LiteralKeys.gain {t t1 : Mapping} {lit r : Str} {a b c d : Nat} (h : LiteralKeys t)
    (ha : a ≤ 254) (hb : b ≤ 254) (hc : c ≤ 254) (hd : d ≤ 254)
    (hlit : tryParseIPv4 lit = (some [a, b, c, d], lit.length))
    (hchar : ∀ k, mapGet t1 k =
      if k = literal 46 a b c d ∨ k = lit then some r else mapGet t k)
    (hold : ∀ v, mapGet t (literal 46 a b c d) = some v → v = r) : LiteralKeys t1 := by
  have hdot := tryParseIPv4_dotted a b c d ha hb hc hd
  intro k v hk
  rw [hchar] at hk
  split at hk
  · rename_i hcase
    simp only [Option.some.injEq] at hk
    subst hk
    refine ⟨a, b, c, d, ha, hb, hc, hd, ?_, by rw [hchar, if_pos (Or.inl rfl)]⟩
    rcases hcase with hcase | hcase
    · rw [hcase]; exact hdot
    · rw [hcase]; exact hlit
  · obtain ⟨a2, b2, c2, d2, h1, h2, h3, h4, h5, h6⟩ := h k v hk
    refine ⟨a2, b2, c2, d2, h1, h2, h3, h4, h5, ?_⟩
    rw [hchar]
    split
    · rename_i hcase
      rcases hcase with hcase | hcase
      · rw [hcase] at h6
        rw [hold v h6]
      · rw [hcase] at h6
        rw [hold v (h.octets hlit h6)]
    · exact h6

/-- On a match, the tracker calls of `replace` do not reach the fatal exit and
keep the invariant: neither `AddReplacement` finds its original recorded with
another replacement. -/
theorem LiteralKeys.kept_by_recordMatch {o : fastIpv4Obfuscator} {lit : Str} {a b c d : Nat}
    (hv : ValidType o) (h : LiteralKeys o.tracker) (ha : a ≤ 254) (hb : b ≤ 254) (hc : c ≤ 254)
    (hd : d ≤ 254) (hlit : tryParseIPv4 lit = (some [a, b, c, d], lit.length)) :
    ∃ r o1, recordMatch o (literal 46 a b c d) lit = some (r, o1) ∧ ValidType o1 ∧
      LiteralKeys o1.tracker := by
  cases hg : mapGet o.tracker (literal 46 a b c d) with
  | some r =>
    have hold : ∀ v, mapGet o.tracker (literal 46 a b c d) = some v → v = r := by
      intro v hv2
      rw [hg] at hv2
      exact (Option.some.inj hv2).symm
    cases hl : mapGet o.tracker lit with
    | none =>
      refine ⟨_, _, recordMatch_known_absent o hv _ _ _ hg hl, hv, ?_⟩
      refine h.gain ha hb hc hd hlit ?_ hold
      intro k
      simp only [mapGet_mapSet]
      by_cases hk : lit = k
      · subst hk
        simp
      · have hk2 : ¬ k = lit := fun e => hk e.symm
        by_cases hk3 : k = literal 46 a b c d
        · subst hk3
          simp [hk, hg]
        · simp [hk, hk2, hk3]
    | some v =>
      have hv2 := hold v (h.octets hlit hl)
      subst hv2
      refine ⟨_, _, recordMatch_known_present o hv _ _ _ hg hl, hv, ?_⟩
      refine h.gain ha hb hc hd hlit ?_ hold
      intro k
      by_cases hk3 : k = literal 46 a b c d
      · subst hk3
        simp [hg]
      · by_cases hk : k = lit
        · subst hk
          simp [hl]
        · simp [hk, hk3]
  | none =>
    have hold : ∀ v, mapGet o.tracker (literal 46 a b c d) = some v → v = nextReplacement o := by
      intro v hv2
      rw [hg] at hv2
      cases hv2
    by_cases hl : literal 46 a b c d = lit
    · subst hl
      refine ⟨_, _, recordMatch_new_same o hv _ hg, hv, ?_⟩
      refine h.gain ha hb hc hd hlit ?_ hold
      intro k
      simp only [mapGet_mapSet, or_self]
      by_cases hk : literal 46 a b c d = k
      · subst hk
        simp
      · have hk2 : ¬ k = literal 46 a b c d := fun e => hk e.symm
        simp [hk, hk2]
    · have hlnone : mapGet o.tracker lit = none := by
        cases hg2 : mapGet o.tracker lit with
        | none => rfl
        | some v =>
          have := h.octets hlit hg2
          rw [hg] at this
          cases this
      refine ⟨_, _, recordMatch_new_absent o hv _ _ hg hlnone hl, hv, ?_⟩
      refine h.gain ha hb hc hd hlit ?_ hold
      intro k
      simp only [mapGet_mapSet]
      by_cases hk : lit = k
      · subst hk
        simp
      · have hk2 : ¬ k = lit := fun e => hk e.symm
        by_cases hk3 : literal 46 a b c d = k
        · subst hk3
          simp [hk]
        · have hk4 : ¬ k = literal 46 a b c d := fun e => hk3 e.symm
          simp [hk, hk2, hk3, hk4]

/-- The loop of `replace` does not reach the fatal exit from a state with the
invariant, and keeps it. -/
theorem LiteralKeys.kept_by_replaceLoop (s : Str) (fuel i lwi : Nat) (sb : Str)
    {o : fastIpv4Obfuscator} (hv : ValidType o) (h : LiteralKeys o.tracker) :
    ∃ sb1 o1, replaceLoop s fuel i lwi sb o = some (sb1, o1) ∧ ValidType o1 ∧
      LiteralKeys o1.tracker := by
  induction fuel generalizing i lwi sb o with
  | zero => exact ⟨sb, o, rfl, hv, h⟩
  | succ f ih =>
    rw [replaceLoop_succ]
    rcases hf : FindNextIPv4 (s.drop i) with ⟨ip, st, en⟩
    simp only
    split
    · split
      · rename_i hip
        obtain ⟨a, b, c, d, ha, hb, hc, hd, hipeq, hlit⟩ := findNext_match hf hip
        subst hipeq
        obtain ⟨r, o1, hrec, hv1, h1⟩ := h.kept_by_recordMatch hv ha hb hc hd hlit
        rw [hrec]
        simp only [Option.some_bind]
        exact ih _ _ _ hv1 h1
      · exact ih _ _ _ hv h
    · exact ⟨sb, o, rfl, hv, h⟩

/-- A call of `Contents` or `Path` does not reach the fatal exit from a state
with the invariant, and keeps it. -/
theorem LiteralKeys.kept_by_callOne (call : ObfuscatorCall) {o : fastIpv4Obfuscator}
    (hv : ValidType o) (h : LiteralKeys o.tracker) :
    ∃ out o1, callOne o call = some (out, o1) ∧ ValidType o1 ∧ LiteralKeys o1.tracker := by
  have key : ∀ s, ∃ out o1, replace o s = some (out, o1) ∧ ValidType o1 ∧
      LiteralKeys o1.tracker := by
    intro s
    obtain ⟨sb1, o1, hloop, hv1, h1⟩ := h.kept_by_replaceLoop s s.length 0 0 [] hv
    unfold replace
    rw [hloop]
    simp only
    split
    · exact ⟨_, _, rfl, hv1, h1⟩
    · exact ⟨_, _, rfl, hv1, h1⟩
  cases call with
  | contents s => exact key s
  | path s => exact key s

theorem LiteralKeys.kept_by_callAll (calls : List ObfuscatorCall) {o : fastIpv4Obfuscator}
    (hv : ValidType o) (h : LiteralKeys o.tracker) :
    ∃ outs o1, callAll o calls = some (outs, o1) ∧ outs.length = calls.length ∧
      ValidType o1 ∧ LiteralKeys o1.tracker := by
  induction calls generalizing o with
  | nil => exact ⟨[], o, rfl, rfl, hv, h⟩
  | cons call rest ih =>
    obtain ⟨out, o1, hc, hv1, h1⟩ := h.kept_by_callOne call hv
    obtain ⟨outs, o2, hc2, hlen, hv2, h2⟩ := ih hv1 h1
    refine ⟨out :: outs, o2, ?_, by simp [hlen], hv2, h2⟩
    rw [callAll, hc]
    simp only
    rw [hc2]

/-- C21: on a fresh obfuscator from `NewFastIPv4Obfuscator`, in static or in
consistent mode, every finite sequence of `Contents` and `Path` calls on
arbitrary inputs returns from every call: no `AddReplacement` finds its original
recorded with another replacement, the one way to the fatal exit. The tracker
keeps the invariant that every key is an address literal with the replacement
of its normalized dotted form. -/
theorem fresh_never_conflicts (t : Str) (o : fastIpv4Obfuscator)
    (hnew : NewFastIPv4Obfuscator t = Except.ok o) (calls : List ObfuscatorCall) :
    ∃ outs o1, callAll o calls = some (outs, o1) ∧ outs.length = calls.length ∧
      LiteralKeys (Report o1.tracker) := by
  have ht : IsMode t := by
    by_contra hn
    unfold NewFastIPv4Obfuscator at hnew
    rw [if_pos ((not_mode_iff t).2 hn)] at hnew
    cases hnew
  have hoe : o = { tracker := NewSimpleTracker
                   gen := newGenerator consistentIPv4Template obfuscatedStaticIPv4 9999999999
                   replacementType := t } := by
    unfold NewFastIPv4Obfuscator at hnew
    split at hnew
    · cases hnew
    · cases hnew
      rfl
  subst hoe
  have h0 : LiteralKeys NewSimpleTracker := by
    intro k v hk
    cases hk
  have hv : ValidType { tracker := NewSimpleTracker
                        gen := newGenerator consistentIPv4Template obfuscatedStaticIPv4 9999999999
                        replacementType := t } := ht
  obtain ⟨outs, o1, hc, hlen, -, h1⟩ := LiteralKeys.kept_by_callAll calls hv h0
  exact ⟨outs, o1, hc, hlen, h1⟩

/-- A witness of C21: in static mode, a `Contents` call with the two spellings
of an address and a `Path` call. -/
theorem fresh_never_conflicts_witness :
    ∃ outs o1, callAll freshStatic
        [ObfuscatorCall.contents (ascii "from 10.0.0.1 to 10-0-0-1"),
          ObfuscatorCall.path (ascii "ip-10-0-0-2.log")] = some (outs, o1) ∧
      outs.length = 2 ∧ LiteralKeys (Report o1.tracker) :=
  fresh_never_conflicts ObfuscateReplacementTypeStatic freshStatic rfl
    [ObfuscatorCall.contents (ascii "from 10.0.0.1 to 10-0-0-1"),
      ObfuscatorCall.path (ascii "ip-10-0-0-2.log")]

/-! ## No index or slice of the fast path is out of range -/

theorem indexAt_ok (s : Str) (i : Nat) (h : i < s.length) : indexAt s i = .ok (s.getD i 0) := by
  rw [indexAt, if_pos h]

theorem sliceFromAt_ok (s : Str) (a : Nat) (h : a ≤ s.length) :
    sliceFromAt s a = .ok (s.drop a) := by
  rw [sliceFromAt, if_pos h]

theorem sliceAt_ok (s : Str) (a b : Nat) (h1 : a ≤ b) (h2 : b ≤ s.length) :
    sliceAt s a b = .ok (slice s a b) := by
  rw [sliceAt, if_pos ⟨h1, h2⟩]

theorem drop_eq_getD_cons (s : Str) (i : Nat) (h : i < s.length) :
    s.drop i = s.getD i 0 :: s.drop (i + 1) := by
  rw [List.getD_eq_getElem _ _ h]
  exact List.drop_eq_getElem_cons h

/-- The loop of `parseOctet` reads no byte out of range, and the fuel given is
enough. -/
theorem parseOctetCheckedLoop_eq (s : Str) (fuel n i : Nat) (hi : i ≤ s.length)
    (hf : s.length < i + fuel) :
    parseOctetCheckedLoop s fuel n i = .ok (parseOctetLoop (s.drop i) n i) := by
  induction fuel generalizing n i with
  | zero => omega
  | succ f ih =>
    rw [parseOctetCheckedLoop]
    by_cases hlt : i < s.length
    · rw [if_pos hlt, indexAt_ok s i hlt, drop_eq_getD_cons s i hlt, parseOctetLoop]
      simp only [Checked.andThen]
      split
      · split
        · rfl
        · exact ih _ _ (by omega) (by omega)
      · split <;> rfl
    · rw [if_neg hlt, List.drop_of_length_le (by omega), parseOctetLoop]
      split <;> rfl

theorem parseOctetChecked_eq (s : Str) : parseOctetChecked s = .ok (parseOctet s) := by
  have := parseOctetCheckedLoop_eq s (s.length + 1) 0 0 (by omega) (by omega)
  rw [List.drop_zero] at this
  exact this

/-- The bytes that `parseOctet` reports as consumed are bytes of the text. -/
theorem parseOctet_consumed_le {s : Str} {v c : Nat} (h : parseOctet s = (v, c, true)) :
    c ≤ s.length := by
  obtain ⟨ds, rest, hs, -, -, hc, -, -⟩ := parseOctet_ok h
  rw [hs, hc]
  simp

/-- The loop of `tryParseIPv4` takes no byte and no slice out of range. -/
theorem tryParseIPv4CheckedLoop_eq (oLen k i : Nat) (s : Str) (lastSep : Nat) (p : List Nat) :
    tryParseIPv4CheckedLoop oLen k i s lastSep p = .ok (tryParseIPv4Loop oLen k i s lastSep p) := by
  induction k generalizing i s lastSep p with
  | zero => rfl
  | succ k ih =>
    rw [tryParseIPv4CheckedLoop, tryParseIPv4Loop]
    by_cases h0 : s.length = 0
    · rw [if_pos h0, if_pos h0]
    · rw [if_neg h0, if_neg h0]
      have hpos : 0 < s.length := Nat.pos_of_ne_zero h0
      have hhead : s.getD 0 0 = s.headD 0 := by
        cases s with
        | nil => simp at hpos
        | cons a t => rfl
      by_cases hi : i > 0
      · rw [if_pos hi, indexAt_ok s 0 hpos, hhead]
        simp only [Checked.andThen, hi, true_and, if_true]
        by_cases hsep : (s.headD 0 ≠ 46 ∧ s.headD 0 ≠ 45) ∨ (lastSep ≠ 0 ∧ s.headD 0 ≠ lastSep)
        · rw [if_pos hsep, if_pos hsep]
        · rw [if_neg hsep, if_neg hsep, sliceFromAt_ok s 1 (by omega)]
          simp only [Checked.andThen]
          rw [parseOctetChecked_eq]
          simp only [Checked.andThen]
          rcases hp : parseOctet (s.drop 1) with ⟨n, c, ok⟩
          simp only
          by_cases hok : ok = false ∨ n > 0xFF
          · rw [if_pos hok, if_pos hok]
          · rw [if_neg hok, if_neg hok]
            have hokt : ok = true := by
              cases ok with
              | true => rfl
              | false => exact absurd (Or.inl rfl) hok
            subst hokt
            rw [sliceFromAt_ok _ c (parseOctet_consumed_le hp)]
            simp only [Checked.andThen]
            exact ih _ _ _ _
      · rw [if_neg hi]
        simp only [hi, false_and, if_false]
        rw [parseOctetChecked_eq]
        simp only [Checked.andThen]
        rcases hp : parseOctet s with ⟨n, c, ok⟩
        simp only
        by_cases hok : ok = false ∨ n > 0xFF
        · rw [if_pos hok, if_pos hok]
        · rw [if_neg hok, if_neg hok]
          have hokt : ok = true := by
            cases ok with
            | true => rfl
            | false => exact absurd (Or.inl rfl) hok
          subst hokt
          rw [sliceFromAt_ok _ c (parseOctet_consumed_le hp)]
          simp only [Checked.andThen]
          exact ih _ _ _ _

theorem tryParseIPv4Checked_eq (s : Str) : tryParseIPv4Checked s = .ok (tryParseIPv4 s) :=
  tryParseIPv4CheckedLoop_eq _ _ _ _ _ _

/-- The loop of `FindNextIPv4` takes no byte and no slice out of range, and the
fuel given is enough. -/
theorem findCheckedLoop_eq (s : Str) (fuel i : Nat) (h1 : 1 ≤ fuel) (h2 : s.length < i + fuel) :
    findCheckedLoop s fuel i = .ok (findFrom s i) := by
  induction fuel generalizing i with
  | zero => omega
  | succ f ih =>
    rw [findCheckedLoop]
    by_cases hlt : i < s.length
    · rw [if_pos hlt, indexAt_ok s i hlt]
      simp only [Checked.andThen]
      by_cases hc : s.getD i 0 ≥ 49 ∧ s.getD i 0 ≤ 57
      · rw [if_pos hc, sliceFromAt_ok s i (by omega)]
        simp only [Checked.andThen]
        rw [tryParseIPv4Checked_eq]
        simp only [Checked.andThen]
        have hsd : isStartDigit (s.getD i 0) := hc
        rcases hp : tryParseIPv4 (s.drop i) with ⟨q, n⟩
        cases q with
        | some q =>
          simp only
          rw [findFrom_found s i hlt hsd hp]
        | none =>
          simp only
          rw [findFrom_failed s i hlt hsd hp]
          exact ih _ (by omega) (by omega)
      · rw [if_neg hc]
        have hsd : ¬ isStartDigit (s.getD i 0) := hc
        rw [findFrom_skip s i hlt hsd]
        exact ih _ (by omega) (by omega)
    · rw [if_neg hlt, findFrom_done s i (by omega)]

theorem FindNextIPv4Checked_eq (s : Str) : FindNextIPv4Checked s = .ok (FindNextIPv4 s) := by
  rw [← findFrom_zero]
  exact findCheckedLoop_eq s (s.length + 1) 0 (by omega) (by omega)

/-- The loop of `replace` takes no byte and no slice out of range, from any
state of the loop with `lastWriteIndex <= i`, and the fuel given is enough. -/
theorem replaceCheckedLoop_eq (s : Str) (fuel i lwi : Nat) (sb : Str) (o : fastIpv4Obfuscator)
    (h1 : 1 ≤ fuel) (h2 : s.length < i + fuel) (hl : lwi ≤ i) :
    replaceCheckedLoop s fuel i lwi sb o = .ok (replaceFrom s i lwi sb o) := by
  induction fuel generalizing i lwi sb o with
  | zero => omega
  | succ f ih =>
    rw [replaceCheckedLoop]
    by_cases hlt : i < s.length
    · rw [if_pos hlt, sliceFromAt_ok s i (by omega)]
      simp only [Checked.andThen]
      rw [FindNextIPv4Checked_eq]
      simp only [Checked.andThen]
      rcases hf : FindNextIPv4 (s.drop i) with ⟨ip, st, en⟩
      simp only
      by_cases hip : ip ≠ []
      · rw [if_pos hip, replaceFrom_match_step s i lwi sb o hlt hf hip]
        obtain ⟨hse, hen⟩ := findNext_end_pos hf hip
        rw [List.length_drop] at hen
        unfold recordMatch
        rcases hg : generateFor o ip with ⟨rep, o1⟩
        simp only
        cases ha1 : AddReplacement o1.tracker ip rep with
        | none => rfl
        | some m2 =>
          simp only
          rw [sliceAt_ok (s.drop i) st en (by omega) (by rw [List.length_drop]; omega)]
          simp only [Checked.andThen]
          cases ha2 : AddReplacement m2 (slice (s.drop i) st en) rep with
          | none => rfl
          | some m3 =>
            simp only
            rw [sliceAt_ok s lwi (i + st) (by omega) (by omega)]
            simp only [Checked.andThen, Option.some_bind]
            exact ih _ _ _ _ (by omega) (by omega) (le_refl _)
      · rw [if_neg hip, indexAt_ok s i hlt]
        simp only [Checked.andThen]
        have hnil : (FindNextIPv4 (s.drop i)).1 = [] := by
          rw [hf]
          exact not_not.1 hip
        rw [replaceFrom_plain_step s i lwi sb o hlt hnil]
        exact ih _ _ _ _ (by omega) (by omega) (by omega)
    · rw [if_neg hlt, replaceFrom_done s i lwi sb o (by omega)]

theorem replaceChecked_eq (o : fastIpv4Obfuscator) (s : Str) :
    replaceChecked o s = .ok (replace o s) := by
  unfold replaceChecked
  rw [replaceCheckedLoop_eq s (s.length + 1) 0 0 [] o (by omega) (by omega) (le_refl _),
    replace_eq]
  simp only [Checked.andThen]
  cases replaceFrom s 0 0 [] o with
  | none => rfl
  | some r =>
    rcases r with ⟨sb, o1⟩
    simp only [Option.map_some']
    split <;> rfl

/-- C22: for every input `s` and every state of the obfuscator, the run of
`Contents(s)` (and of `Path(s)`) in which every index and slice expression is
checked as the Go runtime checks it ends without a panic, with the result of
the unchecked run: `s[i:]`, `s[i:][start:end]`, `s[lastWriteIndex : i+start]`
and `s[i]` in `replace` are in range, the slice bounds being ordered because
`lastWriteIndex <= i` holds at every iteration. The same holds for
`FindNextIPv4`, `tryParseIPv4` and `parseOctet` on every input, and the loops
end within the fuel given. -/
theorem fast_path_in_range (o : fastIpv4Obfuscator) (s : Str) :
    ContentsChecked o s = .ok (Contents o s) ∧
      PathChecked o s = .ok (Path o s) ∧
      FindNextIPv4Checked s = .ok (FindNextIPv4 s) ∧
      tryParseIPv4Checked s = .ok (tryParseIPv4 s) ∧
      parseOctetChecked s = .ok (parseOctet s) ∧
      (∀ fuel i lastWriteIndex sb, 1 ≤ fuel → s.length < i + fuel → lastWriteIndex ≤ i →
        replaceCheckedLoop s fuel i lastWriteIndex sb o ≠ .outOfRange) :=
  ⟨replaceChecked_eq o s, replaceChecked_eq o s, FindNextIPv4Checked_eq s,
    tryParseIPv4Checked_eq s, parseOctetChecked_eq s,
    fun fuel i lwi sb h1 h2 hl => by
      rw [replaceCheckedLoop_eq s fuel i lwi sb o h1 h2 hl]
      intro h
      cases h⟩

/-- A witness of C22: the loop of `replace` from index 8 of a text of 15 bytes,
after the match of its first 7 bytes. -/
theorem fast_path_in_range_witness :
    replaceCheckedLoop (ascii "1.2.3.4 at 8080") 9 7 7 (ascii "x") freshStatic
      ≠ Checked.outOfRange :=
  (fast_path_in_range freshStatic (ascii "1.2.3.4 at 8080")).2.2.2.2.2 9 7 7 (ascii "x")
    (by decide) (by decide) (by decide)


end MustGatherClean
